import Mathlib

/-!
Verification development for the `final-timetable` repository.

The Python sources (`config.py`, `excel_loader.py`, `schedule_generator.py`) are
shallowly embedded below.  Pure helpers become Lean functions; the mutable state of
`ScheduleGenerator` (the global slot registry, the shared minor/elective slot
registries, the allocation bookkeeping) becomes an explicit `GenState` record that is
threaded through the embedded operations; `random.choice`/`random.shuffle` become an
explicit oracle argument (a function from the attempt counter to an index), so every
theorem quantifies over all possible random draws.

Python dictionaries are modelled as insertion-ordered association lists (`setA`
replaces an existing binding in place or appends a new one, exactly the dict
semantics); Python sets are modelled as lists queried only through membership.
The global-slot keys `f"{department}_{session}"`, which the source immediately splits
back at `'_'` into the department and the session (neither of which contains an
underscore), are modelled directly as pairs.
-/

namespace Timetable

/-- `config.py`: `DAYS`. -/
def DAYS : List String := ["MON", "TUE", "WED", "THU", "FRI"]

/-- `config.py`: `TEACHING_SLOTS` (30-minute slots, 07:30–17:30). -/
def TEACHING_SLOTS : List String :=
  ["07:30-08:00", "08:00-08:30", "08:30-09:00",
   "09:00-09:30", "09:30-10:00", "10:00-10:30",
   "10:30-11:00", "11:00-11:30", "11:30-12:00",
   "12:00-12:30", "12:30-13:00",
   "13:00-13:30", "13:30-14:00",
   "14:00-14:30", "14:30-15:00",
   "15:00-15:30", "15:30-16:00",
   "16:00-16:30", "16:30-17:00",
   "17:00-17:30"]

/-- `config.py`: `LUNCH_SLOTS`. -/
def LUNCH_SLOTS : List String := ["13:00-13:30", "13:30-14:00"]

/-- `config.py`: `MINOR_SLOTS`. -/
def MINOR_SLOTS : List String := ["07:30-08:00", "08:00-08:30"]

/-- `config.py`: `LECTURE_DURATION` (slots per lecture meeting). -/
def LECTURE_DURATION : Nat := 3

/-- `config.py`: `TUTORIAL_DURATION`. -/
def TUTORIAL_DURATION : Nat := 2

/-- `config.py`: `LAB_DURATION`. -/
def LAB_DURATION : Nat := 4

/-- `config.py`: `MINOR_DURATION`. -/
def MINOR_DURATION : Nat := 2

/-- `config.py`: `MINOR_CLASSES_PER_WEEK`. -/
def MINOR_CLASSES_PER_WEEK : Nat := 2

/-- `config.py`: `MINOR_SUBJECT`. -/
def MINOR_SUBJECT : String := "Minor"

/-- `config.py`: `PRE_MID`. -/
def PRE_MID : String := "Pre-Mid"

/-- `config.py`: `POST_MID`. -/
def POST_MID : String := "Post-Mid"

/-! ### Association-list model of Python dicts -/

/-- Python dict assignment `d[k] = v`: replace the binding in place, else append. -/
def setA {α β : Type} [BEq α] : List (α × β) → α → β → List (α × β)
  | [], k, v => [(k, v)]
  | (k', v') :: rest, k, v =>
      if k' == k then (k, v) :: rest else (k', v') :: setA rest k v

/-- Python set `s.add(c)` on a list viewed as a set (membership-preserving). -/
def addCell {α : Type} [BEq α] (cells : List α) (c : α) : List α :=
  if cells.contains c then cells else cells ++ [c]

/-- `str(x).upper()` as a character list (kept as a list so the kernel can evaluate). -/
def upperChars (s : String) : List Char := s.data.map Char.toUpper

/-- Case-insensitive substring test, the model of Python
`PAT in str(x).upper()` / `Series.str.contains(PAT, case=False)` for a literal pattern. -/
def containsCI (pat s : String) : Bool :=
  (upperChars s).tails.any (fun t => List.isPrefixOf (upperChars pat) t)

/-- Python `str(x).strip()`: drop whitespace from both ends. -/
def strTrim (s : String) : String :=
  String.mk
    (((s.data.dropWhile Char.isWhitespace).reverse.dropWhile Char.isWhitespace).reverse)

/-! ### Grid and slot primitives (`schedule_generator.py`) -/

/-- A (day, slot) cell of the weekly grid. -/
abbrev Cell := String × String

/-- A committed (day, start-slot) pair, as stored in the shared registries. -/
abbrev SlotPair := String × String

/-- The local `ScheduleGrid` of one (semester, department, session):
a function from day and slot to the cell label. -/
def Grid := String → String → String

/-- `ScheduleGenerator._initialize_schedule`: everything `"Free"`, lunch cells
pre-marked `"LUNCH BREAK"`. -/
def initialSchedule : Grid := fun _ slot =>
  if LUNCH_SLOTS.contains slot then "LUNCH BREAK" else "Free"

/-- `ScheduleGenerator._get_consecutive_slots`. -/
def getConsecutiveSlots (startSlot : String) (duration : Nat) : List String :=
  match TEACHING_SLOTS.findIdx? (fun s => s == startSlot) with
  | some i =>
      if i + duration ≤ TEACHING_SLOTS.length then
        (TEACHING_SLOTS.drop i).take duration
      else []
  | none => []

/-- `ScheduleGenerator._departments_can_share_slots`: the single share group is
`{"CSE-A", "CSE-B"}`. -/
def departmentsCanShareSlots (deptA deptB : String) : Bool :=
  if deptA == "" || deptB == "" then false
  else (deptA == "CSE-A" || deptA == "CSE-B") && (deptB == "CSE-A" || deptB == "CSE-B")

/-- Key of one department+session in the per-semester global registry
(the source's `f"{department}_{session}"`, split back at `'_'` on every read). -/
abbrev DeptKey := String × String

/-- One semester's global occupancy table: (department, session) to booked cells. -/
abbrev GlobalTable := List (DeptKey × List Cell)

/-- `f"sem_{semester_id}"`. -/
def semKeyOf (semesterId : Nat) : String := "sem_" ++ toString semesterId

/-- `ScheduleGenerator._is_time_slot_available_global`.  Returns `false` exactly when
some booked cell blocks: the booking shares the department and the session and the
departments-can-share rule does not fire. -/
def isTimeSlotAvailableGlobal (tables : List (String × GlobalTable))
    (day : String) (slots : List String) (department session : String)
    (semesterId : Nat) : Bool :=
  match List.lookup (semKeyOf semesterId) tables with
  | none => true
  | some table =>
      slots.all fun slot =>
        table.all fun entry =>
          let deptInSlot := entry.1.1
          let sessionInSlot := entry.1.2
          if entry.2.contains (day, slot) then
            if departmentsCanShareSlots department deptInSlot then true
            else if department == deptInSlot && session != sessionInSlot then true
            else if department != deptInSlot then true
            else false
          else true

/-- `ScheduleGenerator._mark_slots_busy_global` (the `room_occupancy` priming it also
does is part of the room allocator and modelled there). -/
def markSlotsBusyGlobal (tables : List (String × GlobalTable)) (day : String)
    (slots : List String) (department session : String) (semesterId : Nat) :
    List (String × GlobalTable) :=
  let semKey := semKeyOf semesterId
  let table := (List.lookup semKey tables).getD []
  let key : DeptKey := (department, session)
  let cells := (List.lookup key table).getD []
  let cells' := slots.foldl (fun acc slot => addCell acc (day, slot)) cells
  setA tables semKey (setA table key cells')

/-- `ScheduleGenerator._is_time_slot_available_local`. -/
def isTimeSlotAvailableLocal (schedule : Grid) (day : String) (slots : List String) : Bool :=
  slots.all fun slot => schedule day slot == "Free"

/-- The suffix `_mark_slots_busy_local` appends to the course code. -/
def classSuffix (classType : String) : String :=
  if classType == "Lab" then " (Lab)"
  else if classType == "Tutorial" then " (Tut)"
  else if classType == "Minor" then " (Minor)"
  else ""

/-- `ScheduleGenerator._mark_slots_busy_local`. -/
def markSlotsBusyLocal (schedule : Grid) (day : String) (slots : List String)
    (courseCode classType : String) : Grid :=
  fun d s =>
    if d == day && slots.contains s then courseCode ++ classSuffix classType
    else schedule d s

/-! ### Generator state

`ScheduleGenerator.__init__` fields used by the slot allocator.  The combined-slot
registries are included because `_schedule_course._apply_existing_combined` reads them,
but their only writer `_assign_combined_slots` has no caller anywhere in the repository
("Combined fallback disabled"), so they stay empty in every run.  `replayClobbered` is a
ghost monitor with no counterpart in the source: it is set (and never read by the
embedded operations) when an elective or minor registry replay writes over a cell that
is not locally `"Free"`; it only serves to state theorems about replay behaviour.
The write-only bookkeeping `self.scheduled_slots` and the room-allocation fields
(`room_occupancy`, `assigned_rooms`, …) belong to the room allocator, which is
modelled separately through its `room_bookings` input. -/
structure GenState where
  semesterGlobalSlots : List (String × GlobalTable) := []
  semesterMinorSlots : List (String × List SlotPair) := []
  semesterElectiveSlots : List ((String × String) × List SlotPair) := []
  semesterCombinedCourseSlots : List ((Nat × String × String) × List SlotPair) := []
  globalCombinedCourseSlots : List ((Option String × String × String) × List SlotPair) := []
  scheduledCourses : List ((Nat × String × String × String) × List String) := []
  actualAllocations : List ((Nat × String × String × String) × (Nat × Nat × Nat)) := []
  replayClobbered : Bool := false

def initialGenState : GenState := {}

/-- One committed component instance: a contiguous run of cells on one day. -/
structure Commit where
  code : String
  ctype : String
  day : String
  slots : List String
deriving DecidableEq

/-- The cells a commit occupies. -/
def Commit.cells (c : Commit) : List Cell := c.slots.map (fun s => (c.day, s))

/-- `regular_slots`: teaching slots outside `MINOR_SLOTS + LUNCH_SLOTS`
(recomputed identically in every fresh-search routine of the source). -/
def regularSlots : List String :=
  TEACHING_SLOTS.filter (fun s => !((MINOR_SLOTS ++ LUNCH_SLOTS).contains s))

/-- A fresh-search candidate: (day, start slot, covered slots). -/
abbrev Combo := String × String × List String

/-- `all_combinations` as built by `_schedule_lectures` / `_schedule_tutorials`
(lines 276–282 / 544–551): candidates whose covered slots, filtered to regular
slots, still have the full duration. -/
def combosFor (duration : Nat) : List Combo :=
  DAYS.flatMap fun day =>
    (List.range (regularSlots.length + 1 - duration)).filterMap fun i =>
      let startSlot := regularSlots.getD i ""
      let slots := (getConsecutiveSlots startSlot duration).filter
        (fun s => regularSlots.contains s)
      if slots.length == duration then some (day, startSlot, slots) else none

/-- `all_combinations` as built by `_schedule_labs` (lines 596–603): the guard demands
every covered slot regular and keeps the unfiltered sequence. -/
def labCombos : List Combo :=
  DAYS.flatMap fun day =>
    (List.range (regularSlots.length + 1 - LAB_DURATION)).filterMap fun i =>
      let startSlot := regularSlots.getD i ""
      let seq := getConsecutiveSlots startSlot LAB_DURATION
      if seq.length == LAB_DURATION && seq.all (fun s => regularSlots.contains s) then
        some (day, startSlot, seq)
      else none

/-- Mark helper on the state: add covered cells to the global registry. -/
def markGlobalSt (st : GenState) (day : String) (slots : List String)
    (department session : String) (semesterId : Nat) : GenState :=
  { st with semesterGlobalSlots :=
      markSlotsBusyGlobal st.semesterGlobalSlots day slots department session semesterId }

/-- The common body of `_schedule_labs` / `_schedule_lectures` / `_schedule_tutorials`:
a retry loop bounded by `max_attempts` (the fuel), drawing the `random.choice` result
from the oracle.  The source functions differ only in duration, class label, attempt
budget, and in whether local/global availability is asked slot-by-slot or for the list
at once — the two forms coincide because both checks are conjunctions over the covered
slots.  The shuffle of `all_combinations` is absorbed by the oracle (choosing index `i`
of a shuffled list is choosing some oracle-determined index of the unshuffled one). -/
def freshSearchAux (classType : String) (department session : String) (semesterId : Nat)
    (courseCode : String) (targetUnits : Nat) (oracle : Nat → Nat) :
    Nat → Nat → List Combo → List String → List String → Grid → GenState →
    List Cell → List Commit → List Cell × List Commit × Grid × GenState
  | 0, _, _, _, _, g, st, acc, commits => (acc, commits, g, st)
  | fuel + 1, attempt, combos, usedDays, avoidDays, g, st, acc, commits =>
    if acc.length < targetUnits then
      let avail := combos.filter
        (fun c => !(usedDays.contains c.1) && !(avoidDays.contains c.1))
      let avail := if avail.isEmpty then combos else avail
      if avail.isEmpty then (acc, commits, g, st)
      else
        let c := avail.getD (oracle attempt % avail.length) ("", "", [])
        let day := c.1
        let slots := c.2.2
        if slots.all (fun s =>
            isTimeSlotAvailableLocal g day [s] &&
            isTimeSlotAvailableGlobal st.semesterGlobalSlots day [s] department session
              semesterId) then
          freshSearchAux classType department session semesterId courseCode targetUnits
            oracle fuel (attempt + 1) (combos.filter (fun c' => !(c' == c)))
            (addCell usedDays day) (addCell avoidDays day)
            (slots.foldl (fun gr s => markSlotsBusyLocal gr day [s] courseCode classType) g)
            (slots.foldl (fun t s => markGlobalSt t day [s] department session semesterId) st)
            (acc ++ slots.map (fun s => (day, s)))
            (commits ++ [⟨courseCode, classType, day, slots⟩])
        else
          freshSearchAux classType department session semesterId courseCode targetUnits
            oracle fuel (attempt + 1) combos usedDays avoidDays g st acc commits
    else (acc, commits, g, st)

/-- `ScheduleGenerator._schedule_labs` (`max_attempts = 1000`). -/
def scheduleLabs (g : Grid) (st : GenState) (courseCode : String) (labsPerWeek : Nat)
    (department session : String) (semesterId : Nat) (avoidDays : List String)
    (oracle : Nat → Nat) : List Cell × List Commit × Grid × GenState :=
  if labsPerWeek == 0 then ([], [], g, st)
  else
    freshSearchAux "Lab" department session semesterId courseCode
      (labsPerWeek * LAB_DURATION) oracle 1000 0 labCombos [] avoidDays g st [] []

/-- `ScheduleGenerator._schedule_lectures` (`max_attempts = 2000`). -/
def scheduleLectures (g : Grid) (st : GenState) (courseCode : String)
    (lecturesPerWeek : Nat) (department session : String) (semesterId : Nat)
    (avoidDays : List String) (oracle : Nat → Nat) :
    List Cell × List Commit × Grid × GenState :=
  if lecturesPerWeek == 0 then ([], [], g, st)
  else
    freshSearchAux "Lecture" department session semesterId courseCode
      (lecturesPerWeek * LECTURE_DURATION) oracle 2000 0 (combosFor LECTURE_DURATION)
      [] avoidDays g st [] []

/-- `ScheduleGenerator._schedule_tutorials` (`max_attempts = 1000`). -/
def scheduleTutorials (g : Grid) (st : GenState) (courseCode : String)
    (tutorialsPerWeek : Nat) (department session : String) (semesterId : Nat)
    (avoidDays : List String) (oracle : Nat → Nat) :
    List Cell × List Commit × Grid × GenState :=
  if tutorialsPerWeek == 0 then ([], [], g, st)
  else
    freshSearchAux "Tutorial" department session semesterId courseCode
      (tutorialsPerWeek * TUTORIAL_DURATION) oracle 1000 0 (combosFor TUTORIAL_DURATION)
      [] avoidDays g st [] []

/-! ### Electives (`_schedule_elective_classes`) -/

/-- The replay loop of `_schedule_elective_classes` (lines 380–387 and 399–406):
re-commit every stored (day, start) pair, skipping avoided days, with NO local or
global availability check.  The `replayClobbered` ghost flag records whether any
covered cell was not `"Free"` at the moment it was overwritten. -/
def electiveReplayAux (avoidDays : List String)
    (courseCode department session : String) (semesterId : Nat) :
    List SlotPair → List Cell → List Commit → Grid → GenState →
    List Cell × List Commit × Grid × GenState
  | [], acc, commits, g, st => (acc, commits, g, st)
  | (day, start) :: rest, acc, commits, g, st =>
    let slots := getConsecutiveSlots start LECTURE_DURATION
    if avoidDays.contains day then
      electiveReplayAux avoidDays courseCode department session semesterId rest acc
        commits g st
    else
      let st1 := { st with replayClobbered :=
        st.replayClobbered || !(isTimeSlotAvailableLocal g day slots) }
      electiveReplayAux avoidDays courseCode department session semesterId rest
        (acc ++ slots.map (fun s => (day, s)))
        (commits ++ [⟨courseCode, "Lecture", day, slots⟩])
        (slots.foldl (fun gr s => markSlotsBusyLocal gr day [s] courseCode "Lecture") g)
        (slots.foldl (fun t s => markGlobalSt t day [s] department session semesterId) st1)

/-- Entry point of the replay loop (empty accumulators). -/
def electiveReplay (assigned : List SlotPair) (avoidDays : List String)
    (courseCode department session : String) (semesterId : Nat) :
    Grid → GenState → List Cell × List Commit × Grid × GenState
  | g, st =>
    electiveReplayAux avoidDays courseCode department session semesterId assigned [] [] g st

/-- The fresh-search loop of `_schedule_elective_classes` (lines 422–447): counts
committed instances in `scheduled` and accumulates the (day, start) pairs. -/
def electiveFreshAux (department session : String) (semesterId : Nat)
    (courseCode : String) (need : Nat) (oracle : Nat → Nat) :
    Nat → Nat → List Combo → List String → List String → Nat → List SlotPair →
    Grid → GenState → List Cell → List Commit →
    List Cell × List Commit × List SlotPair × Grid × GenState
  | 0, _, _, _, _, _, assigned, g, st, acc, commits => (acc, commits, assigned, g, st)
  | fuel + 1, attempt, combos, usedDays, avoidDays, scheduled, assigned, g, st, acc,
      commits =>
    if scheduled < need then
      let avail := combos.filter
        (fun c => !(usedDays.contains c.1) && !(avoidDays.contains c.1))
      let avail := if avail.isEmpty then combos else avail
      if avail.isEmpty then (acc, commits, assigned, g, st)
      else
        let c := avail.getD (oracle attempt % avail.length) ("", "", [])
        let day := c.1
        let startSlot := c.2.1
        let slots := c.2.2
        if isTimeSlotAvailableLocal g day slots &&
            isTimeSlotAvailableGlobal st.semesterGlobalSlots day slots department session
              semesterId then
          electiveFreshAux department session semesterId courseCode need oracle fuel
            (attempt + 1) (combos.filter (fun c' => !(c' == c)))
            (addCell usedDays day) (addCell avoidDays day) (scheduled + 1)
            (assigned ++ [(day, startSlot)])
            (slots.foldl (fun gr s => markSlotsBusyLocal gr day [s] courseCode "Lecture") g)
            (slots.foldl (fun t s => markGlobalSt t day [s] department session semesterId) st)
            (acc ++ slots.map (fun s => (day, s)))
            (commits ++ [⟨courseCode, "Lecture", day, slots⟩])
        else
          electiveFreshAux department session semesterId courseCode need oracle fuel
            (attempt + 1) combos usedDays avoidDays scheduled assigned g st acc commits
    else (acc, commits, assigned, g, st)

/-- `ScheduleGenerator._schedule_elective_classes`: the common-registry replay branch,
the legacy per-course branch (promoting to the common key), and the fresh search that
stores its result under both keys. -/
def scheduleElectiveClasses (g : Grid) (st : GenState) (courseCode : String)
    (electivePerWeek : Nat) (department session : String) (semesterId : Nat)
    (avoidDays : List String) (oracle : Nat → Nat) :
    List Cell × List Commit × Grid × GenState :=
  if electivePerWeek == 0 then ([], [], g, st)
  else
    let semKey := semKeyOf semesterId
    let commonKey := (semKey, "ALL_ELECTIVES")
    let electiveKey := (semKey, courseCode)
    match List.lookup commonKey st.semesterElectiveSlots with
    | some assigned =>
        let out := electiveReplay assigned avoidDays courseCode department session
          semesterId g st
        let st' := out.2.2.2
        let es := setA st'.semesterElectiveSlots electiveKey assigned
        (out.1, out.2.1, out.2.2.1, { st' with semesterElectiveSlots := es })
    | none =>
      match List.lookup electiveKey st.semesterElectiveSlots with
      | some assigned =>
          let es := setA st.semesterElectiveSlots commonKey assigned
          let st := { st with semesterElectiveSlots := es }
          electiveReplay assigned avoidDays courseCode department session semesterId g st
      | none =>
          let out := electiveFreshAux department session semesterId courseCode
            electivePerWeek oracle 1000 0 (combosFor LECTURE_DURATION) [] avoidDays 0 []
            g st [] []
          let assigned := out.2.2.1
          let g' := out.2.2.2.1
          let st' := out.2.2.2.2
          let es := setA (setA st'.semesterElectiveSlots commonKey assigned) electiveKey
            assigned
          let st'' :=
            if assigned.isEmpty then st'
            else { st' with semesterElectiveSlots := es }
          (out.1, out.2.1, g', st'')

/-! ### Minor block (`_schedule_minor_classes`) -/

/-- `minor_starts` (lines 223–227). -/
def minorStarts : List String :=
  MINOR_SLOTS.filter (fun s =>
    let seq := getConsecutiveSlots s MINOR_DURATION
    seq.length == MINOR_DURATION && seq.all (fun x => MINOR_SLOTS.contains x))

/-- The registry replay of `_schedule_minor_classes` (lines 235–241): re-mark the stored
pairs with NO availability check (`replayClobbered` records any overwrite). -/
def minorReplayAux (department session : String) (semesterId : Nat) :
    List SlotPair → Grid → GenState → List Commit → Grid × GenState × List Commit
  | [], g, st, commits => (g, st, commits)
  | (day, start) :: rest, g, st, commits =>
    let slots := getConsecutiveSlots start MINOR_DURATION
    let st1 := { st with replayClobbered :=
      st.replayClobbered || !(isTimeSlotAvailableLocal g day slots) }
    minorReplayAux department session semesterId rest
      (markSlotsBusyLocal g day slots MINOR_SUBJECT "Minor")
      (markGlobalSt st1 day slots department session semesterId)
      (commits ++ [⟨MINOR_SUBJECT, "Minor", day, slots⟩])

/-- Entry point of the minor replay loop. -/
def minorReplay (assigned : List SlotPair) (department session : String)
    (semesterId : Nat) : Grid → GenState → Grid × GenState × List Commit
  | g, st => minorReplayAux department session semesterId assigned g st []

/-- The fresh search of `_schedule_minor_classes` (lines 243–258): the oracle yields the
two `random.choice` indices (day, start) per attempt; budget 200. -/
def minorFreshAux (department session : String) (semesterId : Nat)
    (oracle : Nat → Nat × Nat) :
    Nat → Nat → Nat → List SlotPair → Grid → GenState → List Commit →
    List SlotPair × Grid × GenState × List Commit
  | 0, _, _, assigned, g, st, commits => (assigned, g, st, commits)
  | fuel + 1, attempt, scheduled, assigned, g, st, commits =>
    if scheduled < MINOR_CLASSES_PER_WEEK then
      let pick := oracle attempt
      let day := DAYS.getD (pick.1 % DAYS.length) ""
      let startSlot := minorStarts.getD (pick.2 % minorStarts.length) ""
      let slots := getConsecutiveSlots startSlot MINOR_DURATION
      if slots.length == MINOR_DURATION &&
          isTimeSlotAvailableLocal g day slots &&
          isTimeSlotAvailableGlobal st.semesterGlobalSlots day slots department session
            semesterId then
        minorFreshAux department session semesterId oracle fuel (attempt + 1)
          (scheduled + 1) (assigned ++ [(day, startSlot)])
          (markSlotsBusyLocal g day slots MINOR_SUBJECT "Minor")
          (markGlobalSt st day slots department session semesterId)
          (commits ++ [⟨MINOR_SUBJECT, "Minor", day, slots⟩])
      else
        minorFreshAux department session semesterId oracle fuel (attempt + 1) scheduled
          assigned g st commits
    else (assigned, g, st, commits)

/-- `ScheduleGenerator._schedule_minor_classes`: semester 1 is skipped entirely;
otherwise reuse the semester's stored pairs, or search and store. -/
def scheduleMinorClasses (g : Grid) (st : GenState) (department session : String)
    (semesterId : Nat) (oracle : Nat → Nat × Nat) : Grid × GenState × List Commit :=
  if semesterId == 1 then (g, st, [])
  else if minorStarts.isEmpty then (g, st, [])
  else
    let semKey := semKeyOf semesterId
    match List.lookup semKey st.semesterMinorSlots with
    | some assigned => minorReplay assigned department session semesterId g st
    | none =>
        let out := minorFreshAux department session semesterId oracle 200 0 0 [] g st []
        let assigned := out.1
        let g' := out.2.1
        let st' := out.2.2.1
        let commits := out.2.2.2
        let ms := setA st'.semesterMinorSlots semKey assigned
        let st'' :=
          if assigned.isEmpty then st'
          else { st' with semesterMinorSlots := ms }
        (g', st'', commits)

/-! ### Courses and `_schedule_course` -/

/-- One row of the parsed, session-divided course list as `_schedule_course` reads it:
code, name, the elective-column value, and the LTPSC-derived weekly counts.  The three
oracles stand for the random draws of the component searches. -/
structure CourseIn where
  code : String
  name : String
  elective : String
  lecturesPerWeek : Nat
  tutorialsPerWeek : Nat
  labsPerWeek : Nat
  oracleLab : Nat → Nat := fun _ => 0
  oracleLec : Nat → Nat := fun _ => 0
  oracleTut : Nat → Nat := fun _ => 0

/-- Elective detection of `_schedule_course` (lines 649–661): the elective column says
YES, or the code/name contains ELEC, overridden to false by HSS. -/
def electiveFlagOf (c : CourseIn) : Bool :=
  let flag := upperChars c.elective == "YES".data
  let flag := flag || containsCI "ELEC" c.code || containsCI "ELEC" c.name
  if containsCI "HSS" c.code || containsCI "HSS" c.name then false else flag

/-- `_schedule_course._get_combined_group`. -/
def combinedGroupOf (dept : String) : Option String :=
  if dept == "CSE-A" || dept == "CSE-B" then some "CSE"
  else if dept == "DSAI" || dept == "ECE" then some "DSAI_ECE"
  else none

/-- The loop of `_schedule_course._apply_existing_combined` (lines 702–715): apply the
pre-negotiated pairs that pass BOTH availability checks, stopping once the requirement
is met.  (The source's class-type expression maps each of the three component names to
itself, so the component name is passed through as the mark label.) -/
def applyCombinedLoop (courseCode componentName : String) (duration requiredCount : Nat)
    (department session : String) (semesterId : Nat) :
    List SlotPair → Nat → List Cell → List Commit → Grid → GenState →
    Nat × List Cell × List Commit × Grid × GenState
  | [], applied, accSlots, commits, g, st => (applied, accSlots, commits, g, st)
  | (day, startSlot) :: rest, applied, accSlots, commits, g, st =>
      let slots := getConsecutiveSlots startSlot duration
      if slots.length == duration &&
          isTimeSlotAvailableLocal g day slots &&
          isTimeSlotAvailableGlobal st.semesterGlobalSlots day slots department session
            semesterId then
        let g' := markSlotsBusyLocal g day slots courseCode componentName
        let st' := markGlobalSt st day slots department session semesterId
        let applied' := applied + 1
        let accSlots' := accSlots ++ slots.map (fun s => (day, s))
        let commits' := commits ++ [⟨courseCode, componentName, day, slots⟩]
        if requiredCount ≤ applied' then (applied', accSlots', commits', g', st')
        else
          applyCombinedLoop courseCode componentName duration requiredCount department
            session semesterId rest applied' accSlots' commits' g' st'
      else
        applyCombinedLoop courseCode componentName duration requiredCount department
          session semesterId rest applied accSlots commits g st

/-- `_schedule_course._apply_existing_combined` (lines 688–715): look the course up in
the global, then the semester combined-slot registry (the constant `'GLOBAL'` key
prefix of the source is dropped from the model's key type). -/
def applyExistingCombined (g : Grid) (st : GenState) (courseCode componentName : String)
    (duration requiredCount : Nat) (department session : String) (semesterId : Nat) :
    Nat × List Cell × List Commit × Grid × GenState :=
  if requiredCount == 0 then (0, [], [], g, st)
  else
    let courseKey := strTrim courseCode
    let fromGlobal :=
      match combinedGroupOf department with
      | some gk =>
          (List.lookup (some gk, courseKey, componentName)
            st.globalCombinedCourseSlots).getD []
      | none => []
    let assigned :=
      if fromGlobal.isEmpty then
        (List.lookup (semesterId, courseKey, componentName)
          st.semesterCombinedCourseSlots).getD []
      else fromGlobal
    applyCombinedLoop courseCode componentName duration requiredCount department session
      semesterId assigned 0 [] [] g st

/-- The three `_apply_existing_combined` calls of `_schedule_course` (lines 664–686),
in source order: labs, lectures, tutorials.  Returns, per component, the applied count,
the covered cells and the commits, then the grid and state. -/
def combinedStage (g : Grid) (st : GenState) (courseCode : String) (L T P : Nat)
    (department session : String) (semesterId : Nat) :
    (Nat × List Cell × List Commit) × (Nat × List Cell × List Commit) ×
      (Nat × List Cell × List Commit) × Grid × GenState :=
  let outLab := applyExistingCombined g st courseCode "Lab" LAB_DURATION P department
    session semesterId
  let outLec := applyExistingCombined outLab.2.2.2.1 outLab.2.2.2.2 courseCode "Lecture"
    LECTURE_DURATION L department session semesterId
  let outTut := applyExistingCombined outLec.2.2.2.1 outLec.2.2.2.2 courseCode "Tutorial"
    TUTORIAL_DURATION T department session semesterId
  ((outLab.1, outLab.2.1, outLab.2.2.1),
   (outLec.1, outLec.2.1, outLec.2.2.1),
   (outTut.1, outTut.2.1, outTut.2.2.1),
   outTut.2.2.2.1, outTut.2.2.2.2)

/-- The fresh-scheduling part of `_schedule_course` (lines 717–772): labs, then
lectures (elective-aware), then tutorials, each only for the remainder left after the
combined application.  Returns, per component, the covered cells and the commits,
then the grid and state. -/
def freshStage (g : Grid) (st : GenState) (course : CourseIn) (courseCode : String)
    (electiveFlag : Bool) (labsRemaining lecturesRemaining tutorialsRemaining : Nat)
    (avoidDays : List String) (department session : String) (semesterId : Nat) :
    (List Cell × List Commit) × (List Cell × List Commit) ×
      (List Cell × List Commit) × Grid × GenState :=
  let labOut :=
    if labsRemaining > 0 then
      scheduleLabs g st courseCode labsRemaining department session semesterId avoidDays
        course.oracleLab
    else ([], [], g, st)
  let lecOut :=
    if lecturesRemaining > 0 then
      if electiveFlag then
        scheduleElectiveClasses labOut.2.2.1 labOut.2.2.2 courseCode lecturesRemaining
          department session semesterId avoidDays course.oracleLec
      else
        scheduleLectures labOut.2.2.1 labOut.2.2.2 courseCode lecturesRemaining
          department session semesterId avoidDays course.oracleLec
    else ([], [], labOut.2.2.1, labOut.2.2.2)
  let tutOut :=
    if tutorialsRemaining > 0 then
      scheduleTutorials lecOut.2.2.1 lecOut.2.2.2 courseCode tutorialsRemaining
        department session semesterId avoidDays course.oracleTut
    else ([], [], lecOut.2.2.1, lecOut.2.2.2)
  ((labOut.1, labOut.2.1), (lecOut.1, lecOut.2.1), (tutOut.1, tutOut.2.1),
   tutOut.2.2.1, tutOut.2.2.2)

/-- `ScheduleGenerator._schedule_course`: combined-slot application first (labs,
lectures, tutorials), then fresh scheduling of the remainder in priority order,
then the `scheduled_courses` day bookkeeping and the `actual_allocations` record
(lines 824–830; its room fields belong to the room allocator).  Returns the success
counts (lectures, tutorials, labs), the commits in commit order, the grid and the
state. -/
def scheduleCourse (g : Grid) (st : GenState) (course : CourseIn)
    (department session : String) (semesterId : Nat) :
    (Nat × Nat × Nat) × List Commit × Grid × GenState :=
  let courseCode := course.code
  let L := course.lecturesPerWeek
  let T := course.tutorialsPerWeek
  let P := course.labsPerWeek
  let electiveFlag := electiveFlagOf course
  let scopedKey := (semesterId, department, session, courseCode)
  let sc0 := setA st.scheduledCourses scopedKey []
  let st := if (List.lookup scopedKey st.scheduledCourses).isNone then
      { st with scheduledCourses := sc0 } else st
  let cmb := combinedStage g st courseCode L T P department session semesterId
  let appliedLabCount := cmb.1.1
  let appliedLabSlots := cmb.1.2.1
  let appliedLabCommits := cmb.1.2.2
  let appliedLecCount := cmb.2.1.1
  let appliedLecSlots := cmb.2.1.2.1
  let appliedLecCommits := cmb.2.1.2.2
  let appliedTutCount := cmb.2.2.1.1
  let appliedTutSlots := cmb.2.2.1.2.1
  let appliedTutCommits := cmb.2.2.1.2.2
  let g := cmb.2.2.2.1
  let st := cmb.2.2.2.2
  let labsRemaining := P - appliedLabCount
  let lecturesRemaining := L - appliedLecCount
  let tutorialsRemaining := T - appliedTutCount
  let avoidDays := (List.lookup scopedKey st.scheduledCourses).getD []
  let fr := freshStage g st course courseCode electiveFlag labsRemaining
    lecturesRemaining tutorialsRemaining avoidDays department session semesterId
  let labCells := fr.1.1
  let labCommits := fr.1.2
  let lecCells := fr.2.1.1
  let lecCommits := fr.2.1.2
  let tutCells := fr.2.2.1.1
  let tutCommits := fr.2.2.1.2
  let g := fr.2.2.2.1
  let st := fr.2.2.2.2
  let lecturesCount := appliedLecCount + lecCells.length / LECTURE_DURATION
  let tutorialsCount := appliedTutCount + tutCells.length / TUTORIAL_DURATION
  let labsCount := appliedLabCount + labCells.length / LAB_DURATION
  let allCells := (appliedLabSlots ++ labCells) ++ (appliedLecSlots ++ lecCells) ++
    (appliedTutSlots ++ tutCells)
  let oldDays := (List.lookup scopedKey st.scheduledCourses).getD []
  let newDays := allCells.foldl (fun acc c => addCell acc c.1) oldDays
  let sc1 := setA st.scheduledCourses scopedKey newDays
  let st := { st with scheduledCourses := sc1 }
  let allocKey := (semesterId, department, session, strTrim courseCode)
  let aa := setA st.actualAllocations allocKey (lecturesCount, tutorialsCount, labsCount)
  let st := { st with actualAllocations := aa }
  ((lecturesCount, tutorialsCount, labsCount),
   appliedLabCommits ++ appliedLecCommits ++ appliedTutCommits ++
     labCommits ++ lecCommits ++ tutCommits,
   g, st)

/-! ### One department/session pass and the full run
(`generate_department_schedule`, driven per semester/department/session by the
exporter loop).  The loading, LTPSC parsing and session division that produce the
course list are modelled separately (`divideCoursesBySession` below); a pass receives
the session's course list directly.  The reordering of `session_courses` by
`has_existing_combined` is the identity because the combined registries have no writer
(stable sort on an all-zero key). -/

structure PassIn where
  department : String
  session : String
  minorOracle : Nat → Nat × Nat := fun _ => (0, 0)
  courses : List CourseIn

structure PassOut where
  department : String
  session : String
  courses : List CourseIn
  commits : List Commit

/-- `generate_department_schedule` for one (department, session): ensure the semester
key exists in the global registry (lines 931–933), build the fresh grid, schedule the
minor block, then every course (skipping blank/`'nan'` codes, line 1023–1025). -/
def runPass (semesterId : Nat) (st : GenState) (p : PassIn) : PassOut × GenState :=
  let gs0 := setA st.semesterGlobalSlots (semKeyOf semesterId) []
  let st := if (List.lookup (semKeyOf semesterId) st.semesterGlobalSlots).isNone then
      { st with semesterGlobalSlots := gs0 } else st
  let g := initialSchedule
  let minorOut := scheduleMinorClasses g st p.department p.session semesterId
    p.minorOracle
  let start : List Commit × Grid × GenState := (minorOut.2.2, minorOut.1, minorOut.2.1)
  let fin := p.courses.foldl
    (fun out course =>
      if course.code == "" || course.code == "nan" then out
      else
        let so := scheduleCourse out.2.1 out.2.2 course p.department p.session semesterId
        (out.1 ++ so.2.1, so.2.2.1, so.2.2.2))
    start
  ({ department := p.department, session := p.session, courses := p.courses,
     commits := fin.1 }, fin.2.2)

/-- A full generation run over one semester: the exporter's loop over departments and
sessions, processed strictly sequentially against the shared `GenState`. -/
def runInterp (semesterId : Nat) (passes : List PassIn) : List PassOut × GenState :=
  passes.foldl
    (fun out p =>
      let r := runPass semesterId out.2 p
      (out.1 ++ [r.1], r.2))
    ([], initialGenState)

/-- Two commits occupy disjoint cell sets. -/
def cellsDisjoint (a b : Commit) : Bool :=
  a.cells.all (fun x => !(b.cells.contains x))

/-- All commits in a list are pairwise cell-disjoint. -/
def pairwiseDisjointCommits : List Commit → Bool
  | [] => true
  | c :: rest => rest.all (fun c' => cellsDisjoint c c') && pairwiseDisjointCommits rest

/-! ### Session Divider (`excel_loader.py`)

`divide_courses_by_session` and `_apply_two_credit_sharing` operate on pandas
DataFrames.  A row is modelled as a `CourseRow`; the columns `Course Code`,
`Course Name`, `Department`, `Semester`, `Credits` and the elective column are the
ones the divider reads (the loader's normalisation guarantees their presence; the
LTPSC count columns are carried along unchanged and are irrelevant to division).
`Credits` is `Option Int`: `none` models a NaN produced by `pd.to_numeric(...,
errors='coerce')`. -/

structure CourseRow where
  code : String
  name : String
  dept : String
  sem : Nat
  credits : Option Int
  elective : String
deriving DecidableEq

/-- First-occurrence deduplication: the key order of a Python dict built by
`setdefault`, and `Series.unique()`. -/
def firstDedup {α : Type} [BEq α] (l : List α) : List α :=
  l.foldl (fun acc r => if acc.contains r then acc else acc ++ [r]) []

/-- `drop_duplicates(subset=['Course Code'])`: keep the first row per code. -/
def dedupByCode : List String → List CourseRow → List CourseRow
  | _, [] => []
  | seen, c :: rest =>
      if seen.contains c.code then dedupByCode seen rest
      else c :: dedupByCode (c.code :: seen) rest

/-- Lexicographic (code-point) order on character lists: the order Python/pandas use
to compare course-code strings.  (`String.le` itself is not kernel-evaluable.) -/
def charListLe : List Char → List Char → Bool
  | [], _ => true
  | _ :: _, [] => false
  | a :: as, b :: bs => if a = b then charListLe as bs else decide (a < b)

/-- `sort_values('Course Code')`. -/
def sortByCode (l : List CourseRow) : List CourseRow :=
  l.insertionSort (fun a b => charListLe a.code.data b.code.data = true)

/-- Row predicate: the minor-entry filter of `divide_courses_by_session`
(lines 346–350). -/
def isMinorRow (c : CourseRow) : Bool :=
  containsCI MINOR_SUBJECT c.name || containsCI MINOR_SUBJECT c.code

/-- The elective column literally says YES. -/
def colYes (c : CourseRow) : Bool := upperChars c.elective == "YES".data

/-- The elective mask of `divide_courses_by_session` (lines 352–377): column says YES
or ELEC appears in code/name, overridden to false by HSS. -/
def electiveMaskRow (c : CourseRow) : Bool :=
  (colYes c || containsCI "ELEC" c.code || containsCI "ELEC" c.name) &&
    !(containsCI "HSS" c.code || containsCI "HSS" c.name)

/-- The HSS mask (lines 384–391; the `\bHSS\b` variants are subsumed by the plain
case-insensitive containment they are OR-ed with). -/
def hssMaskRow (c : CourseRow) : Bool :=
  containsCI "HSS" c.code || containsCI "HSS" c.name

/-- `pd.to_numeric(df['Credits'], errors='coerce').fillna(2)`. -/
def creditOf (c : CourseRow) : Int := c.credits.getD 2

/-- The half-semester split applied identically in both branches of
`divide_courses_by_session` (lines 563–577 and 592–606): sort by course code, then the
first `(n+1)/2` rows (in sorted order) go Pre-Mid and the rest Post-Mid. -/
def splitHalfSem (halfSem : List CourseRow) : List CourseRow × List CourseRow :=
  let sortedHalf := sortByCode halfSem
  let splitPoint := (sortedHalf.length + 1) / 2
  (sortedHalf.take splitPoint, sortedHalf.drop splitPoint)

/-- The cross-department shared map
`ExcelLoader._two_credit_course_session_map`: semester id to (course code to
`"Pre"`/`"Post"`). -/
abbrev SharedMap := List (Nat × List (String × String))

/-- `_apply_two_credit_sharing`'s target departments. -/
def targetDepartments : List String := ["CSE", "CSE-A", "CSE-B", "DSAI", "ECE"]

/-- `_is_shared_two_credit` (lines 750–770): the course exists in the semester view,
some occurrence has credits ≤ 2 (NaN filled with 0 here), and it spans at least two of
the three designated departments (CSE variants normalised to CSE). -/
def isSharedTwoCredit (allSemCourses : List CourseRow) (code : String) : Bool :=
  let subset := allSemCourses.filter (fun c => c.code == code)
  if subset.isEmpty then false
  else if !(subset.any (fun c => c.credits.getD 0 ≤ 2)) then false
  else
    let normalized := subset.filterMap (fun c =>
      if c.dept == "CSE" || c.dept == "CSE-A" || c.dept == "CSE-B" then some "CSE"
      else if targetDepartments.contains c.dept then some c.dept
      else none)
    2 ≤ (firstDedup normalized).length

/-- Step 2 of `_apply_two_credit_sharing` for one course code (lines 799–841): force
the course into the session opposite to the recorded CSE session, removing it from the
other list, then deduplicate both lists. -/
def applySharingForCode (allSemCourses : List CourseRow) (shared : List (String × String))
    (code : String) (dfs : List CourseRow × List CourseRow) :
    List CourseRow × List CourseRow :=
  let preMidDf := dfs.1
  let postMidDf := dfs.2
  if !(isSharedTwoCredit allSemCourses code) then (preMidDf, postMidDf)
  else
    match List.lookup code shared with
    | none => (preMidDf, postMidDf)
    | some cseSession =>
        let desired := if cseSession == "Pre" then "Post" else "Pre"
        let inPre := (preMidDf.map (fun c => c.code)).contains code
        let inPost := (postMidDf.map (fun c => c.code)).contains code
        let out :=
          if desired == "Pre" then
            let moved :=
              if inPost then
                let rows := postMidDf.filter (fun c => c.code == code)
                if !rows.isEmpty then
                  (preMidDf ++ rows, postMidDf.filter (fun c => !(c.code == code)))
                else (preMidDf, postMidDf)
              else (preMidDf, postMidDf)
            let post' :=
              if (moved.2.map (fun c => c.code)).contains code then
                moved.2.filter (fun c => !(c.code == code))
              else moved.2
            (moved.1, post')
          else
            let moved :=
              if inPre then
                let rows := preMidDf.filter (fun c => c.code == code)
                if !rows.isEmpty then
                  (preMidDf.filter (fun c => !(c.code == code)), postMidDf ++ rows)
                else (preMidDf, postMidDf)
              else (preMidDf, postMidDf)
            let pre' :=
              if (moved.1.map (fun c => c.code)).contains code then
                moved.1.filter (fun c => !(c.code == code))
              else moved.1
            (pre', moved.2)
        (dedupByCode [] out.1, dedupByCode [] out.2)

/-- `ExcelLoader._apply_two_credit_sharing`.  Step 1 (for the CSE family) records the
first-seen session of each shared ≤2-credit course; step 2 (for DSAI/ECE) forces the
opposite session.  Python iterates step 2 over an (arbitrary-ordered) set of the two
lists' codes; the model iterates the first-occurrence-deduplicated concatenation —
each code's transformation touches only that code's rows, so any iteration order
yields the same lists.  Returns the two lists and the updated shared map. -/
def applyTwoCreditSharing (preMidDf postMidDf : List CourseRow) (department : String)
    (allSemCourses : List CourseRow) (sharedMap : SharedMap) :
    (List CourseRow × List CourseRow) × SharedMap :=
  if !(targetDepartments.contains department) then ((preMidDf, postMidDf), sharedMap)
  else if allSemCourses.isEmpty then ((preMidDf, postMidDf), sharedMap)
  else
    match firstDedup (allSemCourses.map (fun c => c.sem)) with
    | [semesterId] =>
        let shared := (List.lookup semesterId sharedMap).getD []
        let preElectiveCodes := (preMidDf.filter colYes).map (fun c => c.code)
        let postElectiveCodes := (postMidDf.filter colYes).map (fun c => c.code)
        let electiveCodesUnion := preElectiveCodes ++ postElectiveCodes
        if department == "CSE" || department == "CSE-A" || department == "CSE-B" then
          let shared := (firstDedup (preMidDf.map (fun c => c.code))).foldl
            (fun m code =>
              if isSharedTwoCredit allSemCourses code && (List.lookup code m).isNone then
                setA m code "Pre"
              else m)
            shared
          let shared := (firstDedup (postMidDf.map (fun c => c.code))).foldl
            (fun m code =>
              if isSharedTwoCredit allSemCourses code && (List.lookup code m).isNone then
                setA m code "Post"
              else m)
            shared
          ((preMidDf, postMidDf), setA sharedMap semesterId shared)
        else if department == "DSAI" || department == "ECE" then
          let allCodes := firstDedup
            ((preMidDf.map (fun c => c.code)) ++ (postMidDf.map (fun c => c.code)))
          let allCodes := allCodes.filter (fun code => !(electiveCodesUnion.contains code))
          let out := allCodes.foldl
            (fun dfs code => applySharingForCode allSemCourses shared code dfs)
            (preMidDf, postMidDf)
          (out, setA sharedMap semesterId shared)
        else ((preMidDf, postMidDf), setA sharedMap semesterId shared)
    | _ => ((preMidDf, postMidDf), sharedMap)

/-- The HSS block of `divide_courses_by_session` (lines 382–421): extract the
department's own HSS rows, or auto-include the first semester-wide HSS exemplar
(department label substituted, elective column forced NO).  Returns
(HSS rows, remaining regular rows). -/
def hssStage (regularCourses : List CourseRow) (department : String)
    (allSemCourses : List CourseRow) : List CourseRow × List CourseRow :=
  let hssInRegular := regularCourses.filter hssMaskRow
  if !hssInRegular.isEmpty then
    (hssInRegular, regularCourses.filter (fun c => !(hssMaskRow c)))
  else if !allSemCourses.isEmpty then
    match allSemCourses.filter hssMaskRow with
    | [] => (([] : List CourseRow), regularCourses)
    | exemplar :: _ =>
        ([{ exemplar with dept := department, elective := "NO" }], regularCourses)
  else ([], regularCourses)

/-- The semester-wide elective merge of `divide_courses_by_session`
(lines 433–487). -/
def electiveMergeStage (electiveCourses regularCourses : List CourseRow)
    (department : String) (allSemCourses : List CourseRow) :
    List CourseRow × List CourseRow :=
  let electiveFromAll := (allSemCourses.filter colYes).filter (fun c =>
    if department == "CSE-A" || department == "CSE-B" then
      c.dept == "CSE" || c.dept == "CSE-A" || c.dept == "CSE-B"
    else c.dept == department)
  if allSemCourses.isEmpty || electiveFromAll.isEmpty then
    (electiveCourses, regularCourses)
  else
    let efa := (dedupByCode [] electiveFromAll).map (fun c => { c with elective := "YES" })
    let merged := (dedupByCode [] (electiveCourses ++ efa)).map
      (fun c => { c with elective := "YES" })
    let mergedCodes := merged.map (fun c => c.code)
    (merged, regularCourses.filter (fun c => !(mergedCodes.contains c.code)))

/-- The CSE-A/CSE-B half-semester replacement of `divide_courses_by_session`
(lines 526–561): the semester-wide CSE-family credit-≤2 non-elective list. -/
def cseAllHalfStage (allSemCourses : List CourseRow) (electiveCourses : List CourseRow)
    (elCodes : List String) : List CourseRow :=
  let allHalf :=
    if electiveCourses.isEmpty then allSemCourses
    else allSemCourses.filter (fun c => !(elCodes.contains c.code))
  let allHalf := allHalf.filter (fun c => !(colYes c))
  let allHalf := allHalf.filter (fun c => creditOf c ≤ 2)
  let allHalf := allHalf.filter (fun c =>
    c.dept == "CSE" || c.dept == "CSE-A" || c.dept == "CSE-B")
  let allHalf := dedupByCode [] allHalf
  if electiveCourses.isEmpty then allHalf
  else allHalf.filter (fun c => !(elCodes.contains c.code))

/-- The credit filter (lines 501–515): the regular rows with the given credit
predicate, minus elective codes when electives exist. -/
def creditFiltered (pred : CourseRow → Bool) (electiveCourses regularCourses :
    List CourseRow) (elCodes : List String) : List CourseRow :=
  let base := regularCourses.filter pred
  if electiveCourses.isEmpty then base
  else base.filter (fun c => !(elCodes.contains c.code))

/-- The half-semester pool (lines 504–561): the department's own credit-≤2 rows, or
the semester-wide CSE-family view for the CSE sections. -/
def halfSemOf (department : String) (allSemCourses electiveCourses regularCourses :
    List CourseRow) (elCodes : List String) : List CourseRow :=
  if (department == "CSE-A" || department == "CSE-B") && !allSemCourses.isEmpty then
    cseAllHalfStage allSemCourses electiveCourses elCodes
  else creditFiltered (fun c => creditOf c ≤ 2) electiveCourses regularCourses elCodes

/-- Assembling one session list (lines 589–656): concatenate, deduplicate by code,
and re-assert the elective column on elective codes. -/
def finalizeSession (electiveCourses hssCourses fullSemCourses half :
    List CourseRow) (elCodes : List String) : List CourseRow :=
  let dd := dedupByCode [] (electiveCourses ++ hssCourses ++ fullSemCourses ++ half)
  if electiveCourses.isEmpty then dd
  else dd.map (fun c =>
    if elCodes.contains c.code then { c with elective := "YES" } else c)

/-- The body of `ExcelLoader.divide_courses_by_session` up to the sharing step
(lines 343–656): remove minor entries, separate electives (with pattern overrides),
run the HSS and elective-merge stages, split the remaining regular courses by
credits, sort and split the half-semester courses (semester-wide CSE view for the
CSE sections), assemble and deduplicate both session lists, and re-assert the
elective flag.  `allSemCourses = []` models `all_sem_courses is None`/empty. -/
def divideCore (coursesDfIn : List CourseRow) (department : String)
    (allSemCourses : List CourseRow) : List CourseRow × List CourseRow :=
    let coursesDf := coursesDfIn.filter (fun c => !(isMinorRow c))
    let hssBranch := hssStage (coursesDf.filter (fun c => !(electiveMaskRow c)))
      department allSemCourses
    let mergeBranch := electiveMergeStage
      ((coursesDf.filter electiveMaskRow).map (fun c => { c with elective := "YES" }))
      hssBranch.2 department allSemCourses
    let electiveCourses := mergeBranch.1
    let elCodes := electiveCourses.map (fun c => c.code)
    let fullSemCourses := creditFiltered (fun c => 2 < creditOf c) electiveCourses
      mergeBranch.2 elCodes
    let halves := splitHalfSem
      (halfSemOf department allSemCourses electiveCourses mergeBranch.2 elCodes)
    (finalizeSession electiveCourses hssBranch.1 fullSemCourses halves.1 elCodes,
     finalizeSession electiveCourses hssBranch.1 fullSemCourses halves.2 elCodes)

/-- `ExcelLoader.divide_courses_by_session` (lines 328–692): the empty-input early
return, the division core, then `_apply_two_credit_sharing`.
Returns ((Pre-Mid, Post-Mid), updated shared map). -/
def divideCoursesBySession (coursesDfIn : List CourseRow) (department : String)
    (allSemCourses : List CourseRow) (sharedMap : SharedMap) :
    (List CourseRow × List CourseRow) × SharedMap :=
  if coursesDfIn.isEmpty then (([], []), sharedMap)
  else
    let core := divideCore coursesDfIn department allSemCourses
    applyTwoCreditSharing core.1 core.2 department allSemCourses sharedMap

/-- The input code set the divider's own post-condition checks against: the course
codes of the department's input after removing the minor entries (lines 658–661). -/
def originalInputCodes (coursesDfIn : List CourseRow) : List String :=
  (coursesDfIn.filter (fun c => !(isMinorRow c))).map (fun c => c.code)

/-! ### Conflict Validator (`validate_room_conflicts`)

`self.room_bookings` maps `(sem_key, day, slot)` to the list of booking records
`(room, department, course, session)` appended by the room allocator.  The validator
only reads this registry, so it is modelled directly over it. -/

/-- One record of `self.room_bookings[...]`. -/
structure Booking where
  room : String
  dept : String
  course : String
  session : String
deriving DecidableEq

/-- The `(sem_key, day, slot)` bucket key. -/
abbrev BookKey := String × String × String

/-- One reported conflict (the dict appended at lines 1261–1267). -/
structure Conflict where
  semester : String
  day : String
  slot : String
  room : String
  entries : List (String × String × String)
deriving DecidableEq

/-- The `room_to_entries` dict built per bucket (lines 1256–1258): rooms in
first-occurrence order, each with every one of its bucket entries in order. -/
def roomToEntries (bookings : List Booking) : List (String × List (String × String × String)) :=
  (firstDedup (bookings.map (fun b => b.room))).map
    (fun r => (r, (bookings.filter (fun b => b.room == r)).map
      (fun b => (b.dept, b.course, b.session))))

/-- The conflicts contributed by one bucket (lines 1259–1267). -/
def conflictsOfBucket (k : BookKey) (bookings : List Booking) : List Conflict :=
  (roomToEntries bookings).filterMap (fun re =>
    if 1 < re.2.length then
      some ⟨k.1, k.2.1, k.2.2, re.1, re.2⟩
    else none)

/-- `ScheduleGenerator.validate_room_conflicts`. -/
def validateRoomConflicts (roomBookings : List (BookKey × List Booking)) : List Conflict :=
  roomBookings.foldl (fun conflicts kv => conflicts ++ conflictsOfBucket kv.1 kv.2) []

/-- How many bucket entries name a given room. -/
def roomMultiplicity (bookings : List Booking) (r : String) : Nat :=
  (bookings.filter (fun b => b.room == r)).length

/-! ## Helper lemmas -/

theorem foldl_append_eq_flatMap {α β : Type} (f : α → List β) (l : List α)
    (init : List β) :
    l.foldl (fun acc a => acc ++ f a) init = init ++ l.flatMap f := by
  induction l generalizing init with
  | nil => simp
  | cons a rest ih => simp [List.foldl_cons, ih, List.flatMap_cons, List.append_assoc]

theorem mem_firstDedup_aux {α : Type} [BEq α] [LawfulBEq α] (l : List α) (a : α) :
    ∀ acc : List α,
      (a ∈ l.foldl (fun acc r => if acc.contains r then acc else acc ++ [r]) acc ↔
        a ∈ acc ∨ a ∈ l) := by
  induction l with
  | nil => simp
  | cons r rest ih =>
      intro acc
      rw [List.foldl_cons, ih]
      by_cases h : acc.contains r
      · simp only [h, if_pos]
        have hr : r ∈ acc := by simpa using h
        constructor
        · rintro (h1 | h1)
          · exact Or.inl h1
          · exact Or.inr (List.mem_cons_of_mem _ h1)
        · rintro (h1 | h1)
          · exact Or.inl h1
          · rcases List.mem_cons.mp h1 with h2 | h2
            · exact Or.inl (h2 ▸ hr)
            · exact Or.inr h2
      · simp only [h, if_neg, Bool.false_eq_true, not_false_iff]
        simp only [List.mem_append, List.mem_singleton, List.mem_cons]
        tauto

theorem mem_firstDedup_iff {α : Type} [BEq α] [LawfulBEq α] (l : List α) (a : α) :
    a ∈ firstDedup l ↔ a ∈ l := by
  have h := mem_firstDedup_aux l a []
  simpa [firstDedup] using h

theorem nodup_firstDedup_aux {α : Type} [BEq α] [LawfulBEq α] (l : List α) :
    ∀ acc : List α, acc.Nodup →
      (l.foldl (fun acc r => if acc.contains r then acc else acc ++ [r]) acc).Nodup := by
  induction l with
  | nil => intro acc h; simpa using h
  | cons r rest ih =>
      intro acc hacc
      rw [List.foldl_cons]
      by_cases h : acc.contains r = true
      · rw [if_pos h]
        exact ih acc hacc
      · rw [if_neg h]
        have hr : r ∉ acc := by simpa using h
        refine ih _ ?_
        simpa [List.nodup_append] using ⟨hacc, hr⟩

theorem nodup_firstDedup {α : Type} [BEq α] [LawfulBEq α] (l : List α) :
    (firstDedup l).Nodup :=
  nodup_firstDedup_aux l [] List.nodup_nil

/-! ## C9: the Conflict Validator -/

/-- The entry list the validator reports for one room of one bucket. -/
def entriesOf (bookings : List Booking) (r : String) : List (String × String × String) :=
  (bookings.filter (fun b => b.room == r)).map (fun b => (b.dept, b.course, b.session))

/-- Bool matcher: a conflict names a given (semester, day, slot, room). -/
def conflictMatches (k : BookKey) (r : String) (c : Conflict) : Bool :=
  c.semester == k.1 && c.day == k.2.1 && c.slot == k.2.2 && c.room == r

theorem length_entriesOf (b : List Booking) (r : String) :
    (entriesOf b r).length = roomMultiplicity b r := by
  simp [entriesOf, roomMultiplicity]

theorem validate_eq_flatMap (rb : List (BookKey × List Booking)) :
    validateRoomConflicts rb = rb.flatMap (fun kv => conflictsOfBucket kv.1 kv.2) := by
  simpa using foldl_append_eq_flatMap (fun kv => conflictsOfBucket kv.1 kv.2) rb []

theorem conflictsOfBucket_eq (k : BookKey) (b : List Booking) :
    conflictsOfBucket k b =
      (firstDedup (b.map (fun x => x.room))).filterMap (fun r =>
        if 1 < roomMultiplicity b r then
          some ⟨k.1, k.2.1, k.2.2, r, entriesOf b r⟩
        else none) := by
  simp only [conflictsOfBucket, roomToEntries, List.filterMap_map]
  congr 1
  funext r
  simp [entriesOf, roomMultiplicity]

theorem conflictsOfBucket_nil_iff (k : BookKey) (b : List Booking) :
    conflictsOfBucket k b = [] ↔ ∀ r, roomMultiplicity b r ≤ 1 := by
  rw [conflictsOfBucket_eq, List.filterMap_eq_nil_iff]
  constructor
  · intro h r
    by_contra hgt
    push_neg at hgt
    have hmem : r ∈ firstDedup (b.map (fun x => x.room)) := by
      rw [mem_firstDedup_iff]
      have : 0 < roomMultiplicity b r := Nat.lt_of_lt_of_le Nat.zero_lt_one hgt.le
      rw [roomMultiplicity] at this
      rcases List.exists_mem_of_length_pos this with ⟨e, he⟩
      rcases List.mem_filter.mp he with ⟨hmem, heq⟩
      exact List.mem_map.mpr ⟨e, hmem, by simpa using heq⟩
    have := h r hmem
    simp [hgt] at this
  · intro h r _
    have := h r
    simp [Nat.not_lt_of_le this]

theorem mem_conflictsOfBucket (k : BookKey) (b : List Booking) (r : String)
    (h : 1 < roomMultiplicity b r) :
    (⟨k.1, k.2.1, k.2.2, r, entriesOf b r⟩ : Conflict) ∈ conflictsOfBucket k b := by
  rw [conflictsOfBucket_eq]
  apply List.mem_filterMap.mpr
  refine ⟨r, ?_, by simp [h]⟩
  rw [mem_firstDedup_iff]
  have hp : 0 < roomMultiplicity b r := Nat.lt_of_lt_of_le Nat.zero_lt_one h.le
  rw [roomMultiplicity] at hp
  rcases List.exists_mem_of_length_pos hp with ⟨e, he⟩
  rcases List.mem_filter.mp he with ⟨hmem, heq⟩
  exact List.mem_map.mpr ⟨e, hmem, by simpa using heq⟩

theorem countP_conflictsOfBucket_self (k : BookKey) (b : List Booking) (r : String)
    (h : 1 < roomMultiplicity b r) :
    (conflictsOfBucket k b).countP (conflictMatches k r) = 1 := by
  rw [conflictsOfBucket_eq]
  have hnd := nodup_firstDedup (b.map (fun x => x.room))
  have hr : r ∈ firstDedup (b.map (fun x => x.room)) := by
    rw [mem_firstDedup_iff]
    have hp : 0 < roomMultiplicity b r := Nat.lt_of_lt_of_le Nat.zero_lt_one h.le
    rw [roomMultiplicity] at hp
    rcases List.exists_mem_of_length_pos hp with ⟨e, he⟩
    rcases List.mem_filter.mp he with ⟨hmem, heq⟩
    exact List.mem_map.mpr ⟨e, hmem, by simpa using heq⟩
  revert hnd hr
  generalize firstDedup (b.map fun x => x.room) = L
  induction L with
  | nil => intro _ hr; cases hr
  | cons x rest ih =>
      intro hnd hr
      rcases List.nodup_cons.mp hnd with ⟨hx, hrest⟩
      by_cases hxr : x = r
      · subst hxr
        have hzero : (rest.filterMap (fun r' =>
            if 1 < roomMultiplicity b r' then
              some (⟨k.1, k.2.1, k.2.2, r', entriesOf b r'⟩ : Conflict)
            else none)).countP (conflictMatches k x) = 0 := by
          apply List.countP_eq_zero.mpr
          intro c hc
          rcases List.mem_filterMap.mp hc with ⟨r', hr', hsome⟩
          by_cases hgt : 1 < roomMultiplicity b r'
          · simp only [hgt, if_pos, Option.some.injEq] at hsome
            subst hsome
            have : r' ≠ x := fun he => hx (he ▸ hr')
            simp [conflictMatches, this]
          · simp [hgt] at hsome
        rw [List.filterMap_cons]
        simp only [h, if_pos]
        rw [List.countP_cons]
        simp [conflictMatches, hzero]
      · have hr' : r ∈ rest := by
          rcases List.mem_cons.mp hr with h1 | h1
          · exact absurd h1.symm hxr
          · exact h1
        rw [List.filterMap_cons]
        by_cases hgt : 1 < roomMultiplicity b x
        · simp only [hgt, if_pos]
          rw [List.countP_cons]
          have : conflictMatches k r ⟨k.1, k.2.1, k.2.2, x, entriesOf b x⟩ = false := by
            simp [conflictMatches, hxr]
          simp [this, ih hrest hr']
        · simp only [hgt, if_neg, Bool.false_eq_true, not_false_iff]
          exact ih hrest hr'

theorem countP_conflictsOfBucket_other (k k' : BookKey) (hne : k' ≠ k)
    (b : List Booking) (r : String) :
    (conflictsOfBucket k' b).countP (conflictMatches k r) = 0 := by
  apply List.countP_eq_zero.mpr
  intro c hc
  rw [conflictsOfBucket_eq] at hc
  rcases List.mem_filterMap.mp hc with ⟨r', _, hsome⟩
  by_cases hgt : 1 < roomMultiplicity b r'
  · simp only [hgt, if_pos, Option.some.injEq] at hsome
    subst hsome
    have hcomp : ¬(k'.1 = k.1 ∧ k'.2.1 = k.2.1 ∧ k'.2.2 = k.2.2) := by
      intro ⟨h1, h2, h3⟩
      exact hne (Prod.ext h1 (Prod.ext h2 h3))
    simp only [conflictMatches, Bool.and_eq_true, beq_iff_eq]
    intro hcon
    exact hcomp ⟨hcon.1.1.1, hcon.1.1.2, hcon.1.2⟩
  · simp [hgt] at hsome

theorem countP_flatMap_zero_of (k : BookKey) (r : String)
    (l : List (BookKey × List Booking)) (hz : ∀ kv ∈ l, kv.1 ≠ k) :
    (l.flatMap (fun kv => conflictsOfBucket kv.1 kv.2)).countP (conflictMatches k r)
      = 0 := by
  induction l with
  | nil => simp
  | cons kv' rest ih =>
      rw [List.flatMap_cons, List.countP_append]
      rw [countP_conflictsOfBucket_other k kv'.1 (hz kv' (List.mem_cons_self kv' rest))
        kv'.2 r,
        ih (fun kv hkv => hz kv (List.mem_cons_of_mem _ hkv))]

theorem countP_flatMap_one (rb : List (BookKey × List Booking))
    (hkeys : (rb.map Prod.fst).Nodup) (kv : BookKey × List Booking) (hkv : kv ∈ rb)
    (r : String) (hgt : 1 < roomMultiplicity kv.2 r) :
    (rb.flatMap (fun x => conflictsOfBucket x.1 x.2)).countP (conflictMatches kv.1 r)
      = 1 := by
  induction rb with
  | nil => cases hkv
  | cons kv' rest ih =>
      rw [List.map_cons, List.nodup_cons] at hkeys
      rcases hkeys with ⟨hnotin, hrest⟩
      rw [List.flatMap_cons, List.countP_append]
      rcases List.mem_cons.mp hkv with heq | hmem
      · subst heq
        rw [countP_conflictsOfBucket_self kv.1 kv.2 r hgt]
        rw [countP_flatMap_zero_of kv.1 r rest
          (fun kv'' hkv'' => fun he => hnotin (he ▸ List.mem_map_of_mem Prod.fst hkv''))]
      · have hne : kv'.1 ≠ kv.1 := by
          intro he
          exact hnotin (he ▸ List.mem_map_of_mem Prod.fst hmem)
        rw [countP_conflictsOfBucket_other kv.1 kv'.1 hne kv'.2 r, ih hrest hmem]

/-- C9: for every final room-booking registry (bucket keys distinct, as a Python dict
guarantees), the validator's result is empty exactly when no bucket lists any room more
than once; and for every bucket and room listed more than once, the result contains
exactly one entry for that (semester, day, slot, room), and that entry carries the full
list of conflicting (department, course, session) records of the room in the bucket. -/
theorem C9_validator (rb : List (BookKey × List Booking))
    (hkeys : (rb.map Prod.fst).Nodup) :
    (validateRoomConflicts rb = [] ↔
      ∀ kv ∈ rb, ∀ r : String, roomMultiplicity kv.2 r ≤ 1)
    ∧ (∀ kv ∈ rb, ∀ r : String, 1 < roomMultiplicity kv.2 r →
        (validateRoomConflicts rb).countP (conflictMatches kv.1 r) = 1 ∧
        (⟨kv.1.1, kv.1.2.1, kv.1.2.2, r, entriesOf kv.2 r⟩ : Conflict) ∈
          validateRoomConflicts rb) := by
  constructor
  · rw [validate_eq_flatMap]
    constructor
    · intro hnil kv hkv r
      by_contra hgt
      push_neg at hgt
      have hmem := mem_conflictsOfBucket kv.1 kv.2 r hgt
      have : (⟨kv.1.1, kv.1.2.1, kv.1.2.2, r, entriesOf kv.2 r⟩ : Conflict) ∈
          rb.flatMap (fun kv => conflictsOfBucket kv.1 kv.2) :=
        List.mem_flatMap.mpr ⟨kv, hkv, hmem⟩
      rw [hnil] at this
      cases this
    · intro hall
      apply List.flatMap_eq_nil_iff.mpr
      intro kv hkv
      exact (conflictsOfBucket_nil_iff kv.1 kv.2).mpr (hall kv hkv)
  · intro kv hkv r hgt
    constructor
    · rw [validate_eq_flatMap]
      exact countP_flatMap_one rb hkeys kv hkv r hgt
    · rw [validate_eq_flatMap]
      exact List.mem_flatMap.mpr ⟨kv, hkv, mem_conflictsOfBucket kv.1 kv.2 r hgt⟩

/-- A registry example for the C9 witness: one bucket with a doubly-booked room, one
clean bucket. -/
def rbEx : List (BookKey × List Booking) :=
  [(("sem_3", "MON", "08:30-09:00"),
    [⟨"C101", "CSE-A", "CS101", "Pre-Mid"⟩, ⟨"C101", "DSAI", "DS100", "Pre-Mid"⟩]),
   (("sem_3", "MON", "09:00-09:30"), [⟨"C102", "ECE", "EC200", "Pre-Mid"⟩])]

/-- Witness for C9: at a concrete registry the doubly-booked room is reported exactly
once with its full entry list. -/
theorem C9_validator_witness :
    (validateRoomConflicts rbEx).countP
      (conflictMatches ("sem_3", "MON", "08:30-09:00") "C101") = 1 ∧
    (⟨"sem_3", "MON", "08:30-09:00", "C101",
      [("CSE-A", "CS101", "Pre-Mid"), ("DSAI", "DS100", "Pre-Mid")]⟩ : Conflict) ∈
      validateRoomConflicts rbEx := by
  have h := (C9_validator rbEx (by decide)).2
    (("sem_3", "MON", "08:30-09:00"),
      [⟨"C101", "CSE-A", "CS101", "Pre-Mid"⟩, ⟨"C101", "DSAI", "DS100", "Pre-Mid"⟩])
    (by decide) "C101" (by decide)
  exact ⟨h.1, h.2⟩

/-! ## C2: the global-occupancy availability rule -/

/-- C2: the claim says the check reports a slot unavailable exactly when an existing
booking for that (day, slot) has the same department and the same session — which is
also what the function's own docstring states ("Same department + same session =
conflict").  The code violates this for the paired sections: because `CSE-A` (or
`CSE-B`) lies in the share group together with itself, the share-group branch fires
even against the department's own same-session booking, and the slot is reported
available.  First conjunct: the failing input (a CSE-A Pre-Mid booking does not block
CSE-A Pre-Mid).  Second conjunct: the same shape with a department outside the share
group is correctly blocked. -/
theorem C2_failing_eval :
    isTimeSlotAvailableGlobal
        [(semKeyOf 3, [(("CSE-A", "Pre-Mid"), [("MON", "09:00-09:30")])])]
        "MON" ["09:00-09:30"] "CSE-A" "Pre-Mid" 3 = true
    ∧ isTimeSlotAvailableGlobal
        [(semKeyOf 3, [(("DSAI", "Pre-Mid"), [("MON", "09:00-09:30")])])]
        "MON" ["09:00-09:30"] "DSAI" "Pre-Mid" 3 = false := by
  exact ⟨rfl, rfl⟩

/-! ## C8: the half-semester split -/

theorem charListLe_total : ∀ as bs : List Char,
    charListLe as bs = true ∨ charListLe bs as = true
  | [], _ => Or.inl rfl
  | _ :: _, [] => Or.inr rfl
  | a :: as, b :: bs => by
      by_cases h : a = b
      · subst h
        simpa [charListLe] using charListLe_total as bs
      · have h' : ¬b = a := fun e => h e.symm
        simp only [charListLe, h, h', if_neg, not_false_iff, decide_eq_true_eq]
        rcases lt_trichotomy a b with hl | he | hg
        · exact Or.inl hl
        · exact absurd he h
        · exact Or.inr hg

theorem charListLe_trans : ∀ as bs cs : List Char,
    charListLe as bs = true → charListLe bs cs = true → charListLe as cs = true
  | [], _, _, _, _ => rfl
  | _ :: _, [], _, h, _ => by cases h
  | _ :: _, _ :: _, [], _, h => by cases h
  | a :: as, b :: bs, c :: cs, h1, h2 => by
      by_cases hab : a = b
      · subst hab
        by_cases hbc : a = c
        · subst hbc
          simp only [charListLe, if_pos rfl] at h1 h2 ⊢
          exact charListLe_trans as bs cs h1 h2
        · simp only [charListLe, if_pos rfl] at h1
          simpa [charListLe, hbc] using h2
      · by_cases hbc : b = c
        · subst hbc
          simpa [charListLe, hab] using h1
        · simp only [charListLe, hab, hbc, if_neg, not_false_iff,
            decide_eq_true_eq] at h1 h2
          have hac : a < c := lt_trans h1 h2
          have hne : a ≠ c := ne_of_lt hac
          simp [charListLe, hne, hac]

/-- The code order used by `sort_values('Course Code')`. -/
def rowCodeLe (a b : CourseRow) : Prop := charListLe a.code.data b.code.data = true

instance : DecidableRel rowCodeLe := fun a b => by
  unfold rowCodeLe; infer_instance

instance : IsTotal CourseRow rowCodeLe :=
  ⟨fun a b => charListLe_total a.code.data b.code.data⟩

instance : IsTrans CourseRow rowCodeLe :=
  ⟨fun a b c => charListLe_trans a.code.data b.code.data c.code.data⟩

theorem sortByCode_eq_insertionSort (l : List CourseRow) :
    sortByCode l = l.insertionSort rowCodeLe := rfl

/-- C8: the Session Divider's half-semester split sorts the credit-≤2 course list by
course code and sends the first ⌈n/2⌉ rows of the sorted order to Pre-Mid and the
remaining n−⌈n/2⌉ to Post-Mid: the two parts concatenate to the sorted list (a sorted
permutation of the input), their lengths are ⌈n/2⌉ and n−⌈n/2⌉, and the partition
sizes are determined by the input alone — any reordering of the same input rows yields
the same sizes (and `splitHalfSem` is a pure function, so two runs on the same list
return the identical partition). -/
theorem C8_half_split (halfSem : List CourseRow) :
    (splitHalfSem halfSem).1.length = (halfSem.length + 1) / 2 ∧
    (splitHalfSem halfSem).2.length = halfSem.length - (halfSem.length + 1) / 2 ∧
    (splitHalfSem halfSem).1 ++ (splitHalfSem halfSem).2 = sortByCode halfSem ∧
    (sortByCode halfSem).Perm halfSem ∧
    List.Sorted rowCodeLe (sortByCode halfSem) ∧
    (∀ other : List CourseRow, other.Perm halfSem →
      (splitHalfSem other).1.length = (splitHalfSem halfSem).1.length ∧
      (splitHalfSem other).2.length = (splitHalfSem halfSem).2.length) := by
  have hperm : (sortByCode halfSem).Perm halfSem := List.perm_insertionSort _ _
  have hlen : (sortByCode halfSem).length = halfSem.length := hperm.length_eq
  have hle : (halfSem.length + 1) / 2 ≤ halfSem.length := by omega
  refine ⟨?_, ?_, ?_, hperm, ?_, ?_⟩
  · simp [splitHalfSem, hlen, List.length_take, Nat.min_eq_left hle]
  · simp [splitHalfSem, hlen, List.length_drop]
  · simp [splitHalfSem, List.take_append_drop]
  · exact List.sorted_insertionSort rowCodeLe halfSem
  · intro other hother
    have h1 : (sortByCode other).length = other.length :=
      (List.perm_insertionSort _ _).length_eq
    have h2 : other.length = halfSem.length := hother.length_eq
    have hle' : (other.length + 1) / 2 ≤ other.length := by omega
    constructor
    · simp [splitHalfSem, h1, h2, hlen, List.length_take, Nat.min_eq_left hle,
        Nat.min_eq_left hle']
    · simp [splitHalfSem, h1, h2, hlen, List.length_drop]

/-- Witness for C8 at a concrete three-course list. -/
theorem C8_half_split_witness :
    (splitHalfSem
      [⟨"CS210", "B", "CSE-A", 3, some 2, "NO"⟩,
       ⟨"CS105", "A", "CSE-A", 3, some 2, "NO"⟩,
       ⟨"CS330", "C", "CSE-A", 3, some 1, "NO"⟩]).1.length = 2 ∧
    (splitHalfSem
      [⟨"CS210", "B", "CSE-A", 3, some 2, "NO"⟩,
       ⟨"CS105", "A", "CSE-A", 3, some 2, "NO"⟩,
       ⟨"CS330", "C", "CSE-A", 3, some 1, "NO"⟩]).2.length = 1 := by
  have h := C8_half_split
    [⟨"CS210", "B", "CSE-A", 3, some 2, "NO"⟩,
     ⟨"CS105", "A", "CSE-A", 3, some 2, "NO"⟩,
     ⟨"CS330", "C", "CSE-A", 3, some 1, "NO"⟩]
  exact ⟨h.1, h.2.1⟩

/-! ## C7: cross-department 2-credit alternation -/

/-- The course codes of a row list. -/
def codesOf (l : List CourseRow) : List String := l.map (fun c => c.code)

theorem mem_codesOf_dedupByCode (seen : List String) (l : List CourseRow) (e : String) :
    e ∈ codesOf (dedupByCode seen l) ↔ e ∈ codesOf l ∧ e ∉ seen := by
  induction l generalizing seen with
  | nil => simp [dedupByCode, codesOf]
  | cons d rest ih =>
      have hcons : ∀ m : List CourseRow, e ∈ codesOf (d :: m) ↔
          e = d.code ∨ e ∈ codesOf m := by
        intro m; simp [codesOf]
      by_cases h : seen.contains d.code = true
      · rw [dedupByCode, if_pos h, ih seen, hcons]
        have hd : d.code ∈ seen := by simpa using h
        constructor
        · rintro ⟨h1, h2⟩
          exact ⟨Or.inr h1, h2⟩
        · rintro ⟨h1 | h1, h2⟩
          · exact absurd (h1 ▸ hd) h2
          · exact ⟨h1, h2⟩
      · rw [dedupByCode, if_neg h]
        rw [hcons, hcons, ih (d.code :: seen)]
        have hd : d.code ∉ seen := by simpa using h
        by_cases he : e = d.code
        · subst he
          simp [hd]
        · simp [he, List.mem_cons]

theorem mem_codesOf_dedup (l : List CourseRow) (e : String) :
    e ∈ codesOf (dedupByCode [] l) ↔ e ∈ codesOf l := by
  rw [mem_codesOf_dedupByCode]
  simp

theorem mem_codesOf_filter_out (l : List CourseRow) (c' e : String) :
    e ∈ codesOf (l.filter (fun c => !(c.code == c'))) ↔ e ∈ codesOf l ∧ e ≠ c' := by
  simp only [codesOf, List.mem_map, List.mem_filter, Bool.not_eq_true',
    beq_eq_false_iff_ne]
  constructor
  · rintro ⟨c, ⟨hc, hne⟩, he⟩
    exact ⟨⟨c, hc, he⟩, he ▸ hne⟩
  · rintro ⟨⟨c, hc, he⟩, hne⟩
    exact ⟨c, ⟨hc, he ▸ hne⟩, he⟩

theorem mem_codesOf_filter_eq (l : List CourseRow) (c' e : String) :
    e ∈ codesOf (l.filter (fun c => c.code == c')) ↔ e ∈ codesOf l ∧ e = c' := by
  simp only [codesOf, List.mem_map, List.mem_filter, beq_iff_eq]
  constructor
  · rintro ⟨c, ⟨hc, hcc⟩, he⟩
    exact ⟨⟨c, hc, he⟩, he ▸ hcc⟩
  · rintro ⟨⟨c, hc, he⟩, hec⟩
    exact ⟨c, ⟨hc, he ▸ hec⟩, he⟩

theorem mem_codesOf_append (l1 l2 : List CourseRow) (e : String) :
    e ∈ codesOf (l1 ++ l2) ↔ e ∈ codesOf l1 ∨ e ∈ codesOf l2 := by
  simp [codesOf]

theorem codes_contains_iff (l : List CourseRow) (e : String) :
    ((l.map (fun c => c.code)).contains e = true) ↔ e ∈ codesOf l := by
  simp [codesOf]

/-- Processing one code in the sharing step leaves every other code's membership in
both session lists unchanged (its filters remove only that code's rows, its appends
add only that code's rows, and deduplication preserves the code set). -/
theorem applySharingForCode_preserve (allSem : List CourseRow)
    (shared : List (String × String)) (c' : String)
    (dfs : List CourseRow × List CourseRow) (e : String) (hne : e ≠ c') :
    (e ∈ codesOf (applySharingForCode allSem shared c' dfs).1 ↔ e ∈ codesOf dfs.1) ∧
    (e ∈ codesOf (applySharingForCode allSem shared c' dfs).2 ↔ e ∈ codesOf dfs.2) := by
  unfold applySharingForCode
  by_cases hs : isSharedTwoCredit allSem c' = true
  · simp only [hs, Bool.not_true, Bool.false_eq_true, if_false]
    cases hl : List.lookup c' shared with
    | none => simp
    | some x =>
        simp only []
        by_cases hd : (if x == "Pre" then "Post" else "Pre") == "Pre"
        all_goals
          simp only [hd, if_pos, if_neg, Bool.false_eq_true]
        all_goals
          constructor <;>
          · split_ifs <;>
              simp_all [mem_codesOf_dedup, mem_codesOf_filter_out,
                mem_codesOf_filter_eq, mem_codesOf_append, hne]
  · simp [hs]

theorem filter_code_isEmpty_false (l : List CourseRow) (code : String)
    (h : code ∈ codesOf l) : (l.filter (fun c => c.code == code)).isEmpty = false := by
  rcases List.mem_map.mp h with ⟨c, hc, he⟩
  have hmem : c ∈ l.filter (fun c => c.code == code) :=
    List.mem_filter.mpr ⟨hc, by simp [he]⟩
  rcases hfl : l.filter (fun c => c.code == code) with _ | ⟨a, rest⟩
  · rw [hfl] at hmem
    cases hmem
  · rw [hfl]
    rfl

/-- Processing a shared ≤2-credit code whose CSE session is recorded puts it exactly in
the session opposite to the record and removes it from the other list. -/
theorem applySharingForCode_target (allSem : List CourseRow)
    (shared : List (String × String)) (code x : String)
    (dfs : List CourseRow × List CourseRow)
    (hs : isSharedTwoCredit allSem code = true)
    (hl : List.lookup code shared = some x)
    (hin : code ∈ codesOf dfs.1 ∨ code ∈ codesOf dfs.2) :
    ((x = "Pre") → code ∈ codesOf (applySharingForCode allSem shared code dfs).2 ∧
        code ∉ codesOf (applySharingForCode allSem shared code dfs).1) ∧
    ((x ≠ "Pre") → code ∈ codesOf (applySharingForCode allSem shared code dfs).1 ∧
        code ∉ codesOf (applySharingForCode allSem shared code dfs).2) := by
  unfold applySharingForCode
  simp only [hs, Bool.not_true, Bool.false_eq_true, if_false, hl]
  by_cases hx : x = "Pre"
  · subst hx
    simp only [beq_self_eq_true, if_pos]
    refine ⟨fun _ => ?_, fun hne => absurd rfl hne⟩
    have hb : (("Post" : String) == "Pre") = false := by decide
    simp only [hb, Bool.false_eq_true, if_false]
    by_cases hpre : code ∈ codesOf dfs.1
    · have hcontains : ((dfs.1.map (fun c => c.code)).contains code) = true := by
        rw [codes_contains_iff]; exact hpre
      simp only [hcontains, if_pos]
      have hne : (dfs.1.filter (fun c => c.code == code)).isEmpty = false :=
        filter_code_isEmpty_false dfs.1 code hpre
      simp only [hne, Bool.not_false, if_pos, Bool.false_eq_true]
      have hout : ((dfs.1.filter (fun c => !(c.code == code))).map
          (fun c => c.code)).contains code = false := by
        rw [Bool.eq_false_iff]
        intro hc
        rw [codes_contains_iff, mem_codesOf_filter_out] at hc
        exact hc.2 rfl
      simp only [hout, Bool.false_eq_true, if_false]
      constructor
      · rw [mem_codesOf_dedup, mem_codesOf_append, mem_codesOf_filter_eq]
        exact Or.inr ⟨hpre, rfl⟩
      · rw [mem_codesOf_dedup, mem_codesOf_filter_out]
        rintro ⟨_, hc⟩
        exact hc rfl
    · have hpost : code ∈ codesOf dfs.2 := hin.resolve_left hpre
      have hcontains : ((dfs.1.map (fun c => c.code)).contains code) = false := by
        rw [Bool.eq_false_iff]
        intro hc
        exact hpre ((codes_contains_iff _ _).mp hc)
      simp only [hcontains, Bool.false_eq_true, if_false]
      constructor
      · rw [mem_codesOf_dedup]
        exact hpost
      · rw [mem_codesOf_dedup]
        exact hpre
  · have hb : ((x : String) == "Pre") = false := by
      rw [beq_eq_false_iff_ne]; exact hx
    simp only [hb, Bool.false_eq_true, if_false]
    refine ⟨fun he => absurd he hx, fun _ => ?_⟩
    have hb2 : (("Pre" : String) == "Pre") = true := by decide
    simp only [hb2, if_pos]
    by_cases hpost : code ∈ codesOf dfs.2
    · have hcontains : ((dfs.2.map (fun c => c.code)).contains code) = true := by
        rw [codes_contains_iff]; exact hpost
      simp only [hcontains, if_pos]
      have hne : (dfs.2.filter (fun c => c.code == code)).isEmpty = false :=
        filter_code_isEmpty_false dfs.2 code hpost
      simp only [hne, Bool.not_false, if_pos, Bool.false_eq_true]
      have hout : ((dfs.2.filter (fun c => !(c.code == code))).map
          (fun c => c.code)).contains code = false := by
        rw [Bool.eq_false_iff]
        intro hc
        rw [codes_contains_iff, mem_codesOf_filter_out] at hc
        exact hc.2 rfl
      simp only [hout, Bool.false_eq_true, if_false]
      constructor
      · rw [mem_codesOf_dedup, mem_codesOf_append, mem_codesOf_filter_eq]
        exact Or.inr ⟨hpost, rfl⟩
      · rw [mem_codesOf_dedup, mem_codesOf_filter_out]
        rintro ⟨_, hc⟩
        exact hc rfl
    · have hpre : code ∈ codesOf dfs.1 := hin.resolve_right hpost
      have hcontains : ((dfs.2.map (fun c => c.code)).contains code) = false := by
        rw [Bool.eq_false_iff]
        intro hc
        exact hpost ((codes_contains_iff _ _).mp hc)
      simp only [hcontains, Bool.false_eq_true, if_false]
      constructor
      · rw [mem_codesOf_dedup]
        exact hpre
      · rw [mem_codesOf_dedup]
        exact hpost

theorem fold_sharing_preserve (allSem : List CourseRow)
    (shared : List (String × String)) (l : List String)
    (dfs : List CourseRow × List CourseRow) (e : String) (hne : ∀ c' ∈ l, c' ≠ e) :
    (e ∈ codesOf (l.foldl (fun d c => applySharingForCode allSem shared c d) dfs).1 ↔
      e ∈ codesOf dfs.1) ∧
    (e ∈ codesOf (l.foldl (fun d c => applySharingForCode allSem shared c d) dfs).2 ↔
      e ∈ codesOf dfs.2) := by
  induction l generalizing dfs with
  | nil => simp
  | cons c' rest ih =>
      rw [List.foldl_cons]
      have h1 := applySharingForCode_preserve allSem shared c' dfs e
        (fun he => hne c' (List.mem_cons_self c' rest) he.symm)
      have h2 := ih (applySharingForCode allSem shared c' dfs)
        (fun c hc => hne c (List.mem_cons_of_mem _ hc))
      exact ⟨h2.1.trans h1.1, h2.2.trans h1.2⟩

theorem fold_sharing_target (allSem : List CourseRow)
    (shared : List (String × String)) (l : List String) (code x : String)
    (dfs : List CourseRow × List CourseRow)
    (hnd : l.Nodup) (hcode : code ∈ l)
    (hs : isSharedTwoCredit allSem code = true)
    (hl : List.lookup code shared = some x)
    (hin : code ∈ codesOf dfs.1 ∨ code ∈ codesOf dfs.2) :
    ((x = "Pre") →
      code ∈ codesOf (l.foldl (fun d c => applySharingForCode allSem shared c d) dfs).2 ∧
      code ∉ codesOf (l.foldl (fun d c => applySharingForCode allSem shared c d) dfs).1) ∧
    ((x ≠ "Pre") →
      code ∈ codesOf (l.foldl (fun d c => applySharingForCode allSem shared c d) dfs).1 ∧
      code ∉ codesOf (l.foldl (fun d c => applySharingForCode allSem shared c d) dfs).2)
    := by
  rcases List.append_of_mem hcode with ⟨l1, l2, rfl⟩
  have hnd' := hnd
  rw [List.nodup_append] at hnd'
  rcases hnd' with ⟨hnd1, hnd2, hdisj⟩
  have hc1 : ∀ c' ∈ l1, c' ≠ code := by
    intro c' hc' he
    exact hdisj hc' (he ▸ List.mem_cons_self _ _)
  have hc2 : ∀ c' ∈ l2, c' ≠ code := by
    intro c' hc' he
    rcases List.nodup_cons.mp hnd2 with ⟨hni, _⟩
    exact hni (he ▸ hc')
  rw [List.foldl_append, List.foldl_cons]
  set dfs1 := l1.foldl (fun d c => applySharingForCode allSem shared c d) dfs with hdfs1
  have hpres1 := fold_sharing_preserve allSem shared l1 dfs code hc1
  have hin1 : code ∈ codesOf dfs1.1 ∨ code ∈ codesOf dfs1.2 := by
    rcases hin with h | h
    · exact Or.inl (hpres1.1.mpr h)
    · exact Or.inr (hpres1.2.mpr h)
  have htgt := applySharingForCode_target allSem shared code x dfs1 hs hl hin1
  set dfs2 := applySharingForCode allSem shared code dfs1 with hdfs2
  have hpres2 := fold_sharing_preserve allSem shared l2 dfs2 code hc2
  constructor
  · intro hx
    rcases htgt.1 hx with ⟨hi, hno⟩
    exact ⟨hpres2.2.mpr hi, fun hmem => hno (hpres2.1.mp hmem)⟩
  · intro hx
    rcases htgt.2 hx with ⟨hi, hno⟩
    exact ⟨hpres2.1.mpr hi, fun hmem => hno (hpres2.2.mp hmem)⟩

/-- C7: once the CSE group's session X for a shared ≤2-credit course is recorded in
the per-semester shared map, applying `_apply_two_credit_sharing` for DSAI or ECE
places that course exactly in the opposite session (removing it from the X-session
list if it was there); codes the current session lists mark as elective (column YES)
keep their membership in both lists unchanged. -/
theorem C7_two_credit_alternation (preMidDf postMidDf : List CourseRow)
    (department : String) (allSemCourses : List CourseRow) (sharedMap : SharedMap)
    (semesterId : Nat) (code x : String)
    (hdept : department = "DSAI" ∨ department = "ECE")
    (hsem : firstDedup (allSemCourses.map (fun c => c.sem)) = [semesterId])
    (hshared : isSharedTwoCredit allSemCourses code = true)
    (hl : List.lookup code ((List.lookup semesterId sharedMap).getD []) = some x)
    (hpe : code ∉ codesOf (preMidDf.filter colYes))
    (hpo : code ∉ codesOf (postMidDf.filter colYes))
    (hin : code ∈ codesOf preMidDf ∨ code ∈ codesOf postMidDf) :
    ((x = "Pre" →
      code ∈ codesOf (applyTwoCreditSharing preMidDf postMidDf department allSemCourses
        sharedMap).1.2 ∧
      code ∉ codesOf (applyTwoCreditSharing preMidDf postMidDf department allSemCourses
        sharedMap).1.1) ∧
     (x ≠ "Pre" →
      code ∈ codesOf (applyTwoCreditSharing preMidDf postMidDf department allSemCourses
        sharedMap).1.1 ∧
      code ∉ codesOf (applyTwoCreditSharing preMidDf postMidDf department allSemCourses
        sharedMap).1.2)) ∧
    (∀ e : String,
      (e ∈ codesOf (preMidDf.filter colYes) ∨ e ∈ codesOf (postMidDf.filter colYes)) →
      ((e ∈ codesOf (applyTwoCreditSharing preMidDf postMidDf department allSemCourses
          sharedMap).1.1 ↔ e ∈ codesOf preMidDf) ∧
       (e ∈ codesOf (applyTwoCreditSharing preMidDf postMidDf department allSemCourses
          sharedMap).1.2 ↔ e ∈ codesOf postMidDf))) := by
  have hAll : allSemCourses ≠ [] := by
    intro he
    rw [he] at hsem
    simp [firstDedup] at hsem
  have hAllE : allSemCourses.isEmpty = false := by
    rcases allSemCourses with _ | _
    · exact absurd rfl hAll
    · rfl
  have htgtdep : targetDepartments.contains department = true := by
    rcases hdept with h | h <;> subst h <;> decide
  have hnotcse : (department == "CSE" || department == "CSE-A" ||
      department == "CSE-B") = false := by
    rcases hdept with h | h <;> subst h <;> decide
  have hisde : (department == "DSAI" || department == "ECE") = true := by
    rcases hdept with h | h <;> subst h <;> decide
  unfold applyTwoCreditSharing
  simp only [htgtdep, Bool.not_true, Bool.false_eq_true, if_false, hAllE, hsem]
  rw [if_neg (by simp [hnotcse]), if_pos hisde]
  set shared := (List.lookup semesterId sharedMap).getD [] with hsh
  set union := ((preMidDf.filter colYes).map (fun c => c.code)) ++
    ((postMidDf.filter colYes).map (fun c => c.code)) with hun
  have hunion_code : union.contains code = false := by
    rw [Bool.eq_false_iff]
    intro hc
    have hm : code ∈ union := by simpa using hc
    rw [hun] at hm
    rcases List.mem_append.mp hm with h | h
    · exact hpe h
    · exact hpo h
  set allCodes := (firstDedup ((preMidDf.map (fun c => c.code)) ++
    (postMidDf.map (fun c => c.code)))).filter
    (fun c => !(union.contains c)) with hac
  have hnd : allCodes.Nodup := (nodup_firstDedup _).filter _
  have hcode_mem : code ∈ allCodes := by
    rw [hac]
    apply List.mem_filter.mpr
    constructor
    · rw [mem_firstDedup_iff]
      rcases hin with h | h
      · exact List.mem_append.mpr (Or.inl h)
      · exact List.mem_append.mpr (Or.inr h)
    · simpa using hunion_code
  refine ⟨?_, ?_⟩
  · exact fold_sharing_target allSemCourses shared allCodes code x
      (preMidDf, postMidDf) hnd hcode_mem hshared hl hin
  · intro e he
    have hne : ∀ c' ∈ allCodes, c' ≠ e := by
      intro c' hc' heq
      subst heq
      rcases List.mem_filter.mp hc' with ⟨_, hnu⟩
      have hmem : c' ∈ union := by
        rw [hun]
        rcases he with h | h
        · exact List.mem_append.mpr (Or.inl h)
        · exact List.mem_append.mpr (Or.inr h)
      simp [hmem] at hnu
    exact fold_sharing_preserve allSemCourses shared allCodes (preMidDf, postMidDf)
      e hne

/-- Witness for C7: semester-3 CS201 (2 credits, in CSE-A and DSAI) was recorded
Pre-Mid by CSE; dividing it for DSAI moves it to Post-Mid. -/
theorem C7_two_credit_alternation_witness :
    "CS201" ∈ codesOf (applyTwoCreditSharing
      [⟨"CS201", "Shared Two", "DSAI", 3, some 2, "NO"⟩] [] "DSAI"
      [⟨"CS201", "Shared Two", "CSE-A", 3, some 2, "NO"⟩,
       ⟨"CS201", "Shared Two", "DSAI", 3, some 2, "NO"⟩]
      [(3, [("CS201", "Pre")])]).1.2 ∧
    "CS201" ∉ codesOf (applyTwoCreditSharing
      [⟨"CS201", "Shared Two", "DSAI", 3, some 2, "NO"⟩] [] "DSAI"
      [⟨"CS201", "Shared Two", "CSE-A", 3, some 2, "NO"⟩,
       ⟨"CS201", "Shared Two", "DSAI", 3, some 2, "NO"⟩]
      [(3, [("CS201", "Pre")])]).1.1 := by
  exact (C7_two_credit_alternation
    [⟨"CS201", "Shared Two", "DSAI", 3, some 2, "NO"⟩] [] "DSAI"
    [⟨"CS201", "Shared Two", "CSE-A", 3, some 2, "NO"⟩,
     ⟨"CS201", "Shared Two", "DSAI", 3, some 2, "NO"⟩]
    [(3, [("CS201", "Pre")])] 3 "CS201" "Pre"
    (Or.inl rfl) (by decide) (by decide) (by decide) (by decide) (by decide)
    (Or.inl (by decide))).1.1 rfl

/-! ## C5: the session-union property of the divider -/

theorem code_mem_codesOf {c : CourseRow} {l : List CourseRow} (h : c ∈ l) :
    c.code ∈ codesOf l :=
  List.mem_map_of_mem _ h

theorem mem_codesOf_map_code (l : List CourseRow) (f : CourseRow → CourseRow)
    (hf : ∀ c, (f c).code = c.code) (e : String) :
    e ∈ codesOf (l.map f) ↔ e ∈ codesOf l := by
  simp only [codesOf, List.map_map, List.mem_map, Function.comp]
  constructor
  · rintro ⟨c, hc, he⟩
    exact ⟨c, hc, by rw [← he, hf]⟩
  · rintro ⟨c, hc, he⟩
    exact ⟨c, hc, by rw [hf, he]⟩

theorem mem_codesOf_splitHalfSem (l : List CourseRow) (e : String) :
    (e ∈ codesOf (splitHalfSem l).1 ∨ e ∈ codesOf (splitHalfSem l).2) ↔
      e ∈ codesOf l := by
  have happ : (splitHalfSem l).1 ++ (splitHalfSem l).2 = sortByCode l := by
    simp [splitHalfSem, List.take_append_drop]
  have hperm : (codesOf (sortByCode l)).Perm (codesOf l) :=
    (List.perm_insertionSort _ l).map _
  constructor
  · intro h
    have h2 : e ∈ codesOf ((splitHalfSem l).1 ++ (splitHalfSem l).2) :=
      (mem_codesOf_append _ _ _).mpr h
    rw [happ] at h2
    exact hperm.mem_iff.mp h2
  · intro h
    have h2 : e ∈ codesOf (sortByCode l) := hperm.mem_iff.mpr h
    rw [← happ] at h2
    exact (mem_codesOf_append _ _ _).mp h2

/-- Every regular row survives the HSS stage, into either the HSS list or the
remaining regular list (in the latter case it is not HSS-marked). -/
theorem hssStage_covers (regularCourses : List CourseRow) (department : String)
    (allSemCourses : List CourseRow) (c : CourseRow) (hc : c ∈ regularCourses) :
    c ∈ (hssStage regularCourses department allSemCourses).1 ∨
      (c ∈ (hssStage regularCourses department allSemCourses).2 ∧
        hssMaskRow c = false) := by
  unfold hssStage
  by_cases hne : (regularCourses.filter hssMaskRow).isEmpty = true
  · have hall : ∀ x ∈ regularCourses, hssMaskRow x = false := by
      intro x hx
      by_contra hmask
      have hx2 : x ∈ regularCourses.filter hssMaskRow :=
        List.mem_filter.mpr ⟨hx, by simpa using hmask⟩
      rw [List.isEmpty_iff] at hne
      rw [hne] at hx2
      cases hx2
    have hcf : hssMaskRow c = false := hall c hc
    simp only [hne, Bool.not_true, Bool.false_eq_true, if_false]
    by_cases hA : allSemCourses.isEmpty = true
    · simp only [hA, Bool.not_true, Bool.false_eq_true, if_false]
      exact Or.inr ⟨hc, hcf⟩
    · have hA' : allSemCourses.isEmpty = false := by
        rcases h2 : allSemCourses.isEmpty with _ | _
        · rfl
        · exact absurd h2 hA
      simp only [hA', Bool.not_false, if_pos]
      rcases hfl : allSemCourses.filter hssMaskRow with _ | ⟨ex, rest⟩
      · exact Or.inr ⟨hc, hcf⟩
      · exact Or.inr ⟨hc, hcf⟩
  · have hne' : (regularCourses.filter hssMaskRow).isEmpty = false := by
      rcases h2 : (regularCourses.filter hssMaskRow).isEmpty with _ | _
      · rfl
      · exact absurd h2 hne
    simp only [hne', Bool.not_false, if_pos]
    by_cases hm : hssMaskRow c = true
    · exact Or.inl (List.mem_filter.mpr ⟨hc, hm⟩)
    · have hm' : hssMaskRow c = false := by
        rcases h2 : hssMaskRow c with _ | _
        · rfl
        · exact absurd h2 hm
      exact Or.inr ⟨List.mem_filter.mpr ⟨hc, by simp [hm']⟩, hm'⟩

/-- The department filter of the semester-wide elective view (lines 448–461). -/
def electiveFromAllOf (department : String) (allSemCourses : List CourseRow) :
    List CourseRow :=
  (allSemCourses.filter colYes).filter (fun c =>
    if department == "CSE-A" || department == "CSE-B" then
      c.dept == "CSE" || c.dept == "CSE-A" || c.dept == "CSE-B"
    else c.dept == department)

theorem electiveMergeStage_eq (electiveCourses regularCourses : List CourseRow)
    (department : String) (allSemCourses : List CourseRow) :
    electiveMergeStage electiveCourses regularCourses department allSemCourses =
      if allSemCourses.isEmpty || (electiveFromAllOf department allSemCourses).isEmpty
      then (electiveCourses, regularCourses)
      else
        let efa := (dedupByCode [] (electiveFromAllOf department allSemCourses)).map
          (fun c => { c with elective := "YES" })
        let merged := (dedupByCode [] (electiveCourses ++ efa)).map
          (fun c => { c with elective := "YES" })
        (merged, regularCourses.filter
          (fun c => !((merged.map (fun c => c.code)).contains c.code))) := rfl

/-- The elective-merge stage keeps every elective code. -/
theorem electiveMergeStage_keeps_elective (electiveCourses regularCourses :
    List CourseRow) (department : String) (allSemCourses : List CourseRow)
    (e : String) (he : e ∈ codesOf electiveCourses) :
    e ∈ codesOf (electiveMergeStage electiveCourses regularCourses department
      allSemCourses).1 := by
  rw [electiveMergeStage_eq]
  by_cases hb : (allSemCourses.isEmpty ||
      (electiveFromAllOf department allSemCourses).isEmpty) = true
  · rw [if_pos hb]
    exact he
  · rw [if_neg hb]
    rw [mem_codesOf_map_code _ (fun c => { c with elective := "YES" }) (fun c => rfl),
      mem_codesOf_dedup, mem_codesOf_append]
    exact Or.inl he

/-- The elective-merge stage keeps every regular row whose code is not in the merged
elective list. -/
theorem electiveMergeStage_keeps_regular (electiveCourses regularCourses :
    List CourseRow) (department : String) (allSemCourses : List CourseRow)
    (c : CourseRow) (hc : c ∈ regularCourses)
    (hno : c.code ∉ codesOf (electiveMergeStage electiveCourses regularCourses
      department allSemCourses).1) :
    c ∈ (electiveMergeStage electiveCourses regularCourses department
      allSemCourses).2 := by
  rw [electiveMergeStage_eq] at hno ⊢
  by_cases hb : (allSemCourses.isEmpty ||
      (electiveFromAllOf department allSemCourses).isEmpty) = true
  · rw [if_pos hb]
    exact hc
  · rw [if_neg hb] at hno ⊢
    apply List.mem_filter.mpr
    refine ⟨hc, ?_⟩
    simp only [Bool.not_eq_true']
    rw [Bool.eq_false_iff]
    intro hcontains
    exact hno ((codes_contains_iff _ _).mp hcontains)

theorem cseAllHalfStage_eq_empty (allSemCourses electiveCourses : List CourseRow)
    (elCodes : List String) (hE : electiveCourses.isEmpty = true) :
    cseAllHalfStage allSemCourses electiveCourses elCodes =
      dedupByCode []
        (((allSemCourses.filter (fun c => !(colYes c))).filter
          (fun c => creditOf c ≤ 2)).filter
          (fun c => c.dept == "CSE" || c.dept == "CSE-A" || c.dept == "CSE-B")) := by
  simp only [cseAllHalfStage, hE, if_pos]

theorem cseAllHalfStage_eq_nonempty (allSemCourses electiveCourses : List CourseRow)
    (elCodes : List String) (hE : electiveCourses.isEmpty = false) :
    cseAllHalfStage allSemCourses electiveCourses elCodes =
      (dedupByCode []
        ((((allSemCourses.filter (fun c => !(elCodes.contains c.code))).filter
          (fun c => !(colYes c))).filter (fun c => creditOf c ≤ 2)).filter
          (fun c => c.dept == "CSE" || c.dept == "CSE-A" || c.dept == "CSE-B"))).filter
        (fun c => !(elCodes.contains c.code)) := by
  simp only [cseAllHalfStage, hE, Bool.false_eq_true, if_false]

/-- Membership in the CSE-family semester-wide half-semester list. -/
theorem cseAllHalfStage_covers (allSemCourses electiveCourses : List CourseRow)
    (elCodes : List String) (c : CourseRow) (hc : c ∈ allSemCourses)
    (hyes : colYes c = false) (hcred : creditOf c ≤ 2)
    (hfam : (c.dept == "CSE" || c.dept == "CSE-A" || c.dept == "CSE-B") = true)
    (hel : elCodes.contains c.code = false) :
    c.code ∈ codesOf (cseAllHalfStage allSemCourses electiveCourses elCodes) := by
  by_cases hE : electiveCourses.isEmpty = true
  · rw [cseAllHalfStage_eq_empty _ _ _ hE, mem_codesOf_dedup]
    refine code_mem_codesOf (List.mem_filter.mpr
      ⟨List.mem_filter.mpr ⟨List.mem_filter.mpr ⟨hc, by simp [hyes]⟩, ?_⟩, hfam⟩)
    simpa using hcred
  · have hE' : electiveCourses.isEmpty = false := by
      rcases h2 : electiveCourses.isEmpty with _ | _
      · rfl
      · exact absurd h2 hE
    rw [cseAllHalfStage_eq_nonempty _ _ _ hE']
    have helm : c.code ∉ elCodes := by simpa using hel
    have hstep : c ∈ (((allSemCourses.filter
        (fun c => !(elCodes.contains c.code))).filter
        (fun c => !(colYes c))).filter (fun c => creditOf c ≤ 2)).filter
        (fun c => c.dept == "CSE" || c.dept == "CSE-A" || c.dept == "CSE-B") := by
      refine List.mem_filter.mpr ⟨List.mem_filter.mpr
        ⟨List.mem_filter.mpr ⟨List.mem_filter.mpr ⟨hc, by simp [helm]⟩,
          by simp [hyes]⟩, ?_⟩, hfam⟩
      simpa using hcred
    have hstep4 : c.code ∈ codesOf (dedupByCode []
        ((((allSemCourses.filter (fun c => !(elCodes.contains c.code))).filter
          (fun c => !(colYes c))).filter (fun c => creditOf c ≤ 2)).filter
          (fun c => c.dept == "CSE" || c.dept == "CSE-A" || c.dept == "CSE-B"))) := by
      rw [mem_codesOf_dedup]
      exact code_mem_codesOf hstep
    rcases List.mem_map.mp (by simpa only [codesOf] using hstep4) with ⟨d, hd, hde⟩
    show c.code ∈ codesOf _
    simp only [codesOf]
    apply List.mem_map.mpr
    refine ⟨d, List.mem_filter.mpr ⟨hd, ?_⟩, hde⟩
    have hdc : d.code = c.code := hde
    rw [hdc]
    simp [helm]

theorem applySharingForCode_id (allSem : List CourseRow)
    (shared : List (String × String)) (c' : String)
    (dfs : List CourseRow × List CourseRow)
    (h : isSharedTwoCredit allSem c' = false ∨ List.lookup c' shared = none) :
    applySharingForCode allSem shared c' dfs = dfs := by
  unfold applySharingForCode
  rcases h with h | h
  · simp [h]
  · by_cases hs : isSharedTwoCredit allSem c' = true
    · simp [hs, h]
    · simp [hs]

theorem applySharingForCode_nocreate (allSem : List CourseRow)
    (shared : List (String × String)) (c' : String)
    (dfs : List CourseRow × List CourseRow) (e : String)
    (h1 : e ∉ codesOf dfs.1) (h2 : e ∉ codesOf dfs.2) :
    e ∉ codesOf (applySharingForCode allSem shared c' dfs).1 ∧
    e ∉ codesOf (applySharingForCode allSem shared c' dfs).2 := by
  by_cases hs : isSharedTwoCredit allSem c' = true
  · cases hl : List.lookup c' shared with
    | none =>
        rw [applySharingForCode_id allSem shared c' dfs (Or.inr hl)]
        exact ⟨h1, h2⟩
    | some x =>
        unfold applySharingForCode
        simp only [hs, Bool.not_true, Bool.false_eq_true, if_false, hl]
        constructor <;>
        · split_ifs <;>
            simp_all [mem_codesOf_dedup, mem_codesOf_filter_out,
              mem_codesOf_filter_eq, mem_codesOf_append]
  · have hs' : isSharedTwoCredit allSem c' = false := by
      rcases h3 : isSharedTwoCredit allSem c' with _ | _
      · rfl
      · exact absurd h3 hs
    rw [applySharingForCode_id allSem shared c' dfs (Or.inl hs')]
    exact ⟨h1, h2⟩

theorem applySharingForCode_union (allSem : List CourseRow)
    (shared : List (String × String)) (c' : String)
    (dfs : List CourseRow × List CourseRow) (e : String) :
    (e ∈ codesOf (applySharingForCode allSem shared c' dfs).1 ∨
     e ∈ codesOf (applySharingForCode allSem shared c' dfs).2) ↔
    (e ∈ codesOf dfs.1 ∨ e ∈ codesOf dfs.2) := by
  by_cases hne : e = c'
  · subst hne
    by_cases hs : isSharedTwoCredit allSem e = true
    · cases hl : List.lookup e shared with
      | none => rw [applySharingForCode_id allSem shared e dfs (Or.inr hl)]
      | some x =>
          constructor
          · intro h
            by_cases hin : e ∈ codesOf dfs.1 ∨ e ∈ codesOf dfs.2
            · exact hin
            · push_neg at hin
              rcases applySharingForCode_nocreate allSem shared e dfs e hin.1 hin.2
                with ⟨n1, n2⟩
              rcases h with h | h
              · exact absurd h n1
              · exact absurd h n2
          · intro hin
            have htgt := applySharingForCode_target allSem shared e x dfs hs hl hin
            by_cases hx : x = "Pre"
            · exact Or.inr (htgt.1 hx).1
            · exact Or.inl (htgt.2 hx).1
    · rw [applySharingForCode_id allSem shared e dfs (Or.inl
        (by rcases h3 : isSharedTwoCredit allSem e with _ | _
            · rfl
            · exact absurd h3 hs))]
  · have hp := applySharingForCode_preserve allSem shared c' dfs e hne
    exact or_congr hp.1 hp.2

theorem fold_sharing_union (allSem : List CourseRow)
    (shared : List (String × String)) (l : List String)
    (dfs : List CourseRow × List CourseRow) (e : String) :
    (e ∈ codesOf (l.foldl (fun d c => applySharingForCode allSem shared c d) dfs).1 ∨
     e ∈ codesOf (l.foldl (fun d c => applySharingForCode allSem shared c d) dfs).2) ↔
    (e ∈ codesOf dfs.1 ∨ e ∈ codesOf dfs.2) := by
  induction l generalizing dfs with
  | nil => simp
  | cons c' rest ih =>
      rw [List.foldl_cons]
      exact (ih _).trans (applySharingForCode_union allSem shared c' dfs e)

/-- `_apply_two_credit_sharing` never adds or drops a course code from the union of
the two session lists. -/
theorem applyTwoCreditSharing_union (preMidDf postMidDf : List CourseRow)
    (department : String) (allSemCourses : List CourseRow) (sharedMap : SharedMap)
    (e : String) :
    (e ∈ codesOf (applyTwoCreditSharing preMidDf postMidDf department allSemCourses
        sharedMap).1.1 ∨
     e ∈ codesOf (applyTwoCreditSharing preMidDf postMidDf department allSemCourses
        sharedMap).1.2) ↔
    (e ∈ codesOf preMidDf ∨ e ∈ codesOf postMidDf) := by
  unfold applyTwoCreditSharing
  by_cases ht : (targetDepartments.contains department) = true
  · simp only [ht, Bool.not_true, Bool.false_eq_true, if_false]
    by_cases hA : allSemCourses.isEmpty = true
    · simp [hA]
    · have hA' : allSemCourses.isEmpty = false := by
        rcases h2 : allSemCourses.isEmpty with _ | _
        · rfl
        · exact absurd h2 hA
      simp only [hA', Bool.false_eq_true, if_false]
      rcases hfd : firstDedup (allSemCourses.map (fun c => c.sem)) with _ | ⟨s, rest⟩
      · simp [hfd]
      · rcases rest with _ | ⟨s2, rest2⟩
        · simp only [hfd]
          by_cases hcse : ((department == "CSE" || department == "CSE-A" ||
              department == "CSE-B") = true)
          · rw [if_pos hcse]
          · rw [if_neg hcse]
            by_cases hde : ((department == "DSAI" || department == "ECE") = true)
            · rw [if_pos hde]
              exact fold_sharing_union allSemCourses _ _ (preMidDf, postMidDf) e
            · rw [if_neg hde]
        · simp [hfd]
  · have htm : department ∉ targetDepartments := by simpa using ht
    simp [htm]

theorem creditFiltered_covers (pred : CourseRow → Bool)
    (electiveCourses regularCourses : List CourseRow) (elCodes : List String)
    (c : CourseRow) (hc : c ∈ regularCourses) (hp : pred c = true)
    (hel : elCodes.contains c.code = false) :
    c.code ∈ codesOf (creditFiltered pred electiveCourses regularCourses elCodes) := by
  unfold creditFiltered
  split_ifs
  · exact code_mem_codesOf (List.mem_filter.mpr ⟨hc, hp⟩)
  · refine code_mem_codesOf (List.mem_filter.mpr ⟨List.mem_filter.mpr ⟨hc, hp⟩, ?_⟩)
    simp only [hel, Bool.not_false]

theorem finalizeSession_covers (electiveCourses hssCourses fullSemCourses half :
    List CourseRow) (elCodes : List String) (e : String)
    (h : e ∈ codesOf electiveCourses ∨ e ∈ codesOf hssCourses ∨
      e ∈ codesOf fullSemCourses ∨ e ∈ codesOf half) :
    e ∈ codesOf (finalizeSession electiveCourses hssCourses fullSemCourses half
      elCodes) := by
  unfold finalizeSession
  have hm : e ∈ codesOf (dedupByCode []
      (electiveCourses ++ hssCourses ++ fullSemCourses ++ half)) := by
    rw [mem_codesOf_dedup, mem_codesOf_append, mem_codesOf_append,
      mem_codesOf_append]
    tauto
  split_ifs
  · exact hm
  · rw [mem_codesOf_map_code _
      (fun c => if elCodes.contains c.code then { c with elective := "YES" } else c)
      (fun c => by
        change (if elCodes.contains c.code then
          ({ c with elective := "YES" } : CourseRow) else c).code = c.code
        split_ifs <;> rfl)]
    exact hm

/-- The division core never drops an input course: every non-minor input row's code
reaches the Pre-Mid or the Post-Mid list. -/
theorem divideCore_covers (coursesDfIn : List CourseRow) (department : String)
    (allSemCourses : List CourseRow)
    (hsub : ∀ c ∈ coursesDfIn, c ∈ allSemCourses)
    (hdeptRows : ∀ c ∈ coursesDfIn, c.dept = department)
    (c : CourseRow) (hc : c ∈ coursesDfIn) (hm : isMinorRow c = false) :
    c.code ∈ codesOf (divideCore coursesDfIn department allSemCourses).1 ∨
    c.code ∈ codesOf (divideCore coursesDfIn department allSemCourses).2 := by
  simp only [divideCore]
  set coursesDf := coursesDfIn.filter (fun c => !(isMinorRow c)) with hDf
  set hb := hssStage (coursesDf.filter (fun c => !(electiveMaskRow c))) department
    allSemCourses with hhb
  set mb := electiveMergeStage
    ((coursesDf.filter electiveMaskRow).map (fun c => { c with elective := "YES" }))
    hb.2 department allSemCourses with hmb
  set elCodes := mb.1.map (fun c => c.code) with helCodes
  have hcf : c ∈ coursesDf := by
    rw [hDf]
    exact List.mem_filter.mpr ⟨hc, by simp [hm]⟩
  by_cases hmask : electiveMaskRow c = true
  · have h1 : c.code ∈ codesOf mb.1 := by
      rw [hmb]
      apply electiveMergeStage_keeps_elective
      rw [mem_codesOf_map_code _ (fun c => { c with elective := "YES" }) (fun c => rfl)]
      exact code_mem_codesOf (List.mem_filter.mpr ⟨hcf, hmask⟩)
    exact Or.inl (finalizeSession_covers _ _ _ _ _ _ (Or.inl h1))
  · have hreg : c ∈ coursesDf.filter (fun c => !(electiveMaskRow c)) :=
      List.mem_filter.mpr ⟨hcf, by simp [hmask]⟩
    rcases hssStage_covers _ department allSemCourses c hreg with hhss | ⟨hreg2, hhssf⟩
    · have h1 : c.code ∈ codesOf hb.1 := code_mem_codesOf hhss
      exact Or.inl (finalizeSession_covers _ _ _ _ _ _ (Or.inr (Or.inl h1)))
    · by_cases helm : c.code ∈ codesOf mb.1
      · exact Or.inl (finalizeSession_covers _ _ _ _ _ _ (Or.inl helm))
      · have hreg3 : c ∈ mb.2 :=
          electiveMergeStage_keeps_regular _ _ _ _ c hreg2 helm
        have helCF : elCodes.contains c.code = false := by
          rw [Bool.eq_false_iff]
          intro hcc
          exact helm ((codes_contains_iff _ _).mp hcc)
        have hyes : colYes c = false := by
          rcases h2 : colYes c with _ | _
          · rfl
          · exfalso
            apply hmask
            simp [electiveMaskRow, h2,
              show (containsCI "HSS" c.code || containsCI "HSS" c.name) = false from
                hhssf]
        by_cases hcred : creditOf c ≤ 2
        · have hhalfmem : c.code ∈ codesOf
              (halfSemOf department allSemCourses mb.1 mb.2 elCodes) := by
            unfold halfSemOf
            by_cases hcseB : ((department == "CSE-A" || department == "CSE-B") &&
                !allSemCourses.isEmpty) = true
            · rw [if_pos hcseB]
              have hfam : (c.dept == "CSE" || c.dept == "CSE-A" ||
                  c.dept == "CSE-B") = true := by
                have hdd := hdeptRows c hc
                rcases Bool.and_eq_true_iff.mp hcseB with ⟨hAB, _⟩
                rcases Bool.or_eq_true_iff.mp hAB with h | h
                · rw [hdd, show department = "CSE-A" from by simpa using h]
                  decide
                · rw [hdd, show department = "CSE-B" from by simpa using h]
                  decide
              exact cseAllHalfStage_covers allSemCourses mb.1 elCodes c (hsub c hc)
                hyes hcred hfam helCF
            · rw [if_neg hcseB]
              exact creditFiltered_covers _ _ _ _ c hreg3 (by simpa using hcred) helCF
          rcases (mem_codesOf_splitHalfSem
              (halfSemOf department allSemCourses mb.1 mb.2 elCodes) c.code).mpr
              hhalfmem with hply | hply
          · exact Or.inl (finalizeSession_covers _ _ _ _ _ _
              (Or.inr (Or.inr (Or.inr hply))))
          · exact Or.inr (finalizeSession_covers _ _ _ _ _ _
              (Or.inr (Or.inr (Or.inr hply))))
        · have hfull : c.code ∈ codesOf
              (creditFiltered (fun c => 2 < creditOf c) mb.1 mb.2 elCodes) := by
            refine creditFiltered_covers _ _ _ _ c hreg3 ?_ helCF
            simp only [decide_eq_true_eq]
            omega
          exact Or.inl (finalizeSession_covers _ _ _ _ _ _
            (Or.inr (Or.inr (Or.inl hfull))))

/-- C5 (as stated) is false: the divider can emit course codes that are not in the
department's input.  Concrete input: DSAI's semester-3 list holds only `DS100`, but
the semester-wide view contains an HSS course of another department (`HSS101`,
labelled ECE); the auto-include step copies it into DSAI's output, so the union of the
produced code sets is strictly larger than the input code set. -/
theorem C5_counterexample :
    ¬ (∀ e : String,
      (e ∈ codesOf (divideCoursesBySession
          [⟨"DS100", "Data Intro", "DSAI", 3, some 3, "NO"⟩] "DSAI"
          [⟨"DS100", "Data Intro", "DSAI", 3, some 3, "NO"⟩,
           ⟨"HSS101", "Humanities", "ECE", 3, some 3, "NO"⟩] []).1.1 ∨
       e ∈ codesOf (divideCoursesBySession
          [⟨"DS100", "Data Intro", "DSAI", 3, some 3, "NO"⟩] "DSAI"
          [⟨"DS100", "Data Intro", "DSAI", 3, some 3, "NO"⟩,
           ⟨"HSS101", "Humanities", "ECE", 3, some 3, "NO"⟩] []).1.2) ↔
      e ∈ originalInputCodes
        [⟨"DS100", "Data Intro", "DSAI", 3, some 3, "NO"⟩]) := by
  intro h
  have h2 := (h "HSS101").mp (Or.inl (by decide))
  have h3 : ("HSS101" : String) ∉ originalInputCodes
      [⟨"DS100", "Data Intro", "DSAI", 3, some 3, "NO"⟩] := by decide
  exact h3 h2

/-- C5 amended: no input course is dropped — every code of the department's input
list (minor entries excluded) appears in the union of the produced Pre-Mid and
Post-Mid code sets; the union may additionally contain codes imported from the
semester-wide view (the auto-included HSS exemplar, semester-wide shared electives,
and — for the CSE sections — the paired section's half-semester courses), so equality
with the input code set does not hold.  The hypotheses state what the caller
guarantees: the department list is the semester-wide list filtered to this
department. -/
theorem C5_no_drop (coursesDfIn : List CourseRow) (department : String)
    (allSemCourses : List CourseRow) (sharedMap : SharedMap)
    (hsub : ∀ c ∈ coursesDfIn, c ∈ allSemCourses)
    (hdeptRows : ∀ c ∈ coursesDfIn, c.dept = department) :
    ∀ e ∈ originalInputCodes coursesDfIn,
      e ∈ codesOf (divideCoursesBySession coursesDfIn department allSemCourses
        sharedMap).1.1 ∨
      e ∈ codesOf (divideCoursesBySession coursesDfIn department allSemCourses
        sharedMap).1.2 := by
  intro e he
  rcases List.mem_map.mp he with ⟨c, hcf, rfl⟩
  rcases List.mem_filter.mp hcf with ⟨hc, hmb⟩
  have hm : isMinorRow c = false := by simpa using hmb
  have hne : coursesDfIn.isEmpty = false := by
    rcases coursesDfIn with _ | _
    · cases hc
    · rfl
  unfold divideCoursesBySession
  simp only [hne, Bool.false_eq_true, if_false]
  rw [applyTwoCreditSharing_union]
  exact divideCore_covers coursesDfIn department allSemCourses hsub hdeptRows c hc hm

/-- Witness for C5 (amended): the DSAI input code `DS100` survives into the union of
the produced session lists. -/
theorem C5_no_drop_witness :
    "DS100" ∈ codesOf (divideCoursesBySession
        [⟨"DS100", "Data Intro", "DSAI", 3, some 3, "NO"⟩] "DSAI"
        [⟨"DS100", "Data Intro", "DSAI", 3, some 3, "NO"⟩,
         ⟨"HSS101", "Humanities", "ECE", 3, some 3, "NO"⟩] []).1.1 ∨
    "DS100" ∈ codesOf (divideCoursesBySession
        [⟨"DS100", "Data Intro", "DSAI", 3, some 3, "NO"⟩] "DSAI"
        [⟨"DS100", "Data Intro", "DSAI", 3, some 3, "NO"⟩,
         ⟨"HSS101", "Humanities", "ECE", 3, some 3, "NO"⟩] []).1.2 := by
  exact C5_no_drop
    [⟨"DS100", "Data Intro", "DSAI", 3, some 3, "NO"⟩] "DSAI"
    [⟨"DS100", "Data Intro", "DSAI", 3, some 3, "NO"⟩,
     ⟨"HSS101", "Humanities", "ECE", 3, some 3, "NO"⟩] []
    (by decide) (by decide) "DS100" (by decide)

/-! ### Run-level machinery: generic helpers -/

theorem getD_mem_of_lt {α : Type} (l : List α) (i : Nat) (d : α) (h : i < l.length) :
    l.getD i d ∈ l := by
  induction l generalizing i with
  | nil => simp at h
  | cons a rest ih =>
      cases i with
      | zero => simp
      | succ n =>
          rw [List.getD_cons_succ]
          exact List.mem_cons_of_mem a (ih n (by simpa using h))

theorem lookup_setA_self {α β : Type} [BEq α] [LawfulBEq α] (l : List (α × β)) (k : α)
    (v : β) : List.lookup k (setA l k v) = some v := by
  induction l with
  | nil => simp [setA, List.lookup]
  | cons p rest ih =>
      rcases p with ⟨ka, va⟩
      by_cases h : ka = k
      · simp [setA, h, List.lookup]
      · simp only [setA, List.lookup, beq_iff_eq, h, if_false, ih]
        rw [show (k == ka) = false from beq_eq_false_iff_ne.mpr (Ne.symm h)]

theorem lookup_setA_other {α β : Type} [BEq α] [LawfulBEq α] (l : List (α × β)) (k k' : α)
    (v : β) (hne : k ≠ k') : List.lookup k (setA l k' v) = List.lookup k l := by
  induction l with
  | nil =>
      simp only [setA, List.lookup]
      rw [show (k == k') = false from beq_eq_false_iff_ne.mpr hne]
  | cons p rest ih =>
      rcases p with ⟨ka, va⟩
      by_cases h : ka = k'
      · subst h
        simp only [setA, beq_self_eq_true, if_true, List.lookup]
        rw [show (k == ka) = false from beq_eq_false_iff_ne.mpr hne]
      · rw [show setA ((ka, va) :: rest) k' v = (ka, va) :: setA rest k' v from by
          simp [setA, h]]
        by_cases h2 : k = ka
        · simp [List.lookup, h2]
        · simp only [List.lookup]
          rw [show (k == ka) = false from beq_eq_false_iff_ne.mpr h2, ih]

/-- All `GenState` fields except the global-slot registry agree.  Every fresh search
and every registry replay touches the state only through `markGlobalSt` (and, for the
replays, the ghost monitor), so this is the preservation currency of the development. -/
def NonGlobalEq (st st' : GenState) : Prop :=
  st'.semesterMinorSlots = st.semesterMinorSlots ∧
  st'.semesterElectiveSlots = st.semesterElectiveSlots ∧
  st'.semesterCombinedCourseSlots = st.semesterCombinedCourseSlots ∧
  st'.globalCombinedCourseSlots = st.globalCombinedCourseSlots ∧
  st'.scheduledCourses = st.scheduledCourses ∧
  st'.actualAllocations = st.actualAllocations ∧
  st'.replayClobbered = st.replayClobbered

theorem nonGlobalEq_refl (st : GenState) : NonGlobalEq st st :=
  ⟨rfl, rfl, rfl, rfl, rfl, rfl, rfl⟩

theorem nonGlobalEq_trans {a b c : GenState} (h1 : NonGlobalEq a b) (h2 : NonGlobalEq b c) :
    NonGlobalEq a c := by
  obtain ⟨x1, x2, x3, x4, x5, x6, x7⟩ := h1
  obtain ⟨y1, y2, y3, y4, y5, y6, y7⟩ := h2
  exact ⟨y1.trans x1, y2.trans x2, y3.trans x3, y4.trans x4, y5.trans x5, y6.trans x6,
    y7.trans x7⟩

theorem markGlobalSt_nonGlobal (st : GenState) (day : String) (slots : List String)
    (dept sess : String) (semId : Nat) :
    NonGlobalEq st (markGlobalSt st day slots dept sess semId) :=
  ⟨rfl, rfl, rfl, rfl, rfl, rfl, rfl⟩

theorem markGlobalFold_nonGlobal (slots : List String) (day dept sess : String)
    (semId : Nat) : ∀ st : GenState,
    NonGlobalEq st
      (slots.foldl (fun t s => markGlobalSt t day [s] dept sess semId) st) := by
  induction slots with
  | nil => intro st; exact nonGlobalEq_refl st
  | cons a rest ih =>
      intro st
      rw [List.foldl_cons]
      exact nonGlobalEq_trans (markGlobalSt_nonGlobal st day [a] dept sess semId)
        (ih (markGlobalSt st day [a] dept sess semId))

/-- Pointwise value of a local mark. -/
theorem markSlotsBusyLocal_eval (g : Grid) (day : String) (slots : List String)
    (code ctype : String) (d s : String) :
    markSlotsBusyLocal g day slots code ctype d s =
      if d = day ∧ s ∈ slots then code ++ classSuffix ctype else g d s := by
  unfold markSlotsBusyLocal
  by_cases hd : d = day
  · by_cases hs : s ∈ slots
    · simp [hd, hs]
    · simp [hd, hs]
  · simp [hd]

/-- Pointwise value of the slot-by-slot mark fold used by the fresh searches and the
elective replay. -/
theorem markFold_eval (day : String) (slots : List String) (code ctype : String)
    (d s : String) : ∀ g : Grid,
    (slots.foldl (fun gr sl => markSlotsBusyLocal gr day [sl] code ctype) g) d s =
      if d = day ∧ s ∈ slots then code ++ classSuffix ctype else g d s := by
  induction slots with
  | nil => intro g; simp
  | cons a rest ih =>
      intro g
      rw [List.foldl_cons, ih]
      by_cases hd : d = day
      · by_cases hs : s ∈ rest
        · simp [hd, hs]
        · by_cases ha : s = a
          · simp [hd, hs, ha, markSlotsBusyLocal_eval]
          · simp [hd, hs, ha, markSlotsBusyLocal_eval]
      · simp [hd, markSlotsBusyLocal_eval]

theorem isLocal_iff (g : Grid) (day : String) (slots : List String) :
    isTimeSlotAvailableLocal g day slots = true ↔ ∀ s ∈ slots, g day s = "Free" := by
  simp [isTimeSlotAvailableLocal, List.all_eq_true]

/-! ### The cell-disjointness invariant -/

/-- Propositional form of `cellsDisjoint`. -/
def DisjCells (a b : Commit) : Prop := ∀ x ∈ a.cells, x ∉ b.cells

/-- Soundness invariant of a partially built grid: every committed cell is marked
(not `"Free"`) on the grid, and the commits are pairwise cell-disjoint. -/
def Inv (g : Grid) (commits : List Commit) : Prop :=
  (∀ c ∈ commits, ∀ s ∈ c.slots, g c.day s ≠ "Free") ∧
  List.Pairwise DisjCells commits

theorem cellsDisjoint_iff (a b : Commit) : cellsDisjoint a b = true ↔ DisjCells a b := by
  simp [cellsDisjoint, DisjCells, List.all_eq_true]

theorem pairwiseDisjointCommits_iff (l : List Commit) :
    pairwiseDisjointCommits l = true ↔ List.Pairwise DisjCells l := by
  induction l with
  | nil => simp [pairwiseDisjointCommits]
  | cons c rest ih =>
      rw [List.pairwise_cons]
      simp only [pairwiseDisjointCommits, Bool.and_eq_true, List.all_eq_true, ih,
        cellsDisjoint_iff]

theorem ne_free_of_long_suffix (code suf : String) (h : 4 < suf.length) :
    code ++ suf ≠ "Free" := by
  intro he
  have h4 : (code ++ suf).length = 4 := by rw [he]; rfl
  rw [String.length_append] at h4
  omega

theorem append_empty_str (s : String) : s ++ "" = s := by
  rcases s with ⟨data⟩
  show String.mk (data ++ []) = String.mk data
  rw [List.append_nil]

/-- Committing a block of `"Free"` cells with a non-`"Free"` label preserves the
invariant; `heval` is the pointwise description shared by `markSlotsBusyLocal` and
its slot-by-slot fold. -/
theorem inv_commit {g g' : Grid} {C : List Commit} (code ctype day : String)
    (slots : List String)
    (hInv : Inv g C)
    (hfree : ∀ s ∈ slots, g day s = "Free")
    (hlabel : code ++ classSuffix ctype ≠ "Free")
    (heval : ∀ d s, g' d s =
      if d = day ∧ s ∈ slots then code ++ classSuffix ctype else g d s) :
    Inv g' (C ++ [⟨code, ctype, day, slots⟩]) := by
  obtain ⟨hgood, hpd⟩ := hInv
  constructor
  · intro c hc s hs
    rcases List.mem_append.mp hc with hc | hc
    · rw [heval]
      by_cases hcov : c.day = day ∧ s ∈ slots
      · simpa [hcov] using hlabel
      · rw [if_neg hcov]
        exact hgood c hc s hs
    · rw [List.mem_singleton.mp hc] at hs ⊢
      rw [heval]
      simpa [hs] using hlabel
  · rw [List.pairwise_append]
    refine ⟨hpd, List.pairwise_singleton _ _, ?_⟩
    intro a ha b hb
    rw [List.mem_singleton.mp hb]
    intro x hxa hxb
    rcases List.mem_map.mp hxb with ⟨s, hsmem, hxs⟩
    rcases List.mem_map.mp hxa with ⟨s', hs'mem, hxs'⟩
    have hgne : g a.day s' ≠ "Free" := hgood a ha s' hs'mem
    have hd : a.day = day := by
      have := congrArg Prod.fst (hxs'.trans hxs.symm)
      simpa using this
    have hss : s' = s := by
      have := congrArg Prod.snd (hxs'.trans hxs.symm)
      simpa using this
    exact hgne (by rw [hd, hss]; exact hfree s hsmem)

/-- A no-op step (same grid, no new commits) trivially preserves the invariant. -/
theorem inv_append_nil {g : Grid} {C : List Commit} (h : Inv g C) : Inv g (C ++ []) := by
  simpa using h

/-! ### Fresh-search loops: state preservation and invariant -/

theorem freshSearchAux_nonGlobal (ct dept sess : String) (semId : Nat) (code : String)
    (target : Nat) (oracle : Nat → Nat) :
    ∀ fuel attempt combos used avoid g st acc commits,
    NonGlobalEq st
      (freshSearchAux ct dept sess semId code target oracle fuel attempt combos used
        avoid g st acc commits).2.2.2 := by
  intro fuel
  induction fuel with
  | zero =>
      intro attempt combos used avoid g st acc commits
      exact nonGlobalEq_refl st
  | succ n ih =>
      intro attempt combos used avoid g st acc commits
      simp only [freshSearchAux]
      split_ifs with h1 h2 h3 h4 h5 <;>
        first
          | exact nonGlobalEq_refl st
          | exact nonGlobalEq_trans (markGlobalFold_nonGlobal _ _ _ _ _ _)
              (ih _ _ _ _ _ _ _ _)
          | exact ih _ _ _ _ _ _ _ _

theorem freshSearchAux_inv (ct dept sess : String) (semId : Nat) (code : String)
    (target : Nat) (oracle : Nat → Nat)
    (hlabel : code ++ classSuffix ct ≠ "Free") :
    ∀ fuel attempt combos used avoid g st acc commits C,
    Inv g (C ++ commits) →
    Inv (freshSearchAux ct dept sess semId code target oracle fuel attempt combos used
          avoid g st acc commits).2.2.1
      (C ++ (freshSearchAux ct dept sess semId code target oracle fuel attempt combos
          used avoid g st acc commits).2.1) := by
  intro fuel
  induction fuel with
  | zero =>
      intro attempt combos used avoid g st acc commits C hInv
      exact hInv
  | succ n ih =>
      intro attempt combos used avoid g st acc commits C hInv
      simp only [freshSearchAux]
      split_ifs with h1 h2 h3 h4 h5 <;>
        first
          | exact hInv
          | exact ih _ _ _ _ _ _ _ _ _ hInv
          | · apply ih
              rw [← List.append_assoc]
              refine inv_commit _ _ _ _ hInv ?_ hlabel
                (fun d s => markFold_eval _ _ _ _ d s _)
              intro s hs
              first
                | have hone := (List.all_eq_true.mp h4) s hs
                  simp only [Bool.and_eq_true] at hone
                  exact ((isLocal_iff _ _ [s]).mp hone.1) s (List.mem_singleton_self s)
                | have hone := (List.all_eq_true.mp h5) s hs
                  simp only [Bool.and_eq_true] at hone
                  exact ((isLocal_iff _ _ [s]).mp hone.1) s (List.mem_singleton_self s)

theorem classSuffix_lab : classSuffix "Lab" = " (Lab)" := by decide

theorem classSuffix_tut : classSuffix "Tutorial" = " (Tut)" := by decide

theorem classSuffix_lec : classSuffix "Lecture" = "" := by decide

theorem classSuffix_minor : classSuffix "Minor" = " (Minor)" := by decide

theorem lab_label_ne_free (code : String) : code ++ classSuffix "Lab" ≠ "Free" := by
  rw [classSuffix_lab]
  exact ne_free_of_long_suffix code " (Lab)" (by decide)

theorem tut_label_ne_free (code : String) : code ++ classSuffix "Tutorial" ≠ "Free" := by
  rw [classSuffix_tut]
  exact ne_free_of_long_suffix code " (Tut)" (by decide)

theorem lec_label_ne_free (code : String) (h : code ≠ "Free") :
    code ++ classSuffix "Lecture" ≠ "Free" := by
  rw [classSuffix_lec, append_empty_str]
  exact h

theorem minor_label_ne_free : MINOR_SUBJECT ++ classSuffix "Minor" ≠ "Free" := by decide

theorem scheduleLabs_inv (g : Grid) (st : GenState) (code : String) (P : Nat)
    (dept sess : String) (semId : Nat) (avoid : List String) (oracle : Nat → Nat)
    (C : List Commit) (hInv : Inv g C) :
    Inv (scheduleLabs g st code P dept sess semId avoid oracle).2.2.1
      (C ++ (scheduleLabs g st code P dept sess semId avoid oracle).2.1) := by
  unfold scheduleLabs
  split_ifs with h
  · simpa using hInv
  · exact freshSearchAux_inv "Lab" dept sess semId code (P * LAB_DURATION) oracle
      (lab_label_ne_free code) 1000 0 labCombos [] avoid g st [] [] C
      (by simpa using hInv)

theorem scheduleLectures_inv (g : Grid) (st : GenState) (code : String) (L : Nat)
    (dept sess : String) (semId : Nat) (avoid : List String) (oracle : Nat → Nat)
    (C : List Commit) (hInv : Inv g C) (hcode : code ≠ "Free") :
    Inv (scheduleLectures g st code L dept sess semId avoid oracle).2.2.1
      (C ++ (scheduleLectures g st code L dept sess semId avoid oracle).2.1) := by
  unfold scheduleLectures
  split_ifs with h
  · simpa using hInv
  · exact freshSearchAux_inv "Lecture" dept sess semId code (L * LECTURE_DURATION) oracle
      (lec_label_ne_free code hcode) 2000 0 (combosFor LECTURE_DURATION) [] avoid g st
      [] [] C (by simpa using hInv)

theorem scheduleTutorials_inv (g : Grid) (st : GenState) (code : String) (T : Nat)
    (dept sess : String) (semId : Nat) (avoid : List String) (oracle : Nat → Nat)
    (C : List Commit) (hInv : Inv g C) :
    Inv (scheduleTutorials g st code T dept sess semId avoid oracle).2.2.1
      (C ++ (scheduleTutorials g st code T dept sess semId avoid oracle).2.1) := by
  unfold scheduleTutorials
  split_ifs with h
  · simpa using hInv
  · exact freshSearchAux_inv "Tutorial" dept sess semId code (T * TUTORIAL_DURATION)
      oracle (tut_label_ne_free code) 1000 0 (combosFor TUTORIAL_DURATION) [] avoid g st
      [] [] C (by simpa using hInv)

theorem electiveFreshAux_nonGlobal (dept sess : String) (semId : Nat) (code : String)
    (need : Nat) (oracle : Nat → Nat) :
    ∀ fuel attempt combos used avoid scheduled assigned g st acc commits,
    NonGlobalEq st
      (electiveFreshAux dept sess semId code need oracle fuel attempt combos used avoid
        scheduled assigned g st acc commits).2.2.2.2 := by
  intro fuel
  induction fuel with
  | zero =>
      intro attempt combos used avoid scheduled assigned g st acc commits
      exact nonGlobalEq_refl st
  | succ n ih =>
      intro attempt combos used avoid scheduled assigned g st acc commits
      simp only [electiveFreshAux]
      split_ifs with h1 h2 h3 h4 h5 <;>
        first
          | exact nonGlobalEq_refl st
          | exact nonGlobalEq_trans (markGlobalFold_nonGlobal _ _ _ _ _ _)
              (ih _ _ _ _ _ _ _ _ _ _)
          | exact ih _ _ _ _ _ _ _ _ _ _

theorem electiveFreshAux_inv (dept sess : String) (semId : Nat) (code : String)
    (need : Nat) (oracle : Nat → Nat) (hcode : code ≠ "Free") :
    ∀ fuel attempt combos used avoid scheduled assigned g st acc commits C,
    Inv g (C ++ commits) →
    Inv (electiveFreshAux dept sess semId code need oracle fuel attempt combos used
          avoid scheduled assigned g st acc commits).2.2.2.1
      (C ++ (electiveFreshAux dept sess semId code need oracle fuel attempt combos used
          avoid scheduled assigned g st acc commits).2.1) := by
  intro fuel
  induction fuel with
  | zero =>
      intro attempt combos used avoid scheduled assigned g st acc commits C hInv
      exact hInv
  | succ n ih =>
      intro attempt combos used avoid scheduled assigned g st acc commits C hInv
      simp only [electiveFreshAux]
      split_ifs with h1 h2 h3 h4 h5 <;>
        first
          | exact hInv
          | exact ih _ _ _ _ _ _ _ _ _ _ _ hInv
          | · apply ih
              rw [← List.append_assoc]
              refine inv_commit _ _ _ _ hInv ?_ (lec_label_ne_free code hcode)
                (fun d s => markFold_eval _ _ _ _ d s _)
              first
                | · simp only [Bool.and_eq_true] at h4
                    exact (isLocal_iff _ _ _).mp h4.1
                | · simp only [Bool.and_eq_true] at h5
                    exact (isLocal_iff _ _ _).mp h5.1

/-! ### Replay loops: ghost-monitor monotonicity and conditional invariant -/

theorem electiveReplayAux_mono (avoid : List String) (code dept sess : String)
    (semId : Nat) :
    ∀ assigned acc commits g st, st.replayClobbered = true →
    (electiveReplayAux avoid code dept sess semId assigned acc commits
        g st).2.2.2.replayClobbered = true := by
  intro assigned
  induction assigned with
  | nil =>
      intro acc commits g st h
      exact h
  | cons p rest ih =>
      rcases p with ⟨day, start⟩
      intro acc commits g st h
      simp only [electiveReplayAux]
      split_ifs with h1
      · exact ih _ _ _ _ h
      · apply ih
        rw [(markGlobalFold_nonGlobal _ _ _ _ _ _).2.2.2.2.2.2]
        simp [h]

theorem electiveReplayAux_inv (avoid : List String) (code dept sess : String)
    (semId : Nat) (hcode : code ≠ "Free") :
    ∀ assigned acc commits g st C,
    Inv g (C ++ commits) →
    (electiveReplayAux avoid code dept sess semId assigned acc commits
        g st).2.2.2.replayClobbered = false →
    Inv (electiveReplayAux avoid code dept sess semId assigned acc commits g st).2.2.1
      (C ++ (electiveReplayAux avoid code dept sess semId assigned acc commits
        g st).2.1) := by
  intro assigned
  induction assigned with
  | nil =>
      intro acc commits g st C hInv hrc
      exact hInv
  | cons p rest ih =>
      rcases p with ⟨day, start⟩
      intro acc commits g st C hInv hrc
      simp only [electiveReplayAux] at hrc ⊢
      split_ifs at hrc ⊢ with h1
      · exact ih _ _ _ _ _ hInv hrc
      · refine ih _ _ _ _ _ ?_ hrc
        have hrcmid : ((getConsecutiveSlots start LECTURE_DURATION).foldl
            (fun t s => markGlobalSt t day [s] dept sess semId)
            { st with replayClobbered := st.replayClobbered ||
                !(isTimeSlotAvailableLocal g day
                  (getConsecutiveSlots start LECTURE_DURATION)) }).replayClobbered
            = false := by
          rcases Bool.eq_false_or_eq_true
            (((getConsecutiveSlots start LECTURE_DURATION).foldl
              (fun t s => markGlobalSt t day [s] dept sess semId)
              { st with replayClobbered := st.replayClobbered ||
                  !(isTimeSlotAvailableLocal g day
                    (getConsecutiveSlots start LECTURE_DURATION)) }).replayClobbered)
            with h | h
          · rw [electiveReplayAux_mono avoid code dept sess semId rest _ _ _ _ h] at hrc
            exact Bool.noConfusion hrc
          · exact h
        have hrc1 : (st.replayClobbered ||
            !(isTimeSlotAvailableLocal g day
              (getConsecutiveSlots start LECTURE_DURATION))) = false := by
          have h7 := (markGlobalFold_nonGlobal
            (getConsecutiveSlots start LECTURE_DURATION) day dept sess semId
            { st with replayClobbered := st.replayClobbered ||
                !(isTimeSlotAvailableLocal g day
                  (getConsecutiveSlots start LECTURE_DURATION)) }).2.2.2.2.2.2
          rw [h7] at hrcmid
          simpa using hrcmid
        have hav : isTimeSlotAvailableLocal g day
            (getConsecutiveSlots start LECTURE_DURATION) = true := by
          rcases Bool.or_eq_false_iff.mp hrc1 with ⟨_, hx⟩
          simpa using hx
        rw [← List.append_assoc]
        refine inv_commit _ _ _ _ hInv ?_ (lec_label_ne_free code hcode)
          (fun d s => markFold_eval _ _ _ _ d s _)
        exact (isLocal_iff _ _ _).mp hav

theorem minorReplayAux_mono (dept sess : String) (semId : Nat) :
    ∀ assigned g st commits, st.replayClobbered = true →
    (minorReplayAux dept sess semId assigned g st commits).2.1.replayClobbered = true := by
  intro assigned
  induction assigned with
  | nil =>
      intro g st commits h
      exact h
  | cons p rest ih =>
      rcases p with ⟨day, start⟩
      intro g st commits h
      simp only [minorReplayAux]
      apply ih
      simp [markGlobalSt, h]

theorem minorReplayAux_inv (dept sess : String) (semId : Nat) :
    ∀ assigned g st commits C,
    Inv g (C ++ commits) →
    (minorReplayAux dept sess semId assigned g st commits).2.1.replayClobbered = false →
    Inv (minorReplayAux dept sess semId assigned g st commits).1
      (C ++ (minorReplayAux dept sess semId assigned g st commits).2.2) := by
  intro assigned
  induction assigned with
  | nil =>
      intro g st commits C hInv hrc
      exact hInv
  | cons p rest ih =>
      rcases p with ⟨day, start⟩
      intro g st commits C hInv hrc
      simp only [minorReplayAux] at hrc ⊢
      refine ih _ _ _ _ ?_ hrc
      have hrcmid : (markGlobalSt
          { st with replayClobbered := st.replayClobbered ||
              !(isTimeSlotAvailableLocal g day (getConsecutiveSlots start MINOR_DURATION)) }
          day (getConsecutiveSlots start MINOR_DURATION) dept sess
          semId).replayClobbered = false := by
        rcases Bool.eq_false_or_eq_true ((markGlobalSt
            { st with replayClobbered := st.replayClobbered ||
                !(isTimeSlotAvailableLocal g day
                  (getConsecutiveSlots start MINOR_DURATION)) }
            day (getConsecutiveSlots start MINOR_DURATION) dept sess
            semId).replayClobbered) with h | h
        · rw [minorReplayAux_mono dept sess semId rest _ _ _ h] at hrc
          exact Bool.noConfusion hrc
        · exact h
      have hav : isTimeSlotAvailableLocal g day
          (getConsecutiveSlots start MINOR_DURATION) = true := by
        have : (st.replayClobbered ||
            !(isTimeSlotAvailableLocal g day
              (getConsecutiveSlots start MINOR_DURATION))) = false := by
          simpa [markGlobalSt] using hrcmid
        rcases Bool.or_eq_false_iff.mp this with ⟨_, hx⟩
        simpa using hx
      rw [← List.append_assoc]
      refine inv_commit _ _ _ _ hInv ?_ minor_label_ne_free
        (fun d s => markSlotsBusyLocal_eval _ _ _ _ _ d s)
      exact (isLocal_iff _ _ _).mp hav

/-! ### Combined-slot application and the minor fresh search -/

theorem applyCombinedLoop_nonGlobal (code comp : String) (dur req : Nat)
    (dept sess : String) (semId : Nat) :
    ∀ pairs applied accSlots commits g st,
    NonGlobalEq st
      (applyCombinedLoop code comp dur req dept sess semId pairs applied accSlots
        commits g st).2.2.2.2 := by
  intro pairs
  induction pairs with
  | nil =>
      intro applied accSlots commits g st
      exact nonGlobalEq_refl st
  | cons p rest ih =>
      rcases p with ⟨day, start⟩
      intro applied accSlots commits g st
      simp only [applyCombinedLoop]
      split_ifs with h1 h2 <;>
        first
          | exact markGlobalSt_nonGlobal st _ _ _ _ _
          | exact nonGlobalEq_trans (markGlobalSt_nonGlobal st _ _ _ _ _) (ih _ _ _ _ _)
          | exact ih _ _ _ _ _

theorem applyCombinedLoop_inv (code comp : String) (dur req : Nat)
    (dept sess : String) (semId : Nat)
    (hlabel : code ++ classSuffix comp ≠ "Free") :
    ∀ pairs applied accSlots commits g st C,
    Inv g (C ++ commits) →
    Inv (applyCombinedLoop code comp dur req dept sess semId pairs applied accSlots
          commits g st).2.2.2.1
      (C ++ (applyCombinedLoop code comp dur req dept sess semId pairs applied accSlots
          commits g st).2.2.1) := by
  intro pairs
  induction pairs with
  | nil =>
      intro applied accSlots commits g st C hInv
      exact hInv
  | cons p rest ih =>
      rcases p with ⟨day, start⟩
      intro applied accSlots commits g st C hInv
      simp only [applyCombinedLoop]
      have hstep : ∀ hguard : ((getConsecutiveSlots start dur).length == dur &&
          isTimeSlotAvailableLocal g day (getConsecutiveSlots start dur) &&
          isTimeSlotAvailableGlobal st.semesterGlobalSlots day
            (getConsecutiveSlots start dur) dept sess semId) = true,
          Inv (markSlotsBusyLocal g day (getConsecutiveSlots start dur) code comp)
            ((C ++ commits) ++ [⟨code, comp, day, getConsecutiveSlots start dur⟩]) := by
        intro hguard
        simp only [Bool.and_eq_true] at hguard
        refine inv_commit _ _ _ _ hInv ?_ hlabel
          (fun d s => markSlotsBusyLocal_eval _ _ _ _ _ d s)
        exact (isLocal_iff _ _ _).mp hguard.1.2
      split_ifs with h1 h2
      · rw [← List.append_assoc]
        exact hstep h1
      · apply ih
        rw [← List.append_assoc]
        exact hstep h1
      · exact ih _ _ _ _ _ _ hInv

theorem applyExistingCombined_nonGlobal (g : Grid) (st : GenState) (code comp : String)
    (dur req : Nat) (dept sess : String) (semId : Nat) :
    NonGlobalEq st
      (applyExistingCombined g st code comp dur req dept sess semId).2.2.2.2 := by
  unfold applyExistingCombined
  split_ifs with h
  · exact nonGlobalEq_refl st
  · exact applyCombinedLoop_nonGlobal _ _ _ _ _ _ _ _ _ _ _ _ _

theorem applyExistingCombined_inv (g : Grid) (st : GenState) (code comp : String)
    (dur req : Nat) (dept sess : String) (semId : Nat) (C : List Commit)
    (hlabel : code ++ classSuffix comp ≠ "Free") (hInv : Inv g C) :
    Inv (applyExistingCombined g st code comp dur req dept sess semId).2.2.2.1
      (C ++ (applyExistingCombined g st code comp dur req dept sess semId).2.2.1) := by
  unfold applyExistingCombined
  split_ifs with h
  · simpa using hInv
  · exact applyCombinedLoop_inv code comp dur req dept sess semId hlabel _ _ _ _ _ _ C
      (by simpa using hInv)

theorem minorFreshAux_nonGlobal (dept sess : String) (semId : Nat)
    (oracle : Nat → Nat × Nat) :
    ∀ fuel attempt scheduled assigned g st commits,
    NonGlobalEq st
      (minorFreshAux dept sess semId oracle fuel attempt scheduled assigned g st
        commits).2.2.1 := by
  intro fuel
  induction fuel with
  | zero =>
      intro attempt scheduled assigned g st commits
      exact nonGlobalEq_refl st
  | succ n ih =>
      intro attempt scheduled assigned g st commits
      simp only [minorFreshAux]
      split_ifs with h1 h2 <;>
        first
          | exact nonGlobalEq_refl st
          | exact nonGlobalEq_trans (markGlobalSt_nonGlobal st _ _ _ _ _) (ih _ _ _ _ _ _)
          | exact ih _ _ _ _ _ _

theorem minorFreshAux_inv (dept sess : String) (semId : Nat) (oracle : Nat → Nat × Nat) :
    ∀ fuel attempt scheduled assigned g st commits C,
    Inv g (C ++ commits) →
    Inv (minorFreshAux dept sess semId oracle fuel attempt scheduled assigned g st
          commits).2.1
      (C ++ (minorFreshAux dept sess semId oracle fuel attempt scheduled assigned g st
          commits).2.2.2) := by
  intro fuel
  induction fuel with
  | zero =>
      intro attempt scheduled assigned g st commits C hInv
      exact hInv
  | succ n ih =>
      intro attempt scheduled assigned g st commits C hInv
      simp only [minorFreshAux]
      split_ifs with h1 h2
      · apply ih
        rw [← List.append_assoc]
        simp only [Bool.and_eq_true] at h2
        refine inv_commit _ _ _ _ hInv ?_ minor_label_ne_free
          (fun d s => markSlotsBusyLocal_eval _ _ _ _ _ d s)
        exact (isLocal_iff _ _ _).mp h2.1.2
      · exact ih _ _ _ _ _ _ _ hInv
      · exact hInv

/-! ### Scheduler wrappers: monitor equations, monotonicity, invariant -/

theorem scheduleLabs_rc (g : Grid) (st : GenState) (code : String) (P : Nat)
    (dept sess : String) (semId : Nat) (avoid : List String) (oracle : Nat → Nat) :
    (scheduleLabs g st code P dept sess semId avoid
      oracle).2.2.2.replayClobbered = st.replayClobbered := by
  unfold scheduleLabs
  split_ifs with h
  · rfl
  · exact (freshSearchAux_nonGlobal _ _ _ _ _ _ _ _ _ _ _ _ _ _ _ _).2.2.2.2.2.2

theorem scheduleLectures_rc (g : Grid) (st : GenState) (code : String) (L : Nat)
    (dept sess : String) (semId : Nat) (avoid : List String) (oracle : Nat → Nat) :
    (scheduleLectures g st code L dept sess semId avoid
      oracle).2.2.2.replayClobbered = st.replayClobbered := by
  unfold scheduleLectures
  split_ifs with h
  · rfl
  · exact (freshSearchAux_nonGlobal _ _ _ _ _ _ _ _ _ _ _ _ _ _ _ _).2.2.2.2.2.2

theorem scheduleTutorials_rc (g : Grid) (st : GenState) (code : String) (T : Nat)
    (dept sess : String) (semId : Nat) (avoid : List String) (oracle : Nat → Nat) :
    (scheduleTutorials g st code T dept sess semId avoid
      oracle).2.2.2.replayClobbered = st.replayClobbered := by
  unfold scheduleTutorials
  split_ifs with h
  · rfl
  · exact (freshSearchAux_nonGlobal _ _ _ _ _ _ _ _ _ _ _ _ _ _ _ _).2.2.2.2.2.2

theorem applyExistingCombined_rc (g : Grid) (st : GenState) (code comp : String)
    (dur req : Nat) (dept sess : String) (semId : Nat) :
    (applyExistingCombined g st code comp dur req dept sess
      semId).2.2.2.2.replayClobbered = st.replayClobbered :=
  (applyExistingCombined_nonGlobal g st code comp dur req dept sess semId).2.2.2.2.2.2

theorem scheduleElectiveClasses_mono (g : Grid) (st : GenState) (code : String) (n : Nat)
    (dept sess : String) (semId : Nat) (avoid : List String) (oracle : Nat → Nat)
    (h : st.replayClobbered = true) :
    (scheduleElectiveClasses g st code n dept sess semId avoid
      oracle).2.2.2.replayClobbered = true := by
  unfold scheduleElectiveClasses
  split_ifs with h0
  · exact h
  · rcases hc : List.lookup (semKeyOf semId, "ALL_ELECTIVES") st.semesterElectiveSlots
      with _ | assigned
    · rcases he : List.lookup (semKeyOf semId, code) st.semesterElectiveSlots
        with _ | assigned2
      · simp only [hc, he]
        split_ifs with h1
        · exact (electiveFreshAux_nonGlobal dept sess semId code n oracle 1000 0
            (combosFor LECTURE_DURATION) [] avoid 0 [] g st [] []).2.2.2.2.2.2.trans h
        · exact (electiveFreshAux_nonGlobal dept sess semId code n oracle 1000 0
            (combosFor LECTURE_DURATION) [] avoid 0 [] g st [] []).2.2.2.2.2.2.trans h
      · simp only [hc, he]
        exact electiveReplayAux_mono avoid code dept sess semId assigned2 [] [] g _ h
    · simp only [hc]
      exact electiveReplayAux_mono avoid code dept sess semId assigned [] [] g st h

theorem scheduleElectiveClasses_inv (g : Grid) (st : GenState) (code : String) (n : Nat)
    (dept sess : String) (semId : Nat) (avoid : List String) (oracle : Nat → Nat)
    (C : List Commit) (hcode : code ≠ "Free") (hInv : Inv g C)
    (hrc : (scheduleElectiveClasses g st code n dept sess semId avoid
      oracle).2.2.2.replayClobbered = false) :
    Inv (scheduleElectiveClasses g st code n dept sess semId avoid oracle).2.2.1
      (C ++ (scheduleElectiveClasses g st code n dept sess semId avoid oracle).2.1) := by
  unfold scheduleElectiveClasses at hrc ⊢
  split_ifs at hrc ⊢ with h0
  · simpa using hInv
  · rcases hc : List.lookup (semKeyOf semId, "ALL_ELECTIVES") st.semesterElectiveSlots
      with _ | assigned
    · rcases he : List.lookup (semKeyOf semId, code) st.semesterElectiveSlots
        with _ | assigned2
      · simp only [hc, he] at hrc ⊢
        split_ifs at hrc ⊢ with h1
        · exact electiveFreshAux_inv dept sess semId code n oracle hcode _ _ _ _ _ _ _ _
            _ _ _ C (by simpa using hInv)
        · exact electiveFreshAux_inv dept sess semId code n oracle hcode _ _ _ _ _ _ _ _
            _ _ _ C (by simpa using hInv)
      · simp only [hc, he] at hrc ⊢
        unfold electiveReplay at hrc ⊢
        exact electiveReplayAux_inv avoid code dept sess semId hcode _ _ _ _ _ _
          (by simpa using hInv) hrc
    · simp only [hc] at hrc ⊢
      unfold electiveReplay at hrc ⊢
      exact electiveReplayAux_inv avoid code dept sess semId hcode _ _ _ _ _ _
        (by simpa using hInv) hrc

theorem scheduleMinorClasses_mono (g : Grid) (st : GenState) (dept sess : String)
    (semId : Nat) (oracle : Nat → Nat × Nat) (h : st.replayClobbered = true) :
    (scheduleMinorClasses g st dept sess semId oracle).2.1.replayClobbered = true := by
  unfold scheduleMinorClasses
  split_ifs with h1 h2
  · exact h
  · exact h
  · rcases hm : List.lookup (semKeyOf semId) st.semesterMinorSlots with _ | assigned
    · simp only [hm]
      split_ifs with h3
      · exact (minorFreshAux_nonGlobal dept sess semId oracle 200 0 0 [] g st
          []).2.2.2.2.2.2.trans h
      · exact (minorFreshAux_nonGlobal dept sess semId oracle 200 0 0 [] g st
          []).2.2.2.2.2.2.trans h
    · simp only [hm]
      exact minorReplayAux_mono dept sess semId assigned g st [] h

theorem scheduleMinorClasses_inv (g : Grid) (st : GenState) (dept sess : String)
    (semId : Nat) (oracle : Nat → Nat × Nat) (C : List Commit) (hInv : Inv g C)
    (hrc : (scheduleMinorClasses g st dept sess semId oracle).2.1.replayClobbered
      = false) :
    Inv (scheduleMinorClasses g st dept sess semId oracle).1
      (C ++ (scheduleMinorClasses g st dept sess semId oracle).2.2) := by
  unfold scheduleMinorClasses at hrc ⊢
  split_ifs at hrc ⊢ with h1 h2
  · simpa using hInv
  · simpa using hInv
  · rcases hm : List.lookup (semKeyOf semId) st.semesterMinorSlots with _ | assigned
    · simp only [hm] at hrc ⊢
      split_ifs at hrc ⊢ with h3
      · exact minorFreshAux_inv dept sess semId oracle _ _ _ _ _ _ _ C
          (by simpa using hInv)
      · exact minorFreshAux_inv dept sess semId oracle _ _ _ _ _ _ _ C
          (by simpa using hInv)
    · simp only [hm] at hrc ⊢
      unfold minorReplay at hrc ⊢
      exact minorReplayAux_inv dept sess semId _ _ _ _ C (by simpa using hInv) hrc

theorem combinedStage_rc (g : Grid) (st : GenState) (code : String) (L T P : Nat)
    (dept sess : String) (semId : Nat) :
    (combinedStage g st code L T P dept sess
      semId).2.2.2.2.replayClobbered = st.replayClobbered := by
  simp only [combinedStage, applyExistingCombined_rc]

theorem combinedStage_inv (g : Grid) (st : GenState) (code : String) (L T P : Nat)
    (dept sess : String) (semId : Nat) (C : List Commit) (hcode : code ≠ "Free")
    (hInv : Inv g C) :
    Inv (combinedStage g st code L T P dept sess semId).2.2.2.1
      (((C ++ (combinedStage g st code L T P dept sess semId).1.2.2) ++
          (combinedStage g st code L T P dept sess semId).2.1.2.2) ++
        (combinedStage g st code L T P dept sess semId).2.2.1.2.2) := by
  simp only [combinedStage]
  apply applyExistingCombined_inv
  · exact tut_label_ne_free _
  · apply applyExistingCombined_inv
    · exact lec_label_ne_free _ hcode
    · apply applyExistingCombined_inv
      · exact lab_label_ne_free _
      · exact hInv

theorem freshStage_mono (g : Grid) (st : GenState) (course : CourseIn) (code : String)
    (ef : Bool) (lr er tr : Nat) (avoid : List String) (dept sess : String)
    (semId : Nat) (h : st.replayClobbered = true) :
    (freshStage g st course code ef lr er tr avoid dept sess
      semId).2.2.2.2.replayClobbered = true := by
  simp only [freshStage]
  split_ifs <;>
    (try simp only [scheduleLabs_rc, scheduleLectures_rc, scheduleTutorials_rc]) <;>
    first
      | exact h
      | (apply scheduleElectiveClasses_mono
         first
           | exact h
           | (simp only [scheduleLabs_rc]
              exact h))

theorem freshStage_inv (g : Grid) (st : GenState) (course : CourseIn) (code : String)
    (ef : Bool) (lr er tr : Nat) (avoid : List String) (dept sess : String)
    (semId : Nat) (C : List Commit) (hcode : code ≠ "Free") (hInv : Inv g C)
    (hrc : (freshStage g st course code ef lr er tr avoid dept sess
      semId).2.2.2.2.replayClobbered = false) :
    Inv (freshStage g st course code ef lr er tr avoid dept sess semId).2.2.2.1
      (((C ++ (freshStage g st course code ef lr er tr avoid dept sess semId).1.2) ++
          (freshStage g st course code ef lr er tr avoid dept sess semId).2.1.2) ++
        (freshStage g st course code ef lr er tr avoid dept sess semId).2.2.1.2) := by
  simp only [freshStage] at hrc ⊢
  split_ifs at hrc ⊢ <;>
    (try simp only [scheduleLabs_rc, scheduleLectures_rc, scheduleTutorials_rc] at hrc) <;>
    (try simp only [List.append_nil]) <;>
    repeat'
      first
        | exact hInv
        | exact hrc
        | exact hcode
        | apply scheduleTutorials_inv
        | apply scheduleElectiveClasses_inv
        | apply scheduleLectures_inv
        | apply scheduleLabs_inv

theorem scheduleCourse_mono (g : Grid) (st : GenState) (course : CourseIn)
    (dept sess : String) (semId : Nat) (h : st.replayClobbered = true) :
    (scheduleCourse g st course dept sess semId).2.2.2.replayClobbered = true := by
  simp only [scheduleCourse]
  split_ifs <;>
    (apply freshStage_mono
     rw [combinedStage_rc]
     exact h)

theorem scheduleCourse_inv (g : Grid) (st : GenState) (course : CourseIn)
    (dept sess : String) (semId : Nat) (C : List Commit)
    (hcode : course.code ≠ "Free") (hInv : Inv g C)
    (hrc : (scheduleCourse g st course dept sess semId).2.2.2.replayClobbered = false) :
    Inv (scheduleCourse g st course dept sess semId).2.2.1
      (C ++ (scheduleCourse g st course dept sess semId).2.1) := by
  simp only [scheduleCourse] at hrc ⊢
  split_ifs at hrc ⊢ <;>
    (simp only [← List.append_assoc]
     refine freshStage_inv _ _ _ _ _ _ _ _ _ _ _ _ _ hcode ?_ hrc
     exact combinedStage_inv _ _ _ _ _ _ _ _ _ C hcode hInv)

/-! ### Pass- and run-level lemmas -/

theorem inv_initial : Inv initialSchedule ([] : List Commit) :=
  ⟨by simp, List.Pairwise.nil⟩

theorem coursesFold_mono (dept sess : String) (semId : Nat) :
    ∀ (courses : List CourseIn) (start : List Commit × Grid × GenState),
    start.2.2.replayClobbered = true →
    ((courses.foldl
      (fun out course =>
        if course.code == "" || course.code == "nan" then out
        else
          let so := scheduleCourse out.2.1 out.2.2 course dept sess semId
          (out.1 ++ so.2.1, so.2.2.1, so.2.2.2))
      start).2.2.replayClobbered) = true := by
  intro courses
  induction courses with
  | nil =>
      intro start h
      exact h
  | cons c rest ih =>
      intro start h
      rw [List.foldl_cons]
      apply ih
      by_cases hcc : (c.code == "" || c.code == "nan") = true
      · simpa [hcc] using h
      · simp only [if_neg hcc]
        exact scheduleCourse_mono start.2.1 start.2.2 c dept sess semId h

theorem coursesFold_inv (dept sess : String) (semId : Nat) :
    ∀ (courses : List CourseIn) (start : List Commit × Grid × GenState),
    (∀ c ∈ courses, c.code ≠ "Free") →
    Inv start.2.1 start.1 →
    ((courses.foldl
      (fun out course =>
        if course.code == "" || course.code == "nan" then out
        else
          let so := scheduleCourse out.2.1 out.2.2 course dept sess semId
          (out.1 ++ so.2.1, so.2.2.1, so.2.2.2))
      start).2.2.replayClobbered) = false →
    Inv ((courses.foldl
      (fun out course =>
        if course.code == "" || course.code == "nan" then out
        else
          let so := scheduleCourse out.2.1 out.2.2 course dept sess semId
          (out.1 ++ so.2.1, so.2.2.1, so.2.2.2))
      start).2.1)
      ((courses.foldl
        (fun out course =>
          if course.code == "" || course.code == "nan" then out
          else
            let so := scheduleCourse out.2.1 out.2.2 course dept sess semId
            (out.1 ++ so.2.1, so.2.2.1, so.2.2.2))
        start).1) := by
  intro courses
  induction courses with
  | nil =>
      intro start _ hInv _
      exact hInv
  | cons c rest ih =>
      intro start hcodes hInv hrc
      rw [List.foldl_cons] at hrc ⊢
      by_cases hcc : (c.code == "" || c.code == "nan") = true
      · rw [if_pos hcc] at hrc ⊢
        exact ih start (fun c' hc' => hcodes c' (List.mem_cons_of_mem c hc')) hInv hrc
      · rw [if_neg hcc] at hrc ⊢
        refine ih _ (fun c' hc' => hcodes c' (List.mem_cons_of_mem c hc')) ?_ hrc
        refine scheduleCourse_inv start.2.1 start.2.2 c dept sess semId start.1
          (hcodes c (List.mem_cons_self c rest)) hInv ?_
        rcases Bool.eq_false_or_eq_true
          ((scheduleCourse start.2.1 start.2.2 c dept sess semId).2.2.2.replayClobbered)
          with hmid | hmid
        · exfalso
          have hT := coursesFold_mono dept sess semId rest
            (start.1 ++ (scheduleCourse start.2.1 start.2.2 c dept sess semId).2.1,
             (scheduleCourse start.2.1 start.2.2 c dept sess semId).2.2.1,
             (scheduleCourse start.2.1 start.2.2 c dept sess semId).2.2.2) hmid
          rw [hT] at hrc
          exact Bool.noConfusion hrc
        · exact hmid

theorem runPass_mono (semId : Nat) (st : GenState) (p : PassIn)
    (h : st.replayClobbered = true) :
    (runPass semId st p).2.replayClobbered = true := by
  simp only [runPass]
  split_ifs with h0 <;>
    (apply coursesFold_mono
     exact scheduleMinorClasses_mono _ _ _ _ _ _ h)

theorem runPass_disjoint (semId : Nat) (st : GenState) (p : PassIn)
    (hcodes : ∀ c ∈ p.courses, c.code ≠ "Free")
    (hrc : (runPass semId st p).2.replayClobbered = false) :
    pairwiseDisjointCommits (runPass semId st p).1.commits = true := by
  simp only [runPass] at hrc ⊢
  generalize (if (List.lookup (semKeyOf semId) st.semesterGlobalSlots).isNone = true then
      { st with semesterGlobalSlots := setA st.semesterGlobalSlots (semKeyOf semId) [] }
    else st) = st1 at hrc ⊢
  have hmrc : (scheduleMinorClasses initialSchedule st1 p.department p.session semId
      p.minorOracle).2.1.replayClobbered = false := by
    rcases Bool.eq_false_or_eq_true ((scheduleMinorClasses initialSchedule st1
        p.department p.session semId p.minorOracle).2.1.replayClobbered) with hT | hF
    · exfalso
      have hm := coursesFold_mono p.department p.session semId p.courses
        ((scheduleMinorClasses initialSchedule st1 p.department p.session semId
            p.minorOracle).2.2,
         (scheduleMinorClasses initialSchedule st1 p.department p.session semId
            p.minorOracle).1,
         (scheduleMinorClasses initialSchedule st1 p.department p.session semId
            p.minorOracle).2.1) hT
      rw [hm] at hrc
      exact Bool.noConfusion hrc
    · exact hF
  have hmInv : Inv (scheduleMinorClasses initialSchedule st1 p.department p.session
      semId p.minorOracle).1
      (scheduleMinorClasses initialSchedule st1 p.department p.session semId
        p.minorOracle).2.2 := by
    simpa using scheduleMinorClasses_inv initialSchedule st1 p.department p.session
      semId p.minorOracle [] inv_initial hmrc
  have hfold := coursesFold_inv p.department p.session semId p.courses
    ((scheduleMinorClasses initialSchedule st1 p.department p.session semId
        p.minorOracle).2.2,
     (scheduleMinorClasses initialSchedule st1 p.department p.session semId
        p.minorOracle).1,
     (scheduleMinorClasses initialSchedule st1 p.department p.session semId
        p.minorOracle).2.1) hcodes hmInv hrc
  exact (pairwiseDisjointCommits_iff _).mpr hfold.2

theorem runFold_mono (semId : Nat) :
    ∀ (passes : List PassIn) (acc : List PassOut) (st : GenState),
    st.replayClobbered = true →
    ((passes.foldl (fun out p =>
        let r := runPass semId out.2 p
        (out.1 ++ [r.1], r.2)) (acc, st)).2.replayClobbered) = true := by
  intro passes
  induction passes with
  | nil =>
      intro acc st h
      exact h
  | cons p rest ih =>
      intro acc st h
      rw [List.foldl_cons]
      exact ih _ _ (runPass_mono semId st p h)

theorem runFold_disjoint (semId : Nat) :
    ∀ (passes : List PassIn) (acc : List PassOut) (st : GenState),
    (∀ p ∈ passes, ∀ c ∈ p.courses, c.code ≠ "Free") →
    ((passes.foldl (fun out p =>
        let r := runPass semId out.2 p
        (out.1 ++ [r.1], r.2)) (acc, st)).2.replayClobbered) = false →
    ∀ po ∈ (passes.foldl (fun out p =>
        let r := runPass semId out.2 p
        (out.1 ++ [r.1], r.2)) (acc, st)).1,
      po ∈ acc ∨ pairwiseDisjointCommits po.commits = true := by
  intro passes
  induction passes with
  | nil =>
      intro acc st _ _ po hpo
      exact Or.inl hpo
  | cons p rest ih =>
      intro acc st hc hrc po hpo
      rw [List.foldl_cons] at hrc hpo
      simp only [] at hrc hpo
      have hprc : (runPass semId st p).2.replayClobbered = false := by
        rcases Bool.eq_false_or_eq_true ((runPass semId st p).2.replayClobbered)
          with hT | hF
        · exfalso
          have hm := runFold_mono semId rest (acc ++ [(runPass semId st p).1])
            (runPass semId st p).2 hT
          rw [hm] at hrc
          exact Bool.noConfusion hrc
        · exact hF
      rcases ih (acc ++ [(runPass semId st p).1]) (runPass semId st p).2
          (fun p' hp' => hc p' (List.mem_cons_of_mem p hp')) hrc po hpo with hin | hpd
      · rcases List.mem_append.mp hin with hA | hB
        · exact Or.inl hA
        · rw [List.mem_singleton.mp hB]
          exact Or.inr (runPass_disjoint semId st p (hc p (List.mem_cons_self p rest))
            hprc)
      · exact Or.inr hpd

set_option maxRecDepth 8000 in
set_option maxHeartbeats 2000000 in
/-- C1 (counterexample): the claim "for every full generation run, the committed
placements of one (semester, department, session) are pairwise cell-disjoint" is
false.  In a run where DSAI/Pre-Mid first records the common elective pairs, the
subsequent ECE/Pre-Mid pass schedules a plain lecture over MON 08:30-10:00 and then
the elective registry replay re-commits the same MON 08:30-10:00 cells on the same
grid without any availability check, so two ECE/Pre-Mid placements overlap. -/
theorem C1_counterexample :
    ¬ (∀ po ∈ (runInterp 1
        [⟨"DSAI", "Pre-Mid", fun a => (a, 0),
          [⟨"ELEC1", "Elective One", "YES", 1, 0, 0, fun _ => 0, fun _ => 0,
            fun _ => 0⟩]⟩,
         ⟨"ECE", "Pre-Mid", fun a => (a, 0),
          [⟨"CS201", "Circuits", "NO", 1, 0, 0, fun _ => 0, fun _ => 0, fun _ => 0⟩,
           ⟨"ELEC2", "Elective Two", "YES", 1, 0, 0, fun _ => 0, fun _ => 0,
            fun _ => 0⟩]⟩]).1,
      pairwiseDisjointCommits po.commits = true) := by
  decide

/-- C1 (amended): in every full generation run in which no course is literally named
`"Free"` and no elective/minor registry replay ever overwrote an occupied cell (the
run's ghost overwrite monitor is clean), the committed placements of each
(semester, department, session) pass are pairwise cell-disjoint. -/
theorem C1_amended (semId : Nat) (passes : List PassIn)
    (hcodes : ∀ p ∈ passes, ∀ c ∈ p.courses, c.code ≠ "Free")
    (hrc : (runInterp semId passes).2.replayClobbered = false) :
    ∀ po ∈ (runInterp semId passes).1, pairwiseDisjointCommits po.commits = true := by
  intro po hpo
  rcases runFold_disjoint semId passes [] initialGenState hcodes
      (by simpa [runInterp] using hrc) po (by simpa [runInterp] using hpo)
    with h | h
  · cases h
  · exact h

set_option maxRecDepth 8000 in
/-- Witness for C1 (amended) at a concrete clean run. -/
theorem C1_amended_witness :
    ((runInterp 1
        [⟨"DSAI", "Pre-Mid", fun a => (a, 0),
          [⟨"CS101", "Intro to CS", "NO", 0, 0, 0, fun _ => 0, fun _ => 0,
            fun _ => 0⟩]⟩]).2.replayClobbered = false) ∧
    (∀ po ∈ (runInterp 1
        [⟨"DSAI", "Pre-Mid", fun a => (a, 0),
          [⟨"CS101", "Intro to CS", "NO", 0, 0, 0, fun _ => 0, fun _ => 0,
            fun _ => 0⟩]⟩]).1,
      pairwiseDisjointCommits po.commits = true) :=
  ⟨by decide,
   C1_amended 1
     [⟨"DSAI", "Pre-Mid", fun a => (a, 0),
       [⟨"CS101", "Intro to CS", "NO", 0, 0, 0, fun _ => 0, fun _ => 0, fun _ => 0⟩]⟩]
     (by decide) (by decide)⟩

/-! ### Exact replay characterisation (no avoided days) -/

theorem electiveReplayAux_parts (code dept sess : String) (semId : Nat) :
    ∀ (assigned : List SlotPair) (acc : List Cell) (commits : List Commit) (g : Grid)
      (st : GenState),
    (electiveReplayAux [] code dept sess semId assigned acc commits g st).1 =
      acc ++ assigned.flatMap (fun pr =>
        (getConsecutiveSlots pr.2 LECTURE_DURATION).map (fun s => (pr.1, s))) ∧
    (electiveReplayAux [] code dept sess semId assigned acc commits g st).2.1 =
      commits ++ assigned.map (fun pr =>
        (⟨code, "Lecture", pr.1, getConsecutiveSlots pr.2 LECTURE_DURATION⟩ : Commit)) ∧
    (electiveReplayAux [] code dept sess semId assigned acc commits g
        st).2.2.2.semesterElectiveSlots = st.semesterElectiveSlots := by
  intro assigned
  induction assigned with
  | nil =>
      intro acc commits g st
      simp [electiveReplayAux]
  | cons p rest ih =>
      rcases p with ⟨day, start⟩
      intro acc commits g st
      simp only [electiveReplayAux]
      rw [if_neg (by simp)]
      obtain ⟨h1, h2, h3⟩ := ih
        (acc ++ (getConsecutiveSlots start LECTURE_DURATION).map (fun s => (day, s)))
        (commits ++ [⟨code, "Lecture", day, getConsecutiveSlots start LECTURE_DURATION⟩])
        ((getConsecutiveSlots start LECTURE_DURATION).foldl
          (fun gr s => markSlotsBusyLocal gr day [s] code "Lecture") g)
        ((getConsecutiveSlots start LECTURE_DURATION).foldl
          (fun t s => markGlobalSt t day [s] dept sess semId)
          { st with replayClobbered := st.replayClobbered ||
              !(isTimeSlotAvailableLocal g day
                (getConsecutiveSlots start LECTURE_DURATION)) })
      refine ⟨?_, ?_, ?_⟩
      · rw [h1]
        simp [List.flatMap_cons]
      · rw [h2]
        simp [List.map_cons]
      · rw [h3]
        exact ((markGlobalFold_nonGlobal (getConsecutiveSlots start LECTURE_DURATION)
          day dept sess semId _).2.1)

theorem minorReplayAux_parts (dept sess : String) (semId : Nat) :
    ∀ (assigned : List SlotPair) (g : Grid) (st : GenState) (commits : List Commit),
    (minorReplayAux dept sess semId assigned g st commits).2.2 =
      commits ++ assigned.map (fun pr =>
        (⟨MINOR_SUBJECT, "Minor", pr.1, getConsecutiveSlots pr.2 MINOR_DURATION⟩ :
          Commit)) ∧
    (minorReplayAux dept sess semId assigned g st
        commits).2.1.semesterMinorSlots = st.semesterMinorSlots := by
  intro assigned
  induction assigned with
  | nil =>
      intro g st commits
      simp [minorReplayAux]
  | cons p rest ih =>
      rcases p with ⟨day, start⟩
      intro g st commits
      simp only [minorReplayAux]
      obtain ⟨h1, h2⟩ := ih
        (markSlotsBusyLocal g day (getConsecutiveSlots start MINOR_DURATION)
          MINOR_SUBJECT "Minor")
        (markGlobalSt
          { st with replayClobbered := st.replayClobbered ||
              !(isTimeSlotAvailableLocal g day
                (getConsecutiveSlots start MINOR_DURATION)) }
          day (getConsecutiveSlots start MINOR_DURATION) dept sess semId)
        (commits ++ [⟨MINOR_SUBJECT, "Minor", day,
          getConsecutiveSlots start MINOR_DURATION⟩])
      refine ⟨?_, ?_⟩
      · rw [h1]
        simp [List.map_cons]
      · rw [h2]
        rfl

/-- C6 (counterexample): the replay does NOT re-validate freedom before committing.
With the semester-3 common elective pairs already recorded as MON 08:30, and a grid
whose MON 08:30–10:00 cells are already occupied by `CS201`, the elective scheduling
for a later department still returns a commit for those exact cells and overwrites the
grid, even though the local availability check on them is false. -/
theorem C6_counterexample :
    (isTimeSlotAvailableLocal
        (markSlotsBusyLocal initialSchedule "MON"
          ["08:30-09:00", "09:00-09:30", "09:30-10:00"] "CS201" "Lecture")
        "MON" (getConsecutiveSlots "08:30-09:00" LECTURE_DURATION) = false) ∧
    ((scheduleElectiveClasses
        (markSlotsBusyLocal initialSchedule "MON"
          ["08:30-09:00", "09:00-09:30", "09:30-10:00"] "CS201" "Lecture")
        { initialGenState with semesterElectiveSlots :=
            [((semKeyOf 3, "ALL_ELECTIVES"), [("MON", "08:30-09:00")])] }
        "ELEC2" 1 "DSAI" "Pre-Mid" 3 [] (fun _ => 0)).2.1 =
      [⟨"ELEC2", "Lecture", "MON", ["08:30-09:00", "09:00-09:30", "09:30-10:00"]⟩]) ∧
    ((scheduleElectiveClasses
        (markSlotsBusyLocal initialSchedule "MON"
          ["08:30-09:00", "09:00-09:30", "09:30-10:00"] "CS201" "Lecture")
        { initialGenState with semesterElectiveSlots :=
            [((semKeyOf 3, "ALL_ELECTIVES"), [("MON", "08:30-09:00")])] }
        "ELEC2" 1 "DSAI" "Pre-Mid" 3 [] (fun _ => 0)).2.2.1 "MON" "08:30-09:00"
      = "ELEC2") := by
  refine ⟨by decide, by decide, by decide⟩

/-- C6 (amended): once a semester's common elective pairs (resp. minor pairs) are in
the shared registry, every later department/session with a positive requirement
replays exactly those (day, start) pairs — the returned commits are precisely the
stored pairs expanded to their consecutive slots, and the registry entry is unchanged
— but the commitment is unconditional: no local or global freedom re-validation
appears as a hypothesis because none is performed. -/
theorem C6_amended :
    (∀ (g : Grid) (st : GenState) (code : String) (n : Nat) (dept sess : String)
        (semId : Nat) (oracle : Nat → Nat) (ps : List SlotPair),
      (n == 0) = false →
      List.lookup (semKeyOf semId, "ALL_ELECTIVES") st.semesterElectiveSlots
        = some ps →
      (scheduleElectiveClasses g st code n dept sess semId [] oracle).2.1 =
        ps.map (fun pr =>
          (⟨code, "Lecture", pr.1, getConsecutiveSlots pr.2 LECTURE_DURATION⟩ :
            Commit)) ∧
      List.lookup (semKeyOf semId, "ALL_ELECTIVES")
        (scheduleElectiveClasses g st code n dept sess semId []
          oracle).2.2.2.semesterElectiveSlots = some ps) ∧
    (∀ (g : Grid) (st : GenState) (dept sess : String) (semId : Nat)
        (oracle : Nat → Nat × Nat) (ps : List SlotPair),
      (semId == 1) = false →
      List.lookup (semKeyOf semId) st.semesterMinorSlots = some ps →
      (scheduleMinorClasses g st dept sess semId oracle).2.2 =
        ps.map (fun pr =>
          (⟨MINOR_SUBJECT, "Minor", pr.1, getConsecutiveSlots pr.2 MINOR_DURATION⟩ :
            Commit))) := by
  constructor
  · intro g st code n dept sess semId oracle ps hn hps
    unfold scheduleElectiveClasses
    rw [if_neg (by simp [hn])]
    simp only [hps]
    obtain ⟨h1, h2, h3⟩ := electiveReplayAux_parts code dept sess semId ps [] [] g st
    constructor
    · exact h2.trans (by simp)
    · rw [show (electiveReplay ps [] code dept sess semId g
          st).2.2.2.semesterElectiveSlots = st.semesterElectiveSlots from h3]
      by_cases hk : ((semKeyOf semId, "ALL_ELECTIVES") : String × String)
          = (semKeyOf semId, code)
      · rw [hk, lookup_setA_self]
      · rw [lookup_setA_other _ _ _ _ hk]
        exact hps
  · intro g st dept sess semId oracle ps h1 hps
    unfold scheduleMinorClasses
    rw [if_neg (by simp [h1]), if_neg (by decide)]
    simp only [hps]
    obtain ⟨h2, _⟩ := minorReplayAux_parts dept sess semId ps g st []
    exact h2.trans (by simp)

/-- Witness for C6 (amended): a concrete registry replay for both components. -/
theorem C6_amended_witness :
    ((scheduleElectiveClasses initialSchedule
        { initialGenState with semesterElectiveSlots :=
            [((semKeyOf 3, "ALL_ELECTIVES"), [("MON", "08:30-09:00")])] }
        "ELEC9" 1 "DSAI" "Pre-Mid" 3 [] (fun _ => 0)).2.1 =
      [⟨"ELEC9", "Lecture", "MON", ["08:30-09:00", "09:00-09:30", "09:30-10:00"]⟩]) ∧
    ((scheduleMinorClasses initialSchedule
        { initialGenState with semesterMinorSlots :=
            [(semKeyOf 3, [("TUE", "07:30-08:00")])] }
        "DSAI" "Pre-Mid" 3 (fun _ => (0, 0))).2.2 =
      [⟨"Minor", "Minor", "TUE", ["07:30-08:00", "08:00-08:30"]⟩]) := by
  constructor
  · have h := (C6_amended.1 initialSchedule
      { initialGenState with semesterElectiveSlots :=
          [((semKeyOf 3, "ALL_ELECTIVES"), [("MON", "08:30-09:00")])] }
      "ELEC9" 1 "DSAI" "Pre-Mid" 3 (fun _ => 0) [("MON", "08:30-09:00")]
      (by decide) (by decide)).1
    rw [h]
    decide
  · have h := C6_amended.2 initialSchedule
      { initialGenState with semesterMinorSlots :=
          [(semKeyOf 3, [("TUE", "07:30-08:00")])] }
      "DSAI" "Pre-Mid" 3 (fun _ => (0, 0)) [("TUE", "07:30-08:00")]
      (by decide) (by decide)
    rw [h]
    decide

/-! ### The common elective placement (C4) -/

/-- The lecture cells a pass committed for a given course code. -/
def lectureCellsOf (po : PassOut) (code : String) : List Cell :=
  (po.commits.filter (fun c => c.code == code && c.ctype == "Lecture")).flatMap
    Commit.cells

/-- The cells covered by a semester's common elective placement. -/
def commonElectiveCells (st : GenState) (semId : Nat) : List Cell :=
  ((List.lookup (semKeyOf semId, "ALL_ELECTIVES") st.semesterElectiveSlots).getD
    []).flatMap (fun pr =>
      (getConsecutiveSlots pr.2 LECTURE_DURATION).map (fun s => (pr.1, s)))

theorem combosFor_lecture_slots :
    ∀ cb ∈ combosFor LECTURE_DURATION,
      cb.2.2 = getConsecutiveSlots cb.2.1 LECTURE_DURATION := by
  decide

theorem pos_length_of_not_isEmpty {α : Type} (l : List α) (h : ¬ l.isEmpty = true) :
    0 < l.length := by
  cases l with
  | nil => exact absurd rfl h
  | cons a t => simp

theorem electiveFreshAux_parts (dept sess : String) (semId : Nat) (code : String)
    (need : Nat) (oracle : Nat → Nat) :
    ∀ fuel attempt combos used avoid scheduled assigned g st acc commits,
    (∀ cb ∈ combos, cb.2.2 = getConsecutiveSlots cb.2.1 LECTURE_DURATION) →
    acc = assigned.flatMap (fun pr =>
      (getConsecutiveSlots pr.2 LECTURE_DURATION).map (fun s => (pr.1, s))) →
    (electiveFreshAux dept sess semId code need oracle fuel attempt combos used avoid
        scheduled assigned g st acc commits).1 =
      (electiveFreshAux dept sess semId code need oracle fuel attempt combos used avoid
        scheduled assigned g st acc commits).2.2.1.flatMap (fun pr =>
          (getConsecutiveSlots pr.2 LECTURE_DURATION).map (fun s => (pr.1, s))) := by
  intro fuel
  induction fuel with
  | zero =>
      intro attempt combos used avoid scheduled assigned g st acc commits _ hacc
      exact hacc
  | succ n ih =>
      intro attempt combos used avoid scheduled assigned g st acc commits hcb hacc
      simp only [electiveFreshAux]
      split_ifs with h1 h2 h3 h4 h5
      · exact hacc
      · apply ih
        · intro cb hcbm
          exact hcb cb (List.mem_of_mem_filter hcbm)
        · have hmem : combos.getD (oracle attempt % combos.length) ("", "", []) ∈
              combos :=
            getD_mem_of_lt _ _ _
              (Nat.mod_lt _ (pos_length_of_not_isEmpty combos h3))
          rw [hacc, hcb _ hmem]
          simp [List.flatMap_append]
      · exact ih _ _ _ _ _ _ _ _ _ _ (fun cb hcbm => hcb cb hcbm) hacc
      · apply ih
        · intro cb hcbm
          exact hcb cb (List.mem_of_mem_filter hcbm)
        · have hmem0 : (combos.filter (fun c =>
              !(used.contains c.1) && !(avoid.contains c.1))).getD
              (oracle attempt % (combos.filter (fun c =>
                !(used.contains c.1) && !(avoid.contains c.1))).length) ("", "", []) ∈
              combos.filter (fun c =>
                !(used.contains c.1) && !(avoid.contains c.1)) :=
            getD_mem_of_lt _ _ _
              (Nat.mod_lt _ (pos_length_of_not_isEmpty _ h2))
          rw [hacc, hcb _ (List.mem_of_mem_filter hmem0)]
          simp [List.flatMap_append]
      · exact ih _ _ _ _ _ _ _ _ _ _ (fun cb hcbm => hcb cb hcbm) hacc
      · exact hacc

set_option maxRecDepth 8000 in
set_option maxHeartbeats 1000000 in
/-- C4 (counterexample): the claim "every elective course scheduled for any
department/session of a semester with an assigned common elective slot set receives
lecture placements equal to that common placement" is false: an elective whose parsed
weekly lecture requirement is 0 is scheduled (here it still gets a tutorial) but
receives no lecture placements at all, while the common placement is non-empty. -/
theorem C4_counterexample :
    ¬ (∀ po ∈ (runInterp 1
        [⟨"DSAI", "Pre-Mid", fun a => (a, 0),
          [⟨"ELEC1", "Elective One", "YES", 1, 0, 0, fun _ => 0, fun _ => 0,
            fun _ => 0⟩]⟩,
         ⟨"ECE", "Pre-Mid", fun a => (a, 0),
          [⟨"ELEC2", "Elective Two", "YES", 0, 1, 0, fun _ => 0, fun _ => 0,
            fun _ => 0⟩]⟩]).1,
      ∀ c ∈ po.courses, electiveFlagOf c = true →
        lectureCellsOf po c.code =
          commonElectiveCells (runInterp 1
            [⟨"DSAI", "Pre-Mid", fun a => (a, 0),
              [⟨"ELEC1", "Elective One", "YES", 1, 0, 0, fun _ => 0, fun _ => 0,
                fun _ => 0⟩]⟩,
             ⟨"ECE", "Pre-Mid", fun a => (a, 0),
              [⟨"ELEC2", "Elective Two", "YES", 0, 1, 0, fun _ => 0, fun _ => 0,
                fun _ => 0⟩]⟩]).2 1) := by
  decide

/-- C4 (amended): every elective-scheduling call with a POSITIVE weekly requirement
and no avoided days returns exactly the cells of the final common elective placement
of its semester, and the common registry entry, once present, is never changed by such
a call; hence all positive-requirement electives of one semester, across all
departments and sessions, share one placement. -/
theorem C4_amended (g : Grid) (st : GenState) (code : String) (n : Nat)
    (dept sess : String) (semId : Nat) (oracle : Nat → Nat)
    (hn : (n == 0) = false) :
    (scheduleElectiveClasses g st code n dept sess semId [] oracle).1 =
      commonElectiveCells
        (scheduleElectiveClasses g st code n dept sess semId [] oracle).2.2.2 semId ∧
    (∀ ps, List.lookup (semKeyOf semId, "ALL_ELECTIVES") st.semesterElectiveSlots
        = some ps →
      List.lookup (semKeyOf semId, "ALL_ELECTIVES")
        (scheduleElectiveClasses g st code n dept sess semId []
          oracle).2.2.2.semesterElectiveSlots = some ps) := by
  unfold scheduleElectiveClasses
  rw [if_neg (by simp [hn])]
  rcases hc : List.lookup (semKeyOf semId, "ALL_ELECTIVES") st.semesterElectiveSlots
    with _ | assigned
  · rcases he : List.lookup (semKeyOf semId, code) st.semesterElectiveSlots
      with _ | assigned2
    · simp only [hc, he]
      constructor
      · have hparts := electiveFreshAux_parts dept sess semId code n oracle 1000 0
          (combosFor LECTURE_DURATION) [] [] 0 [] g st [] []
          combosFor_lecture_slots rfl
        have hes : (electiveFreshAux dept sess semId code n oracle 1000 0
            (combosFor LECTURE_DURATION) [] [] 0 [] g st []
            []).2.2.2.2.semesterElectiveSlots = st.semesterElectiveSlots :=
          (electiveFreshAux_nonGlobal dept sess semId code n oracle 1000 0
            (combosFor LECTURE_DURATION) [] [] 0 [] g st [] []).2.1
        split_ifs with hemp
        · rw [hparts]
          unfold commonElectiveCells
          rw [hes, hc]
          have : (electiveFreshAux dept sess semId code n oracle 1000 0
              (combosFor LECTURE_DURATION) [] [] 0 [] g st [] []).2.2.1 = [] := by
            simpa using hemp
          rw [this]
          rfl
        · rw [hparts]
          unfold commonElectiveCells
          by_cases hk : ((semKeyOf semId, "ALL_ELECTIVES") : String × String)
              = (semKeyOf semId, code)
          · rw [hk, lookup_setA_self]
            rfl
          · rw [lookup_setA_other _ _ _ _ hk, lookup_setA_self]
            rfl
      · intro ps hps
        exact absurd hps (by simp)
    · simp only [hc, he]
      obtain ⟨h1, h2, h3⟩ := electiveReplayAux_parts code dept sess semId assigned2
        [] [] g
        { st with semesterElectiveSlots := setA st.semesterElectiveSlots (semKeyOf semId, "ALL_ELECTIVES") assigned2 }
      constructor
      · rw [show (electiveReplay assigned2 [] code dept sess semId g { st with semesterElectiveSlots := setA st.semesterElectiveSlots (semKeyOf semId, "ALL_ELECTIVES") assigned2 }).1 = _ from h1]
        unfold commonElectiveCells
        rw [show (electiveReplay assigned2 [] code dept sess semId g { st with semesterElectiveSlots := setA st.semesterElectiveSlots (semKeyOf semId, "ALL_ELECTIVES") assigned2 }).2.2.2.semesterElectiveSlots = _ from h3]
        rw [show ({ st with semesterElectiveSlots := setA st.semesterElectiveSlots (semKeyOf semId, "ALL_ELECTIVES") assigned2 } : GenState).semesterElectiveSlots = setA st.semesterElectiveSlots (semKeyOf semId, "ALL_ELECTIVES") assigned2 from rfl]
        rw [lookup_setA_self]
        simp
      · intro ps hps
        exact absurd hps (by simp)
  · simp only [hc]
    obtain ⟨h1, h2, h3⟩ := electiveReplayAux_parts code dept sess semId assigned
      [] [] g st
    constructor
    · rw [show (electiveReplay assigned [] code dept sess semId g st).1 = _ from h1]
      unfold commonElectiveCells
      rw [show (electiveReplay assigned [] code dept sess semId g
          st).2.2.2.semesterElectiveSlots = st.semesterElectiveSlots from h3]
      by_cases hk : ((semKeyOf semId, "ALL_ELECTIVES") : String × String)
          = (semKeyOf semId, code)
      · rw [hk, lookup_setA_self]
        simp
      · rw [lookup_setA_other _ _ _ _ hk, hc]
        simp
    · intro ps hps
      have hpa : assigned = ps := Option.some.inj hps
      rw [show (electiveReplay assigned [] code dept sess semId g
          st).2.2.2.semesterElectiveSlots = st.semesterElectiveSlots from h3]
      by_cases hk : ((semKeyOf semId, "ALL_ELECTIVES") : String × String)
          = (semKeyOf semId, code)
      · rw [hk, lookup_setA_self, hpa]
      · rw [lookup_setA_other _ _ _ _ hk, hc, hpa]

/-- Witness for C4 (amended) at a concrete replay. -/
theorem C4_amended_witness :
    ((scheduleElectiveClasses initialSchedule
        { initialGenState with semesterElectiveSlots :=
            [((semKeyOf 2, "ALL_ELECTIVES"), [("TUE", "10:00-10:30")])] }
        "ELEC7" 2 "ECE" "Post-Mid" 2 [] (fun _ => 0)).1 =
      commonElectiveCells
        (scheduleElectiveClasses initialSchedule
          { initialGenState with semesterElectiveSlots :=
              [((semKeyOf 2, "ALL_ELECTIVES"), [("TUE", "10:00-10:30")])] }
          "ELEC7" 2 "ECE" "Post-Mid" 2 [] (fun _ => 0)).2.2.2 2) ∧
    (List.lookup (semKeyOf 2, "ALL_ELECTIVES")
        (scheduleElectiveClasses initialSchedule
          { initialGenState with semesterElectiveSlots :=
              [((semKeyOf 2, "ALL_ELECTIVES"), [("TUE", "10:00-10:30")])] }
          "ELEC7" 2 "ECE" "Post-Mid" 2 [] (fun _ => 0)).2.2.2.semesterElectiveSlots
      = some [("TUE", "10:00-10:30")]) :=
  ⟨(C4_amended initialSchedule
      { initialGenState with semesterElectiveSlots :=
          [((semKeyOf 2, "ALL_ELECTIVES"), [("TUE", "10:00-10:30")])] }
      "ELEC7" 2 "ECE" "Post-Mid" 2 (fun _ => 0) (by decide)).1,
   (C4_amended initialSchedule
      { initialGenState with semesterElectiveSlots :=
          [((semKeyOf 2, "ALL_ELECTIVES"), [("TUE", "10:00-10:30")])] }
      "ELEC7" 2 "ECE" "Post-Mid" 2 (fun _ => 0) (by decide)).2
     [("TUE", "10:00-10:30")] (by decide)⟩

/-! ### Allocation-count bounds (C3) -/

theorem applyCombinedLoop_le (code comp : String) (dur req : Nat)
    (dept sess : String) (semId : Nat) :
    ∀ pairs applied accSlots commits g st,
    applied < req →
    (applyCombinedLoop code comp dur req dept sess semId pairs applied accSlots
      commits g st).1 ≤ req := by
  intro pairs
  induction pairs with
  | nil =>
      intro applied accSlots commits g st h
      exact Nat.le_of_lt h
  | cons p rest ih =>
      rcases p with ⟨day, start⟩
      intro applied accSlots commits g st h
      simp only [applyCombinedLoop]
      split_ifs with h1 h2
      · exact h
      · exact ih _ _ _ _ _ (Nat.lt_of_not_le (by simpa using h2))
      · exact ih _ _ _ _ _ h

theorem applyExistingCombined_le (g : Grid) (st : GenState) (code comp : String)
    (dur req : Nat) (dept sess : String) (semId : Nat) :
    (applyExistingCombined g st code comp dur req dept sess semId).1 ≤ req := by
  unfold applyExistingCombined
  split_ifs with h
  · exact Nat.zero_le req
  · exact applyCombinedLoop_le code comp dur req dept sess semId _ _ _ _ _ _
      (Nat.pos_of_ne_zero (by simpa using h))

theorem labCombos_len : ∀ cb ∈ labCombos, cb.2.2.length = LAB_DURATION := by decide

theorem combosFor_lec_len :
    ∀ cb ∈ combosFor LECTURE_DURATION, cb.2.2.length = LECTURE_DURATION := by decide

theorem combosFor_tut_len :
    ∀ cb ∈ combosFor TUTORIAL_DURATION, cb.2.2.length = TUTORIAL_DURATION := by decide

theorem freshSearchAux_len (ct dept sess : String) (semId : Nat) (code : String)
    (target dur : Nat) (oracle : Nat → Nat) (hdur : 0 < dur) (hdvd : dur ∣ target) :
    ∀ fuel attempt combos used avoid g st acc commits,
    (∀ cb ∈ combos, cb.2.2.length = dur) →
    dur ∣ acc.length → acc.length ≤ target →
    (freshSearchAux ct dept sess semId code target oracle fuel attempt combos used
      avoid g st acc commits).1.length ≤ target := by
  intro fuel
  induction fuel with
  | zero =>
      intro attempt combos used avoid g st acc commits _ _ hle
      exact hle
  | succ n ih =>
      intro attempt combos used avoid g st acc commits hcb hdacc hle
      simp only [freshSearchAux]
      have hstep : ∀ (day : String) (slots : List String), slots.length = dur →
          acc.length < target →
          dur ∣ (acc ++ slots.map (fun s => (day, s))).length ∧
          (acc ++ slots.map (fun s => (day, s))).length ≤ target := by
        intro day slots hsl hlt
        obtain ⟨a, ha⟩ := hdacc
        obtain ⟨k, hk⟩ := hdvd
        have hak : a < k := by
          have : dur * a < dur * k := by rw [← ha, ← hk]; exact hlt
          exact Nat.lt_of_mul_lt_mul_left this
        have hlen : (acc ++ slots.map (fun s => (day, s))).length = dur * (a + 1) := by
          rw [List.length_append, List.length_map, ha, hsl, Nat.mul_succ]
        constructor
        · rw [hlen]; exact Dvd.intro (a + 1) rfl
        · rw [hlen, hk]
          exact Nat.mul_le_mul_left dur hak
      split_ifs with h1 h2 h3 h4 h5
      · exact hle
      · have hmem : combos.getD (oracle attempt % combos.length) ("", "", []) ∈
            combos :=
          getD_mem_of_lt _ _ _ (Nat.mod_lt _ (pos_length_of_not_isEmpty combos h3))
        obtain ⟨hd, hl⟩ := hstep _ _ (hcb _ hmem) h1
        exact ih _ _ _ _ _ _ _ _ (fun cb hm => hcb cb (List.mem_of_mem_filter hm)) hd hl
      · exact ih _ _ _ _ _ _ _ _ hcb hdacc hle
      · have hmem0 := getD_mem_of_lt (combos.filter (fun c =>
            !(used.contains c.1) && !(avoid.contains c.1)))
            (oracle attempt % (combos.filter (fun c =>
              !(used.contains c.1) && !(avoid.contains c.1))).length) ("", "", [])
            (Nat.mod_lt _ (pos_length_of_not_isEmpty _ h2))
        obtain ⟨hd, hl⟩ := hstep _ _ (hcb _ (List.mem_of_mem_filter hmem0)) h1
        exact ih _ _ _ _ _ _ _ _ (fun cb hm => hcb cb (List.mem_of_mem_filter hm)) hd hl
      · exact ih _ _ _ _ _ _ _ _ hcb hdacc hle
      · exact hle

theorem scheduleLabs_len (g : Grid) (st : GenState) (code : String) (P : Nat)
    (dept sess : String) (semId : Nat) (avoid : List String) (oracle : Nat → Nat) :
    (scheduleLabs g st code P dept sess semId avoid oracle).1.length ≤
      P * LAB_DURATION := by
  unfold scheduleLabs
  split_ifs with h
  · exact Nat.zero_le _
  · exact freshSearchAux_len "Lab" dept sess semId code (P * LAB_DURATION) LAB_DURATION
      oracle (by decide) ⟨P, Nat.mul_comm P LAB_DURATION⟩ 1000 0 labCombos [] avoid g st
      [] [] labCombos_len ⟨0, rfl⟩ (Nat.zero_le _)

theorem scheduleLectures_len (g : Grid) (st : GenState) (code : String) (L : Nat)
    (dept sess : String) (semId : Nat) (avoid : List String) (oracle : Nat → Nat) :
    (scheduleLectures g st code L dept sess semId avoid oracle).1.length ≤
      L * LECTURE_DURATION := by
  unfold scheduleLectures
  split_ifs with h
  · exact Nat.zero_le _
  · exact freshSearchAux_len "Lecture" dept sess semId code (L * LECTURE_DURATION)
      LECTURE_DURATION oracle (by decide) ⟨L, Nat.mul_comm L LECTURE_DURATION⟩ 2000 0
      (combosFor LECTURE_DURATION) [] avoid g st [] [] combosFor_lec_len ⟨0, rfl⟩
      (Nat.zero_le _)

theorem scheduleTutorials_len (g : Grid) (st : GenState) (code : String) (T : Nat)
    (dept sess : String) (semId : Nat) (avoid : List String) (oracle : Nat → Nat) :
    (scheduleTutorials g st code T dept sess semId avoid oracle).1.length ≤
      T * TUTORIAL_DURATION := by
  unfold scheduleTutorials
  split_ifs with h
  · exact Nat.zero_le _
  · exact freshSearchAux_len "Tutorial" dept sess semId code (T * TUTORIAL_DURATION)
      TUTORIAL_DURATION oracle (by decide) ⟨T, Nat.mul_comm T TUTORIAL_DURATION⟩ 1000 0
      (combosFor TUTORIAL_DURATION) [] avoid g st [] [] combosFor_tut_len ⟨0, rfl⟩
      (Nat.zero_le _)

theorem combinedStage_le (g : Grid) (st : GenState) (code : String) (L T P : Nat)
    (dept sess : String) (semId : Nat) :
    (combinedStage g st code L T P dept sess semId).1.1 ≤ P ∧
    (combinedStage g st code L T P dept sess semId).2.1.1 ≤ L ∧
    (combinedStage g st code L T P dept sess semId).2.2.1.1 ≤ T := by
  simp only [combinedStage]
  exact ⟨applyExistingCombined_le _ _ _ _ _ _ _ _ _,
    applyExistingCombined_le _ _ _ _ _ _ _ _ _,
    applyExistingCombined_le _ _ _ _ _ _ _ _ _⟩

theorem freshStage_len (g : Grid) (st : GenState) (course : CourseIn) (code : String)
    (ef : Bool) (lr er tr : Nat) (avoid : List String) (dept sess : String)
    (semId : Nat) :
    ((freshStage g st course code ef lr er tr avoid dept sess semId).1.1.length ≤
      lr * LAB_DURATION) ∧
    ((freshStage g st course code ef lr er tr avoid dept sess semId).2.2.1.1.length ≤
      tr * TUTORIAL_DURATION) ∧
    (ef = false →
      (freshStage g st course code ef lr er tr avoid dept sess semId).2.1.1.length ≤
        er * LECTURE_DURATION) := by
  simp only [freshStage]
  split_ifs <;>
    refine ⟨?_, ?_, ?_⟩ <;>
    first
      | exact Nat.zero_le _
      | exact scheduleLabs_len _ _ _ _ _ _ _ _ _
      | exact scheduleTutorials_len _ _ _ _ _ _ _ _ _
      | (intro hf
         first
           | (exfalso
              simp_all
              done)
           | exact scheduleLectures_len _ _ _ _ _ _ _ _ _
           | exact Nat.zero_le _)

/-- C3 (amended): the per-course success counts recorded by `_schedule_course`
never exceed the parsed weekly requirements for tutorials and labs, and for lectures
whenever the course is not detected as an elective.  (For electives the lecture count
can exceed the requirement — see the counterexample.) -/
theorem C3_amended (g : Grid) (st : GenState) (course : CourseIn)
    (dept sess : String) (semId : Nat) :
    ((scheduleCourse g st course dept sess semId).1.2.1 ≤ course.tutorialsPerWeek) ∧
    ((scheduleCourse g st course dept sess semId).1.2.2 ≤ course.labsPerWeek) ∧
    (electiveFlagOf course = false →
      (scheduleCourse g st course dept sess semId).1.1 ≤ course.lecturesPerWeek) := by
  simp only [scheduleCourse]
  generalize (if (List.lookup (semId, dept, sess, course.code)
      st.scheduledCourses).isNone = true then
      { st with scheduledCourses := setA st.scheduledCourses (semId, dept, sess, course.code) [] }
    else st) = st1
  have hcmble := combinedStage_le g st1 course.code course.lecturesPerWeek
    course.tutorialsPerWeek course.labsPerWeek dept sess semId
  generalize hcmb : combinedStage g st1 course.code course.lecturesPerWeek
    course.tutorialsPerWeek course.labsPerWeek dept sess semId = cmb at hcmble ⊢
  have hfrlen := freshStage_len cmb.2.2.2.1 cmb.2.2.2.2 course course.code
    (electiveFlagOf course) (course.labsPerWeek - cmb.1.1)
    (course.lecturesPerWeek - cmb.2.1.1) (course.tutorialsPerWeek - cmb.2.2.1.1)
    ((List.lookup (semId, dept, sess, course.code)
      cmb.2.2.2.2.scheduledCourses).getD []) dept sess semId
  generalize hfr : freshStage cmb.2.2.2.1 cmb.2.2.2.2 course course.code
    (electiveFlagOf course) (course.labsPerWeek - cmb.1.1)
    (course.lecturesPerWeek - cmb.2.1.1) (course.tutorialsPerWeek - cmb.2.2.1.1)
    ((List.lookup (semId, dept, sess, course.code)
      cmb.2.2.2.2.scheduledCourses).getD []) dept sess semId = fr at hfrlen ⊢
  obtain ⟨hP, hL, hT⟩ := hcmble
  obtain ⟨hlab, htut, hlec⟩ := hfrlen
  refine ⟨?_, ?_, ?_⟩
  · have hdiv : fr.2.2.1.1.length / TUTORIAL_DURATION ≤
        course.tutorialsPerWeek - cmb.2.2.1.1 :=
      Nat.le_trans (Nat.div_le_div_right htut)
        (Nat.le_of_eq (Nat.mul_div_cancel _ (by decide)))
    omega
  · have hdiv : fr.1.1.length / LAB_DURATION ≤ course.labsPerWeek - cmb.1.1 :=
      Nat.le_trans (Nat.div_le_div_right hlab)
        (Nat.le_of_eq (Nat.mul_div_cancel _ (by decide)))
    omega
  · intro hf
    have hdiv : fr.2.1.1.length / LECTURE_DURATION ≤
        course.lecturesPerWeek - cmb.2.1.1 :=
      Nat.le_trans (Nat.div_le_div_right (hlec hf))
        (Nat.le_of_eq (Nat.mul_div_cancel _ (by decide)))
    omega

set_option maxRecDepth 8000 in
set_option maxHeartbeats 1000000 in
/-- C3 (counterexample): the claim that every stored allocation count is at most the
course's requirement is false.  DSAI first schedules elective ELEC1 with 2 weekly
lectures, storing 2 common (day, start) pairs; the later ECE pass's elective ELEC2
requires only 1 lecture, but the registry replay commits every stored pair, so the
recorded allocation says 2 lectures for a course requiring 1. -/
theorem C3_counterexample :
    ¬ (∀ p ∈ ([⟨"DSAI", "Pre-Mid", fun a => (a, 0),
          [⟨"ELEC1", "Elective One", "YES", 2, 0, 0, fun _ => 0, fun _ => 0,
            fun _ => 0⟩]⟩,
        ⟨"ECE", "Pre-Mid", fun a => (a, 0),
          [⟨"ELEC2", "Elective Two", "YES", 1, 0, 0, fun _ => 0, fun _ => 0,
            fun _ => 0⟩]⟩] : List PassIn),
      ∀ c ∈ p.courses,
        (((List.lookup (1, p.department, p.session, strTrim c.code)
            (runInterp 1 [⟨"DSAI", "Pre-Mid", fun a => (a, 0),
              [⟨"ELEC1", "Elective One", "YES", 2, 0, 0, fun _ => 0, fun _ => 0,
                fun _ => 0⟩]⟩,
             ⟨"ECE", "Pre-Mid", fun a => (a, 0),
              [⟨"ELEC2", "Elective Two", "YES", 1, 0, 0, fun _ => 0, fun _ => 0,
                fun _ => 0⟩]⟩]).2.actualAllocations).getD (0, 0, 0)).1
            ≤ c.lecturesPerWeek) ∧
          (((List.lookup (1, p.department, p.session, strTrim c.code)
            (runInterp 1 [⟨"DSAI", "Pre-Mid", fun a => (a, 0),
              [⟨"ELEC1", "Elective One", "YES", 2, 0, 0, fun _ => 0, fun _ => 0,
                fun _ => 0⟩]⟩,
             ⟨"ECE", "Pre-Mid", fun a => (a, 0),
              [⟨"ELEC2", "Elective Two", "YES", 1, 0, 0, fun _ => 0, fun _ => 0,
                fun _ => 0⟩]⟩]).2.actualAllocations).getD (0, 0, 0)).2.1
            ≤ c.tutorialsPerWeek) ∧
          (((List.lookup (1, p.department, p.session, strTrim c.code)
            (runInterp 1 [⟨"DSAI", "Pre-Mid", fun a => (a, 0),
              [⟨"ELEC1", "Elective One", "YES", 2, 0, 0, fun _ => 0, fun _ => 0,
                fun _ => 0⟩]⟩,
             ⟨"ECE", "Pre-Mid", fun a => (a, 0),
              [⟨"ELEC2", "Elective Two", "YES", 1, 0, 0, fun _ => 0, fun _ => 0,
                fun _ => 0⟩]⟩]).2.actualAllocations).getD (0, 0, 0)).2.2
            ≤ c.labsPerWeek)) := by
  decide

/-- Witness for C3 (amended) at a concrete non-elective course. -/
theorem C3_amended_witness :
    ((scheduleCourse initialSchedule initialGenState
        ⟨"CS105", "Algorithms", "NO", 2, 1, 1, fun _ => 0, fun _ => 0, fun _ => 0⟩
        "DSAI" "Pre-Mid" 1).1.2.1 ≤ 1) ∧
    ((scheduleCourse initialSchedule initialGenState
        ⟨"CS105", "Algorithms", "NO", 2, 1, 1, fun _ => 0, fun _ => 0, fun _ => 0⟩
        "DSAI" "Pre-Mid" 1).1.2.2 ≤ 1) ∧
    ((scheduleCourse initialSchedule initialGenState
        ⟨"CS105", "Algorithms", "NO", 2, 1, 1, fun _ => 0, fun _ => 0, fun _ => 0⟩
        "DSAI" "Pre-Mid" 1).1.1 ≤ 2) := by
  have h := C3_amended initialSchedule initialGenState
    ⟨"CS105", "Algorithms", "NO", 2, 1, 1, fun _ => 0, fun _ => 0, fun _ => 0⟩
    "DSAI" "Pre-Mid" 1
  exact ⟨h.1, h.2.1, h.2.2 (by decide)⟩

/-! ### Minor-registry preservation and commit types (C10) -/

theorem electiveReplayAux_minorEq (avoid : List String) (code dept sess : String)
    (semId : Nat) :
    ∀ assigned acc commits g st,
    (electiveReplayAux avoid code dept sess semId assigned acc commits g
      st).2.2.2.semesterMinorSlots = st.semesterMinorSlots := by
  intro assigned
  induction assigned with
  | nil =>
      intro acc commits g st
      rfl
  | cons p rest ih =>
      rcases p with ⟨day, start⟩
      intro acc commits g st
      simp only [electiveReplayAux]
      split_ifs with h1
      · exact ih _ _ _ _
      · exact (ih _ _ _ _).trans ((markGlobalFold_nonGlobal _ _ _ _ _ _).1)

theorem scheduleElectiveClasses_minorEq (g : Grid) (st : GenState) (code : String)
    (n : Nat) (dept sess : String) (semId : Nat) (avoid : List String)
    (oracle : Nat → Nat) :
    (scheduleElectiveClasses g st code n dept sess semId avoid
      oracle).2.2.2.semesterMinorSlots = st.semesterMinorSlots := by
  unfold scheduleElectiveClasses
  split_ifs with h0
  · rfl
  · rcases hc : List.lookup (semKeyOf semId, "ALL_ELECTIVES") st.semesterElectiveSlots
      with _ | assigned
    · rcases he : List.lookup (semKeyOf semId, code) st.semesterElectiveSlots
        with _ | assigned2
      · simp only [hc, he]
        split_ifs with h1
        · exact (electiveFreshAux_nonGlobal dept sess semId code n oracle 1000 0
            (combosFor LECTURE_DURATION) [] avoid 0 [] g st [] []).1
        · exact (electiveFreshAux_nonGlobal dept sess semId code n oracle 1000 0
            (combosFor LECTURE_DURATION) [] avoid 0 [] g st [] []).1
      · simp only [hc, he]
        exact electiveReplayAux_minorEq avoid code dept sess semId assigned2 [] [] g _
    · simp only [hc]
      exact electiveReplayAux_minorEq avoid code dept sess semId assigned [] [] g st

theorem scheduleLabs_minorEq (g : Grid) (st : GenState) (code : String) (P : Nat)
    (dept sess : String) (semId : Nat) (avoid : List String) (oracle : Nat → Nat) :
    (scheduleLabs g st code P dept sess semId avoid
      oracle).2.2.2.semesterMinorSlots = st.semesterMinorSlots := by
  unfold scheduleLabs
  split_ifs with h
  · rfl
  · exact (freshSearchAux_nonGlobal _ _ _ _ _ _ _ _ _ _ _ _ _ _ _ _).1

theorem scheduleLectures_minorEq (g : Grid) (st : GenState) (code : String) (L : Nat)
    (dept sess : String) (semId : Nat) (avoid : List String) (oracle : Nat → Nat) :
    (scheduleLectures g st code L dept sess semId avoid
      oracle).2.2.2.semesterMinorSlots = st.semesterMinorSlots := by
  unfold scheduleLectures
  split_ifs with h
  · rfl
  · exact (freshSearchAux_nonGlobal _ _ _ _ _ _ _ _ _ _ _ _ _ _ _ _).1

theorem scheduleTutorials_minorEq (g : Grid) (st : GenState) (code : String) (T : Nat)
    (dept sess : String) (semId : Nat) (avoid : List String) (oracle : Nat → Nat) :
    (scheduleTutorials g st code T dept sess semId avoid
      oracle).2.2.2.semesterMinorSlots = st.semesterMinorSlots := by
  unfold scheduleTutorials
  split_ifs with h
  · rfl
  · exact (freshSearchAux_nonGlobal _ _ _ _ _ _ _ _ _ _ _ _ _ _ _ _).1

theorem combinedStage_minorEq (g : Grid) (st : GenState) (code : String) (L T P : Nat)
    (dept sess : String) (semId : Nat) :
    (combinedStage g st code L T P dept sess
      semId).2.2.2.2.semesterMinorSlots = st.semesterMinorSlots := by
  simp only [combinedStage]
  rw [(applyExistingCombined_nonGlobal _ _ _ _ _ _ _ _ _).1,
    (applyExistingCombined_nonGlobal _ _ _ _ _ _ _ _ _).1,
    (applyExistingCombined_nonGlobal _ _ _ _ _ _ _ _ _).1]

theorem freshStage_minorEq (g : Grid) (st : GenState) (course : CourseIn)
    (code : String) (ef : Bool) (lr er tr : Nat) (avoid : List String)
    (dept sess : String) (semId : Nat) :
    (freshStage g st course code ef lr er tr avoid dept sess
      semId).2.2.2.2.semesterMinorSlots = st.semesterMinorSlots := by
  simp only [freshStage]
  split_ifs <;>
    simp only [scheduleLabs_minorEq, scheduleLectures_minorEq, scheduleTutorials_minorEq,
      scheduleElectiveClasses_minorEq]

theorem scheduleCourse_minorEq (g : Grid) (st : GenState) (course : CourseIn)
    (dept sess : String) (semId : Nat) :
    (scheduleCourse g st course dept sess
      semId).2.2.2.semesterMinorSlots = st.semesterMinorSlots := by
  simp only [scheduleCourse]
  split_ifs with h0 <;>
    rw [freshStage_minorEq, combinedStage_minorEq]

theorem mem_append6 {α : Type} {l1 l2 l3 l4 l5 l6 : List α} {c : α}
    (hc : c ∈ l1 ++ l2 ++ l3 ++ l4 ++ l5 ++ l6) :
    c ∈ l1 ++ (l2 ++ l3) ∨ c ∈ l4 ++ (l5 ++ l6) := by
  simp only [List.mem_append] at hc ⊢
  tauto

theorem freshSearchAux_ctype (ct dept sess : String) (semId : Nat) (code : String)
    (target : Nat) (oracle : Nat → Nat) :
    ∀ fuel attempt combos used avoid g st acc commits,
    ∀ c ∈ (freshSearchAux ct dept sess semId code target oracle fuel attempt combos
        used avoid g st acc commits).2.1,
      c ∈ commits ∨ c.ctype = ct := by
  intro fuel
  induction fuel with
  | zero =>
      intro attempt combos used avoid g st acc commits c hc
      exact Or.inl hc
  | succ n ih =>
      intro attempt combos used avoid g st acc commits c hc
      simp only [freshSearchAux] at hc
      split_ifs at hc with h1 h2 h3 h4 h5 <;>
        first
          | exact Or.inl hc
          | exact ih _ _ _ _ _ _ _ _ c hc
          | exact (ih _ _ _ _ _ _ _ _ c hc).elim
              (fun hin => (List.mem_append.mp hin).elim Or.inl
                (fun hB => Or.inr (congrArg Commit.ctype (List.mem_singleton.mp hB))))
              Or.inr

theorem electiveReplayAux_ctype (avoid : List String) (code dept sess : String)
    (semId : Nat) :
    ∀ assigned acc commits g st,
    ∀ c ∈ (electiveReplayAux avoid code dept sess semId assigned acc commits g st).2.1,
      c ∈ commits ∨ c.ctype = "Lecture" := by
  intro assigned
  induction assigned with
  | nil =>
      intro acc commits g st c hc
      exact Or.inl hc
  | cons p rest ih =>
      rcases p with ⟨day, start⟩
      intro acc commits g st c hc
      simp only [electiveReplayAux] at hc
      split_ifs at hc with h1
      · exact ih _ _ _ _ c hc
      · rcases ih _ _ _ _ c hc with hin | hty
        · rcases List.mem_append.mp hin with hA | hB
          · exact Or.inl hA
          · rw [List.mem_singleton.mp hB]
            exact Or.inr rfl
        · exact Or.inr hty

theorem electiveFreshAux_ctype (dept sess : String) (semId : Nat) (code : String)
    (need : Nat) (oracle : Nat → Nat) :
    ∀ fuel attempt combos used avoid scheduled assigned g st acc commits,
    ∀ c ∈ (electiveFreshAux dept sess semId code need oracle fuel attempt combos used
        avoid scheduled assigned g st acc commits).2.1,
      c ∈ commits ∨ c.ctype = "Lecture" := by
  intro fuel
  induction fuel with
  | zero =>
      intro attempt combos used avoid scheduled assigned g st acc commits c hc
      exact Or.inl hc
  | succ n ih =>
      intro attempt combos used avoid scheduled assigned g st acc commits c hc
      simp only [electiveFreshAux] at hc
      split_ifs at hc with h1 h2 h3 h4 h5 <;>
        first
          | exact Or.inl hc
          | exact ih _ _ _ _ _ _ _ _ _ _ c hc
          | exact (ih _ _ _ _ _ _ _ _ _ _ c hc).elim
              (fun hin => (List.mem_append.mp hin).elim Or.inl
                (fun hB => Or.inr (congrArg Commit.ctype (List.mem_singleton.mp hB))))
              Or.inr

theorem applyCombinedLoop_ctype (code comp : String) (dur req : Nat)
    (dept sess : String) (semId : Nat) :
    ∀ pairs applied accSlots commits g st,
    ∀ c ∈ (applyCombinedLoop code comp dur req dept sess semId pairs applied accSlots
        commits g st).2.2.1,
      c ∈ commits ∨ c.ctype = comp := by
  intro pairs
  induction pairs with
  | nil =>
      intro applied accSlots commits g st c hc
      exact Or.inl hc
  | cons p rest ih =>
      rcases p with ⟨day, start⟩
      intro applied accSlots commits g st c hc
      simp only [applyCombinedLoop] at hc
      split_ifs at hc with h1 h2
      · rcases List.mem_append.mp hc with hA | hB
        · exact Or.inl hA
        · rw [List.mem_singleton.mp hB]
          exact Or.inr rfl
      · rcases ih _ _ _ _ _ c hc with hin | hty
        · rcases List.mem_append.mp hin with hA | hB
          · exact Or.inl hA
          · rw [List.mem_singleton.mp hB]
            exact Or.inr rfl
        · exact Or.inr hty
      · exact ih _ _ _ _ _ c hc

theorem applyExistingCombined_ctype (g : Grid) (st : GenState) (code comp : String)
    (dur req : Nat) (dept sess : String) (semId : Nat) :
    ∀ c ∈ (applyExistingCombined g st code comp dur req dept sess semId).2.2.1,
      c.ctype = comp := by
  unfold applyExistingCombined
  split_ifs with h
  · intro c hc
    cases hc
  · intro c hc
    rcases applyCombinedLoop_ctype code comp dur req dept sess semId _ _ _ _ _ _ c hc
      with hin | hty
    · cases hin
    · exact hty

theorem scheduleElectiveClasses_ctype (g : Grid) (st : GenState) (code : String)
    (n : Nat) (dept sess : String) (semId : Nat) (avoid : List String)
    (oracle : Nat → Nat) :
    ∀ c ∈ (scheduleElectiveClasses g st code n dept sess semId avoid oracle).2.1,
      c.ctype = "Lecture" := by
  unfold scheduleElectiveClasses
  split_ifs with h0
  · intro c hc
    cases hc
  · rcases hc : List.lookup (semKeyOf semId, "ALL_ELECTIVES") st.semesterElectiveSlots
      with _ | assigned
    · rcases he : List.lookup (semKeyOf semId, code) st.semesterElectiveSlots
        with _ | assigned2
      · simp only [hc, he]
        intro c hcm
        rcases electiveFreshAux_ctype dept sess semId code n oracle 1000 0
            (combosFor LECTURE_DURATION) [] avoid 0 [] g st [] [] c hcm
          with hin | hty
        · cases hin
        · exact hty
      · simp only [hc, he]
        intro c hcm
        rcases electiveReplayAux_ctype avoid code dept sess semId assigned2 [] [] g _
            c hcm with hin | hty
        · cases hin
        · exact hty
    · simp only [hc]
      intro c hcm
      rcases electiveReplayAux_ctype avoid code dept sess semId assigned [] [] g st
          c hcm with hin | hty
      · cases hin
      · exact hty

theorem scheduleCourse_not_minor (g : Grid) (st : GenState) (course : CourseIn)
    (dept sess : String) (semId : Nat) :
    ∀ c ∈ (scheduleCourse g st course dept sess semId).2.1, c.ctype ≠ "Minor" := by
  have hlab : ∀ (g' : Grid) (st' : GenState) (n : Nat) (avoid : List String)
      (oracle : Nat → Nat),
      ∀ c ∈ (scheduleLabs g' st' course.code n dept sess semId avoid oracle).2.1,
        c.ctype ≠ "Minor" := by
    intro g' st' n avoid oracle c hc
    unfold scheduleLabs at hc
    split_ifs at hc with h
    · cases hc
    · rcases freshSearchAux_ctype "Lab" dept sess semId course.code _ oracle _ _ _ _ _
          _ _ _ _ c hc with hin | hty
      · cases hin
      · rw [hty]
        decide
  have hlec : ∀ (g' : Grid) (st' : GenState) (n : Nat) (avoid : List String)
      (oracle : Nat → Nat),
      ∀ c ∈ (scheduleLectures g' st' course.code n dept sess semId avoid oracle).2.1,
        c.ctype ≠ "Minor" := by
    intro g' st' n avoid oracle c hc
    unfold scheduleLectures at hc
    split_ifs at hc with h
    · cases hc
    · rcases freshSearchAux_ctype "Lecture" dept sess semId course.code _ oracle _ _ _
          _ _ _ _ _ _ c hc with hin | hty
      · cases hin
      · rw [hty]
        decide
  have htut : ∀ (g' : Grid) (st' : GenState) (n : Nat) (avoid : List String)
      (oracle : Nat → Nat),
      ∀ c ∈ (scheduleTutorials g' st' course.code n dept sess semId avoid oracle).2.1,
        c.ctype ≠ "Minor" := by
    intro g' st' n avoid oracle c hc
    unfold scheduleTutorials at hc
    split_ifs at hc with h
    · cases hc
    · rcases freshSearchAux_ctype "Tutorial" dept sess semId course.code _ oracle _ _ _
          _ _ _ _ _ _ c hc with hin | hty
      · cases hin
      · rw [hty]
        decide
  have hfresh : ∀ (g' : Grid) (st' : GenState) (ef : Bool) (lr er tr : Nat)
      (avoid : List String),
      ∀ c ∈ ((freshStage g' st' course course.code ef lr er tr avoid dept sess
          semId).1.2 ++
        ((freshStage g' st' course course.code ef lr er tr avoid dept sess
          semId).2.1.2 ++
         (freshStage g' st' course course.code ef lr er tr avoid dept sess
          semId).2.2.1.2)), c.ctype ≠ "Minor" := by
    intro g' st' ef lr er tr avoid c hc
    rcases List.mem_append.mp hc with hA | hBC
    · revert hA
      simp only [freshStage]
      split_ifs <;>
        first
          | (intro hA; cases hA)
          | exact fun hA => hlab _ _ _ _ _ c hA
    · rcases List.mem_append.mp hBC with hB | hC
      · revert hB
        simp only [freshStage]
        split_ifs <;>
          first
            | (intro hB; cases hB)
            | exact fun hB => hlec _ _ _ _ _ c hB
            | (intro hB
               rw [scheduleElectiveClasses_ctype _ _ _ _ _ _ _ _ _ c hB]
               decide)
      · revert hC
        simp only [freshStage]
        split_ifs <;>
          first
            | (intro hC; cases hC)
            | exact fun hC => htut _ _ _ _ _ c hC
  have hcmb : ∀ (st' : GenState),
      ∀ c ∈ ((combinedStage g st' course.code course.lecturesPerWeek
          course.tutorialsPerWeek course.labsPerWeek dept sess semId).1.2.2 ++
        ((combinedStage g st' course.code course.lecturesPerWeek
          course.tutorialsPerWeek course.labsPerWeek dept sess semId).2.1.2.2 ++
         (combinedStage g st' course.code course.lecturesPerWeek
          course.tutorialsPerWeek course.labsPerWeek dept sess semId).2.2.1.2.2)),
        c.ctype ≠ "Minor" := by
    intro st' c hc
    rcases List.mem_append.mp hc with hA | hBC
    · rw [applyExistingCombined_ctype _ _ _ _ _ _ _ _ _ c (by simpa [combinedStage]
        using hA)]
      decide
    · rcases List.mem_append.mp hBC with hB | hC
      · rw [applyExistingCombined_ctype _ _ _ _ _ _ _ _ _ c (by simpa [combinedStage]
          using hB)]
        decide
      · rw [applyExistingCombined_ctype _ _ _ _ _ _ _ _ _ c (by simpa [combinedStage]
          using hC)]
        decide
  intro c hc
  revert hc
  simp only [scheduleCourse]
  split_ifs with h0 <;>
    (intro hc
     rcases mem_append6 hc with hA | hB
     · exact hcmb _ c hA
     · exact hfresh _ _ _ _ _ _ _ c hB)

/-- Well-formedness of the shared minor registry: every stored entry has at most
`MINOR_CLASSES_PER_WEEK` pairs, each starting at a valid minor start slot. -/
def MinorWF (st : GenState) : Prop :=
  ∀ k ps, List.lookup k st.semesterMinorSlots = some ps →
    ps.length ≤ MINOR_CLASSES_PER_WEEK ∧ ∀ pr ∈ ps, pr.2 ∈ minorStarts

theorem minorWF_of_eq {st st' : GenState}
    (h : st'.semesterMinorSlots = st.semesterMinorSlots) (hwf : MinorWF st) :
    MinorWF st' := by
  intro k ps hk
  rw [h] at hk
  exact hwf k ps hk

theorem minorWF_initial : MinorWF initialGenState := by
  intro k ps hk
  cases hk

theorem minorStarts_cover :
    ∀ s ∈ minorStarts, ∀ x ∈ getConsecutiveSlots s MINOR_DURATION, x ∈ MINOR_SLOTS := by
  decide

theorem minorStarts_pos : 0 < minorStarts.length := by decide

theorem minorFreshAux_wf (dept sess : String) (semId : Nat) (oracle : Nat → Nat × Nat) :
    ∀ fuel attempt scheduled assigned g st commits,
    scheduled ≤ MINOR_CLASSES_PER_WEEK →
    assigned.length ≤ scheduled →
    commits.length ≤ scheduled →
    (∀ pr ∈ assigned, pr.2 ∈ minorStarts) →
    (∀ c ∈ commits, c.ctype = "Minor" ∧ ∀ s ∈ c.slots, s ∈ MINOR_SLOTS) →
    ((minorFreshAux dept sess semId oracle fuel attempt scheduled assigned g st
        commits).1.length ≤ MINOR_CLASSES_PER_WEEK) ∧
    ((minorFreshAux dept sess semId oracle fuel attempt scheduled assigned g st
        commits).2.2.2.length ≤ MINOR_CLASSES_PER_WEEK) ∧
    (∀ pr ∈ (minorFreshAux dept sess semId oracle fuel attempt scheduled assigned g st
        commits).1, pr.2 ∈ minorStarts) ∧
    (∀ c ∈ (minorFreshAux dept sess semId oracle fuel attempt scheduled assigned g st
        commits).2.2.2, c.ctype = "Minor" ∧ ∀ s ∈ c.slots, s ∈ MINOR_SLOTS) := by
  intro fuel
  induction fuel with
  | zero =>
      intro attempt scheduled assigned g st commits hs ha hcm hstarts hctype
      exact ⟨Nat.le_trans ha hs, Nat.le_trans hcm hs, hstarts, hctype⟩
  | succ n ih =>
      intro attempt scheduled assigned g st commits hs ha hcm hstarts hctype
      simp only [minorFreshAux]
      split_ifs with h1 h2
      · refine ih _ _ _ _ _ _ h1 ?_ ?_ ?_ ?_
        · rw [List.length_append]
          simpa using Nat.add_le_add ha (Nat.le_refl 1)
        · rw [List.length_append]
          simpa using Nat.add_le_add hcm (Nat.le_refl 1)
        · intro pr hpr
          rcases List.mem_append.mp hpr with hA | hB
          · exact hstarts pr hA
          · rw [List.mem_singleton.mp hB]
            exact getD_mem_of_lt _ _ _ (Nat.mod_lt _ minorStarts_pos)
        · intro c hcmem
          rcases List.mem_append.mp hcmem with hA | hB
          · exact hctype c hA
          · rw [List.mem_singleton.mp hB]
            refine ⟨rfl, ?_⟩
            intro s hsm
            exact minorStarts_cover _
              (getD_mem_of_lt _ _ _ (Nat.mod_lt _ minorStarts_pos)) s hsm
      · exact ih _ _ _ _ _ _ hs ha hcm hstarts hctype
      · exact ⟨Nat.le_trans ha hs, Nat.le_trans hcm hs, hstarts, hctype⟩

theorem scheduleMinorClasses_spec (g : Grid) (st : GenState) (dept sess : String)
    (semId : Nat) (oracle : Nat → Nat × Nat) (hwf : MinorWF st) :
    ((scheduleMinorClasses g st dept sess semId oracle).2.2.length ≤
      MINOR_CLASSES_PER_WEEK) ∧
    (∀ c ∈ (scheduleMinorClasses g st dept sess semId oracle).2.2,
      c.ctype = "Minor" ∧ ∀ s ∈ c.slots, s ∈ MINOR_SLOTS) ∧
    MinorWF (scheduleMinorClasses g st dept sess semId oracle).2.1 := by
  unfold scheduleMinorClasses
  split_ifs with h1 h2
  · exact ⟨by simp [MINOR_CLASSES_PER_WEEK], by simp, hwf⟩
  · exact ⟨by simp [MINOR_CLASSES_PER_WEEK], by simp, hwf⟩
  · rcases hm : List.lookup (semKeyOf semId) st.semesterMinorSlots with _ | assigned
    · simp only [hm]
      obtain ⟨hlen1, hlen2, hstarts, hctype⟩ := minorFreshAux_wf dept sess semId oracle
        200 0 0 [] g st [] (by decide) (by simp) (by simp) (by simp) (by simp)
      refine ⟨hlen2, hctype, ?_⟩
      split_ifs with h3
      · exact minorWF_of_eq
          (minorFreshAux_nonGlobal dept sess semId oracle 200 0 0 [] g st []).1 hwf
      · intro k ps hk
        have hk2 : List.lookup k (setA (minorFreshAux dept sess semId oracle 200 0 0
            [] g st []).2.2.1.semesterMinorSlots (semKeyOf semId)
            (minorFreshAux dept sess semId oracle 200 0 0 [] g st []).1)
            = some ps := hk
        by_cases hkk : k = semKeyOf semId
        · subst hkk
          rw [lookup_setA_self] at hk2
          obtain rfl := Option.some.inj hk2
          exact ⟨hlen1, hstarts⟩
        · rw [lookup_setA_other _ _ _ _ hkk,
            (minorFreshAux_nonGlobal dept sess semId oracle 200 0 0 [] g st []).1]
            at hk2
          exact hwf k ps hk2
    · simp only [hm]
      unfold minorReplay
      obtain ⟨hwfl, hwfs⟩ := hwf (semKeyOf semId) assigned hm
      obtain ⟨hcommits, hreg⟩ := minorReplayAux_parts dept sess semId assigned g st []
      refine ⟨?_, ?_, minorWF_of_eq hreg hwf⟩
      · rw [hcommits]
        simpa using hwfl
      · intro c hcm
        rw [hcommits] at hcm
        simp only [List.nil_append] at hcm
        rcases List.mem_map.mp hcm with ⟨pr, hpr, rfl⟩
        exact ⟨rfl, fun s hsm => minorStarts_cover _ (hwfs pr hpr) s hsm⟩

theorem coursesFold_minorEq (dept sess : String) (semId : Nat) :
    ∀ (courses : List CourseIn) (start : List Commit × Grid × GenState),
    ((courses.foldl
      (fun out course =>
        if course.code == "" || course.code == "nan" then out
        else
          let so := scheduleCourse out.2.1 out.2.2 course dept sess semId
          (out.1 ++ so.2.1, so.2.2.1, so.2.2.2))
      start).2.2.semesterMinorSlots) = start.2.2.semesterMinorSlots := by
  intro courses
  induction courses with
  | nil =>
      intro start
      rfl
  | cons c rest ih =>
      intro start
      rw [List.foldl_cons]
      by_cases hcc : (c.code == "" || c.code == "nan") = true
      · rw [if_pos hcc]
        exact ih start
      · rw [if_neg hcc, ih]
        exact scheduleCourse_minorEq start.2.1 start.2.2 c dept sess semId

theorem coursesFold_commits_shape (dept sess : String) (semId : Nat) :
    ∀ (courses : List CourseIn) (start : List Commit × Grid × GenState),
    ∃ rest, (courses.foldl
      (fun out course =>
        if course.code == "" || course.code == "nan" then out
        else
          let so := scheduleCourse out.2.1 out.2.2 course dept sess semId
          (out.1 ++ so.2.1, so.2.2.1, so.2.2.2))
      start).1 = start.1 ++ rest ∧ ∀ c ∈ rest, c.ctype ≠ "Minor" := by
  intro courses
  induction courses with
  | nil =>
      intro start
      exact ⟨[], by simp, by simp⟩
  | cons c rest ih =>
      intro start
      rw [List.foldl_cons]
      by_cases hcc : (c.code == "" || c.code == "nan") = true
      · rw [if_pos hcc]
        exact ih start
      · rw [if_neg hcc]
        obtain ⟨r2, hsh, hne⟩ := ih
          (start.1 ++ (scheduleCourse start.2.1 start.2.2 c dept sess semId).2.1,
           (scheduleCourse start.2.1 start.2.2 c dept sess semId).2.2.1,
           (scheduleCourse start.2.1 start.2.2 c dept sess semId).2.2.2)
        refine ⟨(scheduleCourse start.2.1 start.2.2 c dept sess semId).2.1 ++ r2, ?_, ?_⟩
        · rw [hsh, List.append_assoc]
        · intro c' hc'
          rcases List.mem_append.mp hc' with hA | hB
          · exact scheduleCourse_not_minor start.2.1 start.2.2 c dept sess semId c' hA
          · exact hne c' hB

theorem runPass_sem1_minorEq (st : GenState) (p : PassIn) :
    (runPass 1 st p).2.semesterMinorSlots = st.semesterMinorSlots := by
  simp only [runPass]
  split_ifs with h0 <;> (rw [coursesFold_minorEq]; rfl)

theorem runPass_sem1_no_minor (st : GenState) (p : PassIn) :
    ∀ c ∈ (runPass 1 st p).1.commits, c.ctype ≠ "Minor" := by
  simp only [runPass]
  split_ifs with h0 <;>
    (intro c hc
     obtain ⟨rest, hsh, hne⟩ := coursesFold_commits_shape p.department p.session 1
       p.courses _
     rw [hsh] at hc
     rcases List.mem_append.mp hc with hA | hB
     · cases hA
     · exact hne c hB)

theorem runPass_minor_spec (semId : Nat) (st : GenState) (p : PassIn)
    (hwf : MinorWF st) :
    (((runPass semId st p).1.commits.filter
        (fun c => c.ctype == "Minor")).length ≤ MINOR_CLASSES_PER_WEEK) ∧
    (∀ c ∈ (runPass semId st p).1.commits, c.ctype = "Minor" →
      ∀ s ∈ c.slots, s ∈ MINOR_SLOTS) ∧
    MinorWF (runPass semId st p).2 := by
  simp only [runPass]
  have hwf1 : MinorWF (if (List.lookup (semKeyOf semId) st.semesterGlobalSlots).isNone
      = true then
      { st with semesterGlobalSlots := setA st.semesterGlobalSlots (semKeyOf semId) [] }
    else st) := by
    split_ifs with h0
    · exact minorWF_of_eq rfl hwf
    · exact hwf
  generalize (if (List.lookup (semKeyOf semId) st.semesterGlobalSlots).isNone
      = true then
      { st with semesterGlobalSlots := setA st.semesterGlobalSlots (semKeyOf semId) [] }
    else st) = st1 at hwf1 ⊢
  obtain ⟨hcount, hslots, hwf2⟩ := scheduleMinorClasses_spec initialSchedule st1
    p.department p.session semId p.minorOracle hwf1
  obtain ⟨rest, hsh, hne⟩ := coursesFold_commits_shape p.department p.session semId
    p.courses
    ((scheduleMinorClasses initialSchedule st1 p.department p.session semId
        p.minorOracle).2.2,
     (scheduleMinorClasses initialSchedule st1 p.department p.session semId
        p.minorOracle).1,
     (scheduleMinorClasses initialSchedule st1 p.department p.session semId
        p.minorOracle).2.1)
  refine ⟨?_, ?_, ?_⟩
  · rw [hsh, List.filter_append]
    rw [show (List.filter (fun c => c.ctype == "Minor") rest) = [] from
      List.filter_eq_nil_iff.mpr (fun c hc => by simpa using hne c hc)]
    rw [List.append_nil]
    exact Nat.le_trans (List.length_filter_le _ _) hcount
  · intro c hc hty s hs
    rw [hsh] at hc
    rcases List.mem_append.mp hc with hA | hB
    · exact (hslots c hA).2 s hs
    · exact absurd hty (hne c hB)
  · exact minorWF_of_eq (coursesFold_minorEq p.department p.session semId
      p.courses _) hwf2

theorem runFold_sem1_minorEq :
    ∀ (passes : List PassIn) (acc : List PassOut) (st : GenState),
    ((passes.foldl (fun out p =>
        let r := runPass 1 out.2 p
        (out.1 ++ [r.1], r.2)) (acc, st)).2.semesterMinorSlots)
      = st.semesterMinorSlots := by
  intro passes
  induction passes with
  | nil =>
      intro acc st
      rfl
  | cons p rest ih =>
      intro acc st
      rw [List.foldl_cons]
      exact (ih (acc ++ [(runPass 1 st p).1]) (runPass 1 st p).2).trans
        (runPass_sem1_minorEq st p)

theorem runFold_sem1_no_minor :
    ∀ (passes : List PassIn) (acc : List PassOut) (st : GenState),
    ∀ po ∈ (passes.foldl (fun out p =>
        let r := runPass 1 out.2 p
        (out.1 ++ [r.1], r.2)) (acc, st)).1,
      po ∈ acc ∨ ∀ c ∈ po.commits, c.ctype ≠ "Minor" := by
  intro passes
  induction passes with
  | nil =>
      intro acc st po hpo
      exact Or.inl hpo
  | cons p rest ih =>
      intro acc st po hpo
      rw [List.foldl_cons] at hpo
      rcases ih (acc ++ [(runPass 1 st p).1]) (runPass 1 st p).2 po hpo
        with hin | hres
      · rcases List.mem_append.mp hin with hA | hB
        · exact Or.inl hA
        · rw [List.mem_singleton.mp hB]
          exact Or.inr (runPass_sem1_no_minor st p)
      · exact Or.inr hres

theorem runFold_minor :
    ∀ (semId : Nat) (passes : List PassIn) (acc : List PassOut) (st : GenState),
    MinorWF st →
    MinorWF (passes.foldl (fun out p =>
        let r := runPass semId out.2 p
        (out.1 ++ [r.1], r.2)) (acc, st)).2 ∧
    (∀ po ∈ (passes.foldl (fun out p =>
        let r := runPass semId out.2 p
        (out.1 ++ [r.1], r.2)) (acc, st)).1,
      po ∈ acc ∨
        (((po.commits.filter (fun c => c.ctype == "Minor")).length ≤
            MINOR_CLASSES_PER_WEEK) ∧
         ∀ c ∈ po.commits, c.ctype = "Minor" → ∀ s ∈ c.slots, s ∈ MINOR_SLOTS)) := by
  intro semId passes
  induction passes with
  | nil =>
      intro acc st hwf
      exact ⟨hwf, fun po hpo => Or.inl hpo⟩
  | cons p rest ih =>
      intro acc st hwf
      rw [List.foldl_cons]
      obtain ⟨hcount, hslots, hwf2⟩ := runPass_minor_spec semId st p hwf
      obtain ⟨ihwf, ihmem⟩ := ih (acc ++ [(runPass semId st p).1])
        (runPass semId st p).2 hwf2
      refine ⟨ihwf, ?_⟩
      intro po hpo
      rcases ihmem po hpo with hin | hres
      · rcases List.mem_append.mp hin with hA | hB
        · exact Or.inl hA
        · rw [List.mem_singleton.mp hB]
          exact Or.inr ⟨hcount, hslots⟩
      · exact Or.inr hres

/-- C10: the minor block.  (1) For semester 1, `_schedule_minor_classes` is the
identity: same grid, same state, no commits.  (2) Over a full semester-1 run the
shared minor registry never acquires an entry for semester 1.  (3) No Minor placement
appears in any semester-1 pass.  (4) For every semester, every pass places at most
`MINOR_CLASSES_PER_WEEK` Minor placements and every Minor placement covers only
designated `MINOR_SLOTS`. -/
theorem C10_minor_block (passes : List PassIn) (semId : Nat) :
    (∀ (g : Grid) (st : GenState) (dept sess : String) (oracle : Nat → Nat × Nat),
      scheduleMinorClasses g st dept sess 1 oracle = (g, st, [])) ∧
    (List.lookup (semKeyOf 1) (runInterp 1 passes).2.semesterMinorSlots = none) ∧
    (∀ po ∈ (runInterp 1 passes).1, ∀ c ∈ po.commits, c.ctype ≠ "Minor") ∧
    (∀ po ∈ (runInterp semId passes).1,
      ((po.commits.filter (fun c => c.ctype == "Minor")).length ≤
        MINOR_CLASSES_PER_WEEK) ∧
      (∀ c ∈ po.commits, c.ctype = "Minor" → ∀ s ∈ c.slots, s ∈ MINOR_SLOTS)) := by
  refine ⟨fun g st dept sess oracle => rfl, ?_, ?_, ?_⟩
  · show List.lookup (semKeyOf 1) (runInterp 1 passes).2.semesterMinorSlots = none
    unfold runInterp
    rw [runFold_sem1_minorEq]
    rfl
  · intro po hpo
    unfold runInterp at hpo
    rcases runFold_sem1_no_minor passes [] initialGenState po hpo with hin | hres
    · cases hin
    · exact hres
  · intro po hpo
    unfold runInterp at hpo
    rcases (runFold_minor semId passes [] initialGenState minorWF_initial).2 po hpo
      with hin | hres
    · cases hin
    · exact hres

/-- Witness for C10 at a concrete call and a concrete (empty) run. -/
theorem C10_minor_block_witness :
    (scheduleMinorClasses initialSchedule initialGenState "DSAI" "Pre-Mid" 1
      (fun _ => (0, 0)) = (initialSchedule, initialGenState, [])) ∧
    (List.lookup (semKeyOf 1)
      (runInterp 1 [⟨"DSAI", "Pre-Mid", fun a => (a, 0),
        []⟩]).2.semesterMinorSlots = none) :=
  ⟨(C10_minor_block [⟨"DSAI", "Pre-Mid", fun a => (a, 0), []⟩] 1).1 initialSchedule
    initialGenState "DSAI" "Pre-Mid" (fun _ => (0, 0)),
   (C10_minor_block [⟨"DSAI", "Pre-Mid", fun a => (a, 0), []⟩] 1).2.1⟩

end Timetable
